import Mathlib

/-!
# Stypyd-FX: indicator library and trade simulator

A shallow embedding of the two current variants of the program,
`src/signalv_e.cpp` (namespace `SignalvE`) and `src/signalv_g.cpp`
(namespace `SignalvG`).

Conventions of the embedding

* `double` is the field `ℚ` (exact arithmetic); the literal `-1e9` is the
  rational `-1000000000`.  The statements below reach a division by `period`
  only with `period ≥ 1`, so no division by zero is ever evaluated.
* `size_t` is a `Nat` below `2^64`, `int` an `Int` in `[-2^31, 2^31)`,
  `long long` an `Int` in `[-2^63, 2^63)`.  Arithmetic that the source does in
  one of these types is reduced explicitly (`% 2^64`, `wrapInt`, `wrapLL`),
  and an `int` compared or combined with a `size_t` is first converted with
  `toSizeT`, as the usual arithmetic conversions do.
* `std::vector<T>` is a `List T`; `v[i]` is `v[i]?`, and an out-of-bounds
  read makes the whole function return `none`.
* A counting `for` loop is `forLoop body start count init`: the loop variable
  runs over `start, start+1, …` for `count` iterations, and the loop-carried
  variables are passed explicitly.  `for (i = start; i <= end_index; ++i)`
  makes `end_index + 1 - start` iterations (none when `start > end_index`) and
  `for (i = start; i < size; ++i)` makes `size - start` (none when
  `start ≥ size`), the subtraction being the truncated one of `Nat`.
* Where the two variants differ, each has its own definition; the names of
  the source are kept.
-/

namespace Signalv

/-! ## Machine integers -/

/-- Reduction of an integer to the 32-bit two's-complement range of `int`. -/
def wrapInt (x : Int) : Int := (x + 2147483648) % 4294967296 - 2147483648

/-- Reduction of an integer to the 64-bit two's-complement range of `long long`. -/
def wrapLL (x : Int) : Int :=
  (x + 9223372036854775808) % 18446744073709551616 - 9223372036854775808

/-- Conversion of a signed value to `size_t`: reduction modulo `2^64`. -/
def toSizeT (x : Int) : Nat := (x % 18446744073709551616).toNat

/-- The `size_t` value `end_index + 1`. -/
def sizeSucc (i : Nat) : Nat := (i + 1) % 18446744073709551616

/-- The `size_t` value `i - 1` (it wraps to `2^64 - 1` at `i = 0`). -/
def sizePred (i : Nat) : Nat := toSizeT ((i : Int) - 1)

/-! ## Loops -/

/-- A counting loop: `count` iterations, the loop variable starting at `i`
and incremented after each one; `s` holds the loop-carried variables.  A
faulting body (an out-of-bounds read) makes the loop fault. -/
def forLoop {σ : Type} (body : Nat → σ → Option σ) : Nat → Nat → σ → Option σ
  | _, 0, s => some s
  | i, count + 1, s =>
    match body i s with
    | none => none
    | some s' => forLoop body (i + 1) count s'

/-- One step of a summation loop `sum += prices[i]`. -/
def sumBody (prices : List ℚ) (i : Nat) (sum : ℚ) : Option ℚ :=
  match prices[i]? with
  | none => none
  | some x => some (sum + x)

/-- The guard `end_index + 1 < period || period <= 0` of `computeSMA`
(the `int` period is converted to `size_t` for the comparison). -/
def smaInsufficient (end_index : Nat) (period : Int) : Prop :=
  sizeSucc end_index < toSizeT period ∨ period ≤ 0

instance (end_index : Nat) (period : Int) : Decidable (smaInsufficient end_index period) := by
  unfold smaInsufficient; infer_instance

end Signalv

namespace SignalvE
open Signalv

/-- `computeSMA` of `signalv_e.cpp`:
the loop `for (size_t i = end_index - period + 1; i <= end_index; ++i) sum += prices[i];`
followed by `return sum / period;`. -/
def computeSMA (prices : List ℚ) (end_index : Nat) (period : Int) : Option ℚ :=
  if smaInsufficient end_index period then some 0
  else
    let start := toSizeT ((end_index : Int) - period + 1)
    match forLoop (sumBody prices) start (end_index + 1 - start) 0 with
    | none => none
    | some sum => some (sum / (period : ℚ))

/-- The `Candle` struct of `signalv_e.cpp`. -/
structure Candle where
  datetime : String
  open_ : ℚ
  high : ℚ
  low : ℚ
  close : ℚ
  volume : Int
  deriving DecidableEq

/-- The `StrategyParams` struct of `signalv_e.cpp`, with its default member values. -/
structure StrategyParams where
  sma_short : Int := 5
  sma_long : Int := 20
  rsi_period : Int := 14
  atr_period : Int := 14
  performance : ℚ := -1000000000
  deriving DecidableEq

/-- `hasVolumeData` of `signalv_e.cpp`: the range-for accumulates the volumes
in a `long long`. -/
def hasVolumeData (candles : List Candle) : Bool :=
  if candles.isEmpty then false
  else decide (0 < candles.foldl (fun total_volume c => wrapLL (total_volume + c.volume)) 0)

/-- The guard `end_index + 1 < period + 1` shared by `computeRSI` and
`computeATR`: `period + 1` is formed in `int`, then converted to `size_t`. -/
def needsPrevious (end_index : Nat) (period : Int) : Prop :=
  sizeSucc end_index < toSizeT (wrapInt (period + 1))

instance (end_index : Nat) (period : Int) : Decidable (needsPrevious end_index period) := by
  unfold needsPrevious; infer_instance

/-- Body of the loop of `computeRSI`; the state is `(gain_sum, loss_sum)`. -/
def rsiBody (closes : List ℚ) (i : Nat) (s : ℚ × ℚ) : Option (ℚ × ℚ) :=
  match closes[i]?, closes[sizePred i]? with
  | some cur, some prev =>
    let change := cur - prev
    if change > 0 then some (s.1 + change, s.2) else some (s.1, s.2 + -change)
  | _, _ => none

/-- `computeRSI` of `signalv_e.cpp`. -/
def computeRSI (closes : List ℚ) (end_index : Nat) (period : Int) : Option ℚ :=
  if needsPrevious end_index period then some 0
  else
    let start := toSizeT ((end_index : Int) - period + 1)
    match forLoop (rsiBody closes) start (end_index + 1 - start) (0, 0) with
    | none => none
    | some (gain_sum, loss_sum) =>
      let avg_gain := gain_sum / (period : ℚ)
      let avg_loss := loss_sum / (period : ℚ)
      if avg_loss = 0 then some 100
      else
        let rs := avg_gain / avg_loss
        some (100 - 100 / (1 + rs))

/-- Body of the loop of `computeOBVDirection`; the state is
`(current_obv, obv_history)`. -/
def obvBody (candles : List Candle) (i : Nat) (s : Int × List Int) : Option (Int × List Int) :=
  match candles[i]?, candles[sizePred i]? with
  | some cur, some prev =>
    let current_obv :=
      if cur.close > prev.close then wrapLL (s.1 + cur.volume)
      else if cur.close < prev.close then wrapLL (s.1 - cur.volume)
      else s.1
    some (current_obv, s.2 ++ [current_obv])
  | _, _ => none

/-- `computeOBVDirection` of `signalv_e.cpp`.  `back()` or `front()` of an
empty vector is a fault. -/
def computeOBVDirection (candles : List Candle) (period : Int) : Option Int :=
  if candles.length < toSizeT (wrapInt (period + 1)) then some 0
  else
    let start := toSizeT ((candles.length : Int) - period)
    match forLoop (obvBody candles) start (candles.length - start) (0, []) with
    | none => none
    | some (_, obv_history) =>
      match obv_history.getLast?, obv_history.head? with
      | some back, some front =>
        if back > front then some 1
        else if back < front then some (-1)
        else some 0
      | _, _ => none

/-- `std::max` of an initializer list of three values: the greatest one,
found by a left-to-right scan with `<`. -/
def stdMax3 (a b c : ℚ) : ℚ :=
  let largest := if a < b then b else a
  if largest < c then c else largest

/-- `std::abs` on `double`. -/
def stdAbs (x : ℚ) : ℚ := if x < 0 then -x else x

/-- `computeTrueRange` of `signalv_e.cpp`. -/
def computeTrueRange (current previous : Candle) : ℚ :=
  stdMax3 (current.high - current.low) (stdAbs (current.high - previous.close))
    (stdAbs (current.low - previous.close))

/-- Body of the loop of `computeATR`; the state is `tr_sum`. -/
def atrBody (candles : List Candle) (i : Nat) (tr_sum : ℚ) : Option ℚ :=
  match candles[i]?, candles[sizePred i]? with
  | some cur, some prev => some (tr_sum + computeTrueRange cur prev)
  | _, _ => none

/-- `computeATR` of `signalv_e.cpp`. -/
def computeATR (candles : List Candle) (end_index : Nat) (period : Int) : Option ℚ :=
  if needsPrevious end_index period then some 0
  else
    let start := toSizeT ((end_index : Int) - period + 1)
    match forLoop (atrBody candles) start (end_index + 1 - start) 0 with
    | none => none
    | some tr_sum => some (tr_sum / (period : ℚ))

/-- The loop-carried variables of `simulateBacktest`. -/
structure SimState where
  profit : ℚ
  in_position : Bool
  entry_price : ℚ
  deriving DecidableEq

/-- Body of the replay loop of `simulateBacktest`. -/
def simBody (closes : List ℚ) (params : StrategyParams) (i : Nat) (s : SimState) :
    Option SimState :=
  match computeSMA closes i params.sma_short, computeSMA closes i params.sma_long,
      computeRSI closes i params.rsi_period with
  | some sma_short, some sma_long, some rsi =>
    if !s.in_position ∧ sma_short > sma_long ∧ rsi > 50 then
      match closes[i]? with
      | none => none
      | some c => some { s with in_position := true, entry_price := c }
    else if s.in_position ∧ sma_short < sma_long then
      match closes[i]? with
      | none => none
      | some c => some { s with profit := s.profit + (c - s.entry_price), in_position := false }
    else some s
  | _, _, _ => none

/-- Body of the copy loop `for (const auto& c : candles) closes.push_back(c.close);`
over a vector whose element `i` is obtained by `read i`. -/
def closesBody (read : Nat → Option Candle) (i : Nat) (closes : List ℚ) : Option (List ℚ) :=
  match read i with
  | none => none
  | some c => some (closes ++ [c.close])

/-- `simulateBacktest` of `signalv_e.cpp` over a vector given by its `size`
and its element access `read`. -/
def simulateBacktestAt (size : Nat) (read : Nat → Option Candle) (params : StrategyParams) :
    Option ℚ :=
  if size < toSizeT (wrapInt (max params.sma_long params.rsi_period + 1)) then
    some (-1000000000)
  else
    match forLoop (closesBody read) 0 size [] with
    | none => none
    | some closes =>
      let start_index := toSizeT (wrapInt (max params.sma_long params.rsi_period + 1))
      match forLoop (simBody closes params) start_index (size - start_index) ⟨0, false, 0⟩ with
      | none => none
      | some s => some s.profit

/-- `simulateBacktest` of `signalv_e.cpp`. -/
def simulateBacktest (candles : List Candle) (params : StrategyParams) : Option ℚ :=
  simulateBacktestAt candles.length (fun i => candles[i]?) params

end SignalvE

namespace SignalvG
open Signalv

/-- The `Candle` struct of `signalv_g.cpp`. -/
structure Candle where
  datetime : String
  open_ : ℚ
  high : ℚ
  low : ℚ
  close : ℚ
  volume : Int
  atr : ℚ
  deriving DecidableEq

/-- The `StrategyParams` struct of `signalv_g.cpp`, with its default member values. -/
structure StrategyParams where
  sma_short : Int := 5
  sma_long : Int := 20
  rsi_period : Int := 14
  performance : ℚ := -1000000000
  deriving DecidableEq

/-- `std::accumulate(first, last, init)` over the elements of `v` at the
positions `first, …, last - 1`. -/
def accumulate (v : List ℚ) (first last : Nat) (init : ℚ) : Option ℚ :=
  forLoop (sumBody v) first (last - first) init

/-- `computeSMA` of `signalv_g.cpp`:
`std::accumulate(prices.begin() + end_index - period + 1, prices.begin() + end_index + 1, 0.0)`
divided by `period`. -/
def computeSMA (prices : List ℚ) (end_index : Nat) (period : Int) : Option ℚ :=
  if smaInsufficient end_index period then some 0
  else
    match accumulate prices (toSizeT ((end_index : Int) - period + 1)) (sizeSucc end_index) 0 with
    | none => none
    | some sum => some (sum / (period : ℚ))

/-- `hasVolumeData` of `signalv_g.cpp`. -/
def hasVolumeData (candles : List Candle) : Bool :=
  decide (0 < candles.foldl (fun total_volume c => wrapLL (total_volume + c.volume)) 0)

/-- The guard `end_index + 1 < period + 1` of `computeRSI`. -/
def needsPrevious (end_index : Nat) (period : Int) : Prop :=
  sizeSucc end_index < toSizeT (wrapInt (period + 1))

instance (end_index : Nat) (period : Int) : Decidable (needsPrevious end_index period) := by
  unfold needsPrevious; infer_instance

/-- Body of the loop of `computeRSI`; the state is `(gain, loss)`. -/
def rsiBody (closes : List ℚ) (i : Nat) (s : ℚ × ℚ) : Option (ℚ × ℚ) :=
  match closes[i]?, closes[sizePred i]? with
  | some cur, some prev =>
    let change := cur - prev
    if change > 0 then some (s.1 + change, s.2) else some (s.1, s.2 - change)
  | _, _ => none

/-- `computeRSI` of `signalv_g.cpp`. -/
def computeRSI (closes : List ℚ) (end_index : Nat) (period : Int) : Option ℚ :=
  if needsPrevious end_index period then some 0
  else
    let start := toSizeT ((end_index : Int) - period + 1)
    match forLoop (rsiBody closes) start (end_index + 1 - start) (0, 0) with
    | none => none
    | some (gain, loss) =>
      if loss = 0 then some 100
      else
        let rs := (gain / (period : ℚ)) / (loss / (period : ℚ))
        some (100 - 100 / (1 + rs))

/-- Body of the loop of `computeOBVDirection`; the state is
`(current_obv, history)`. -/
def obvBody (candles : List Candle) (i : Nat) (s : Int × List Int) : Option (Int × List Int) :=
  match candles[i]?, candles[sizePred i]? with
  | some cur, some prev =>
    let current_obv :=
      if cur.close > prev.close then wrapLL (s.1 + cur.volume)
      else if cur.close < prev.close then wrapLL (s.1 - cur.volume)
      else s.1
    some (current_obv, s.2 ++ [current_obv])
  | _, _ => none

/-- `computeOBVDirection` of `signalv_g.cpp`.  `back()` or `front()` of an
empty vector is a fault. -/
def computeOBVDirection (candles : List Candle) (period : Int) : Option Int :=
  if candles.length < toSizeT (wrapInt (period + 1)) then some 0
  else
    let start := toSizeT ((candles.length : Int) - period)
    match forLoop (obvBody candles) start (candles.length - start) (0, []) with
    | none => none
    | some (_, history) =>
      match history.getLast?, history.head? with
      | some back, some front =>
        if back > front then some 1
        else if back < front then some (-1)
        else some 0
      | _, _ => none

/-- The loop-carried variables of `simulateBacktest`. -/
structure SimState where
  profit : ℚ
  in_pos : Bool
  entry : ℚ
  deriving DecidableEq

/-- Body of the replay loop of `simulateBacktest`. -/
def simBody (closes : List ℚ) (params : StrategyParams) (i : Nat) (s : SimState) :
    Option SimState :=
  match computeSMA closes i params.sma_short, computeSMA closes i params.sma_long,
      computeRSI closes i params.rsi_period with
  | some s_sma, some l_sma, some rsi =>
    if !s.in_pos ∧ s_sma > l_sma ∧ rsi > 50 then
      match closes[i]? with
      | none => none
      | some c => some { s with in_pos := true, entry := c }
    else if s.in_pos ∧ s_sma < l_sma then
      match closes[i]? with
      | none => none
      | some c => some { s with profit := s.profit + (c - s.entry), in_pos := false }
    else some s
  | _, _, _ => none

/-- Body of the copy loop `for (const auto& c : candles) closes.push_back(c.close);`
over a vector whose element `i` is obtained by `read i`. -/
def closesBody (read : Nat → Option Candle) (i : Nat) (closes : List ℚ) : Option (List ℚ) :=
  match read i with
  | none => none
  | some c => some (closes ++ [c.close])

/-- `simulateBacktest` of `signalv_g.cpp` over a vector given by its `size`
and its element access `read`. -/
def simulateBacktestAt (size : Nat) (read : Nat → Option Candle) (params : StrategyParams) :
    Option ℚ :=
  if size < toSizeT (wrapInt (max params.sma_long params.rsi_period + 1)) then
    some (-1000000000)
  else
    match forLoop (closesBody read) 0 size [] with
    | none => none
    | some closes =>
      let start := toSizeT (wrapInt (max params.sma_long params.rsi_period + 1))
      match forLoop (simBody closes params) start (size - start) ⟨0, false, 0⟩ with
      | none => none
      | some s => some s.profit

/-- `simulateBacktest` of `signalv_g.cpp`. -/
def simulateBacktest (candles : List Candle) (params : StrategyParams) : Option ℚ :=
  simulateBacktestAt candles.length (fun i => candles[i]?) params

end SignalvG

namespace Signalv

/-! ## Specification-side notions -/

/-- The window of `period` prices at the indices `endIndex - period + 1 .. endIndex`. -/
def window (prices : List ℚ) (endIndex period : Nat) : List ℚ :=
  (prices.drop (endIndex + 1 - period)).take period

/-- Arithmetic mean of a list of rationals. -/
def mean (xs : List ℚ) : ℚ := xs.sum / (xs.length : ℚ)

/-- The one-step change `closes[i] - closes[i-1]`. -/
def change (closes : List ℚ) (i : Nat) : ℚ := closes.getD i 0 - closes.getD (i - 1) 0

/-- The contribution of step `i` to the gains: the change when it is positive. -/
def gainAt (closes : List ℚ) (i : Nat) : ℚ :=
  if 0 < change closes i then change closes i else 0

/-- The contribution of step `i` to the losses: the magnitude of the change
when it is not positive. -/
def lossAt (closes : List ℚ) (i : Nat) : ℚ :=
  if change closes i ≤ 0 then |change closes i| else 0

/-- The sum `G` of the positive changes over the steps `e - period + 1 .. e`. -/
def gainSum (closes : List ℚ) (e period : Nat) : ℚ :=
  ((List.range' (e + 1 - period) period).map (gainAt closes)).sum

/-- The sum `L` of the magnitudes of the non-positive changes over the steps
`e - period + 1 .. e`. -/
def lossSum (closes : List ℚ) (e period : Nat) : ℚ :=
  ((List.range' (e + 1 - period) period).map (lossAt closes)).sum

/-- The RSI as the specification words it: 100 when `L = 0`, and otherwise
`100 - 100 / (1 + (G / period) / (L / period))`. -/
def rsiSpec (closes : List ℚ) (e period : Nat) : ℚ :=
  if lossSum closes e period = 0 then 100
  else 100 - 100 / (1 + (gainSum closes e period / (period : ℚ)) / (lossSum closes e period / (period : ℚ)))

/-- The true range of bar `i` against bar `i - 1` (0 outside the vector). -/
def trueRangeAt (candles : List SignalvE.Candle) (i : Nat) : ℚ :=
  match candles[i]?, candles[i - 1]? with
  | some cur, some prev => SignalvE.computeTrueRange cur prev
  | _, _ => 0

/-- The true ranges of the `period` bars `e - period + 1 .. e`. -/
def trueRangeWindow (candles : List SignalvE.Candle) (e period : Nat) : List ℚ :=
  (List.range' (e + 1 - period) period).map (trueRangeAt candles)

/-- The close and the volume of a bar of `signalv_e.cpp`. -/
def barE (c : SignalvE.Candle) : ℚ × Int := (c.close, c.volume)

/-- The close and the volume of a bar of `signalv_g.cpp`. -/
def barG (c : SignalvG.Candle) : ℚ × Int := (c.close, c.volume)

/-- The signed volume of bar `i`, each bar given as `(close, volume)`:
`+volume` when its close rose versus the prior bar, `-volume` when it fell,
and 0 otherwise. -/
def signedVolume (bars : List (ℚ × Int)) (i : Nat) : Int :=
  match bars[i]?, bars[i - 1]? with
  | some cur, some prev =>
    if prev.1 < cur.1 then cur.2 else if cur.1 < prev.1 then -cur.2 else 0
  | _, _ => 0

/-- The running on-balance-volume series over the last `period` bars, in
exact integers: its entry `k` is the sum of the signed volumes of the bars
`size - period .. size - period + k`. -/
def obvSeries (bars : List (ℚ × Int)) (period : Nat) : List Int :=
  (List.range period).map
    (fun k => ((List.range' (bars.length - period) (k + 1)).map (signedVolume bars)).sum)

/-- The OBV direction as the specification words it: 0 when
`bars.size() < period + 1`; otherwise `+1` if the last value of the running
series exceeds its first value, `-1` if it is less, 0 if they are equal. -/
def obvDirectionSpec (bars : List (ℚ × Int)) (period : Nat) : Int :=
  if bars.length < period + 1 then 0
  else
    match (obvSeries bars period).getLast?, (obvSeries bars period).head? with
    | some last, some first => if first < last then 1 else if last < first then -1 else 0
    | _, _ => 0

/-- The `long long` update of the running total at bar `i`, each bar given as
`(close, volume)`. -/
def obvUpdate (bars : List (ℚ × Int)) (i : Nat) (obv : Int) : Int :=
  match bars[i]?, bars[i - 1]? with
  | some cur, some prev =>
    if cur.1 > prev.1 then wrapLL (obv + cur.2)
    else if cur.1 < prev.1 then wrapLL (obv - cur.2)
    else obv
  | _, _ => obv

/-- The entry signal at bar `i`: `shortSMA > longSMA` and `rsi > 50`, the
averages being the means of the windows ending at `i` and the RSI the
`rsiSpec` of the window ending at `i`. -/
def entrySignal (closes : List ℚ) (ss sl rp : Nat) (i : Nat) : Bool :=
  decide (mean (window closes i ss) > mean (window closes i sl) ∧ rsiSpec closes i rp > 50)

/-- The exit signal at bar `i`: `shortSMA < longSMA`. -/
def exitSignal (closes : List ℚ) (ss sl : Nat) (i : Nat) : Bool :=
  decide (mean (window closes i ss) < mean (window closes i sl))

/-- The long-only replay over the bars `bars` (in chronological order), as a
list of completed round trips `(entry bar, exit bar)`.  The position is
`none` when flat and `some j` when long since bar `j`: while flat, the first
bar with the entry signal opens the position; while long, the first later bar
with the exit signal closes it, which completes a round trip.  A position
still open after the last bar completes nothing. -/
def scanTrips (enter exit : Nat → Bool) : Option Nat → List Nat → List (Nat × Nat)
  | _, [] => []
  | none, i :: rest =>
    if enter i then scanTrips enter exit (some i) rest else scanTrips enter exit none rest
  | some j, k :: rest =>
    if exit k then (j, k) :: scanTrips enter exit none rest
    else scanTrips enter exit (some j) rest

/-- The first bar of the replay, `max(sma_long, rsi_period) + 1`. -/
def replayStart (sl rp : Nat) : Nat := max sl rp + 1

/-- The completed round trips of the replay of a close series that starts
flat at the bar `max(sma_long, rsi_period) + 1` and runs to the last bar. -/
def roundTrips (closes : List ℚ) (ss sl rp : Nat) : List (Nat × Nat) :=
  scanTrips (entrySignal closes ss sl rp) (exitSignal closes ss sl) none
    (List.range' (replayStart sl rp) (closes.length - replayStart sl rp))

/-- The profit `closes[exit] - closes[entry]` of one round trip. -/
def tripProfit (closes : List ℚ) (t : Nat × Nat) : ℚ := closes.getD t.2 0 - closes.getD t.1 0

/-- The cumulative realized profit: the sum of the profits of the completed
round trips. -/
def realizedProfit (closes : List ℚ) (ss sl rp : Nat) : ℚ :=
  ((roundTrips closes ss sl rp).map (tripProfit closes)).sum

/-- The loop-carried variables of `simulateBacktest` of `signalv_e.cpp` read as
those of `signalv_g.cpp` (`in_position` is `in_pos`, `entry_price` is `entry`). -/
def simStateG (s : SignalvE.SimState) : SignalvG.SimState :=
  ⟨s.profit, s.in_position, s.entry_price⟩

/-- A bar of `signalv_e.cpp` read as a bar of `signalv_g.cpp` with the given
`atr` field. -/
def candleG (atr : ℚ) (c : SignalvE.Candle) : SignalvG.Candle :=
  ⟨c.datetime, c.open_, c.high, c.low, c.close, c.volume, atr⟩

/-- A parameter set of `signalv_e.cpp` read as one of `signalv_g.cpp` (the
`atr_period` member is dropped). -/
def paramsG (p : SignalvE.StrategyParams) : SignalvG.StrategyParams :=
  ⟨p.sma_short, p.sma_long, p.rsi_period, p.performance⟩

end Signalv

/-! ## Parameter optimizers

The random generator is an explicit sequence of draws: `draws i` holds the
three values that iteration `i` obtains from its three distributions, in the
order of the calls.  The state of a search is the pair of `best_params` and
the list of the parameter sets passed to `simulateBacktest` so far (the list
is bookkeeping for the statements about the evaluated candidates; the source
keeps `best_params` only). -/

namespace Signalv

/-- The values drawn by one iteration of a random search: from the
distribution of the short period, of the offset added to it, and of the RSI
period. -/
structure Draw where
  short : Int
  long_diff : Int
  rsi : Int
  deriving DecidableEq

/-- A loop whose variable takes the values of a list in order; `s` holds the
loop-carried variables, and a faulting body makes the loop fault. -/
def forValues {α σ : Type} (body : α → σ → Option σ) : List α → σ → Option σ
  | [], s => some s
  | x :: xs, s =>
    match body x s with
    | none => none
    | some s' => forValues body xs s'

/-- The values taken by the variable of `for (int x = lo; x <= hi; x += step)`,
starting from `x`: the header is run for at most `fuel` tests. -/
def intValues (hi step : Int) : Nat → Int → List Int
  | 0, _ => []
  | fuel + 1, x => if x ≤ hi then x :: intValues hi step fuel (x + step) else []

/-- The values of the loop variable of `for (int x = lo; x <= hi; x += step)`
with a positive step: at most `hi - lo + 1` iterations, so `hi - lo + 2` tests
of the condition are enough. -/
def forIntValues (lo hi step : Int) : List Int := intValues hi step ((hi - lo).toNat + 2) lo

end Signalv

namespace SignalvG
open Signalv

/-- The two statements
`current_params.performance = simulateBacktest(historical_candles, current_params);`
`if (current_params.performance > best_params.performance) best_params = current_params;`
of `findBestParameters_Random`, on the state `(best_params, evaluated)`. -/
def evaluate (historical_candles : List Candle) (current_params : StrategyParams)
    (s : StrategyParams × List StrategyParams) : Option (StrategyParams × List StrategyParams) :=
  match simulateBacktest historical_candles current_params with
  | none => none
  | some performance =>
    let scored : StrategyParams := { current_params with performance := performance }
    some (if scored.performance > s.1.performance then scored else s.1, s.2 ++ [current_params])

/-- The candidate of one iteration of `findBestParameters_Random`: a default
`StrategyParams` whose `sma_short`, `sma_long` (`sma_short` plus the drawn
offset, in `int`) and `rsi_period` are assigned from the draws. -/
def candidate (d : Draw) : StrategyParams :=
  { sma_short := d.short, sma_long := wrapInt (d.short + d.long_diff), rsi_period := d.rsi }

/-- `findBestParameters_Random` of `signalv_g.cpp`, returning the final
`best_params` together with the list of the evaluated candidates. -/
def findBestParameters_RandomTrace (historical_candles : List Candle) (num_iterations : Int)
    (draws : Nat → Draw) : Option (StrategyParams × List StrategyParams) :=
  forLoop (fun i s => evaluate historical_candles (candidate (draws i)) s) 0
    num_iterations.toNat ({}, [])

/-- `findBestParameters_Random` of `signalv_g.cpp`. -/
def findBestParameters_Random (historical_candles : List Candle) (num_iterations : Int)
    (draws : Nat → Draw) : Option StrategyParams :=
  (findBestParameters_RandomTrace historical_candles num_iterations draws).map Prod.fst

/-- The bounds of the three distributions of `findBestParameters_Random`:
`distrib_short(5, 15)`, `distrib_long_diff(5, 30)`, `distrib_rsi(7, 21)`. -/
def drawInBounds (d : Draw) : Prop :=
  (5 ≤ d.short ∧ d.short ≤ 15) ∧ (5 ≤ d.long_diff ∧ d.long_diff ≤ 30) ∧ (7 ≤ d.rsi ∧ d.rsi ≤ 21)

end SignalvG

namespace SignalvE
open Signalv

/-- The two statements
`current_params.performance = simulateBacktest(historical_candles, current_params);`
`if (current_params.performance > best_params.performance) best_params = current_params;`
of the optimizers, on the state `(best_params, evaluated)`; `simulate` is
`simulateBacktest` applied to the history. -/
def evaluate (simulate : StrategyParams → Option ℚ) (current_params : StrategyParams)
    (s : StrategyParams × List StrategyParams) : Option (StrategyParams × List StrategyParams) :=
  match simulate current_params with
  | none => none
  | some performance =>
    let scored : StrategyParams := { current_params with performance := performance }
    some (if scored.performance > s.1.performance then scored else s.1, s.2 ++ [current_params])

/-- The candidate `{short_p, long_p, rsi_p, 14}` of one iteration of
`findBestParametersRandom`, with `long_p = short_p_diff_rand(gen) + short_p`. -/
def candidate (d : Draw) : StrategyParams :=
  { sma_short := d.short, sma_long := wrapInt (d.long_diff + d.short), rsi_period := d.rsi,
    atr_period := 14 }

/-- `findBestParametersRandom` of `signalv_e.cpp` (100 iterations), returning
the final `best_params` together with the list of the evaluated candidates. -/
def findBestParametersRandomTrace (historical_candles : List Candle) (draws : Nat → Draw) :
    Option (StrategyParams × List StrategyParams) :=
  forLoop (fun i s => evaluate (simulateBacktest historical_candles) (candidate (draws i)) s) 0
    100 ({}, [])

/-- `findBestParametersRandom` of `signalv_e.cpp`. -/
def findBestParametersRandom (historical_candles : List Candle) (draws : Nat → Draw) :
    Option StrategyParams :=
  (findBestParametersRandomTrace historical_candles draws).map Prod.fst

/-- The bounds of the three distributions of `findBestParametersRandom`:
`short_p_rand(5, 30)`, `short_p_diff_rand(3, 40)`, `rsi_p_rand(7, 21)`. -/
def drawInBounds (d : Draw) : Prop :=
  (5 ≤ d.short ∧ d.short ≤ 30) ∧ (3 ≤ d.long_diff ∧ d.long_diff ≤ 40) ∧ (7 ≤ d.rsi ∧ d.rsi ≤ 21)

end SignalvE

/-! The grid search `findBestParameters` of `src/archive/signalv_c.cpp`.  The
structs, the indicators and `simulateBacktest` of that file are, line for
line, those of `signalv_e.cpp`, so the definitions of `SignalvE` stand for
them.  `src/archive/signalv_8.cpp` has the same loop nest over its own
`simulateBacktest`; `gridSearch` takes the simulator as an argument. -/

namespace SignalvC
open Signalv

/-- The innermost loop body of `findBestParameters`:
`StrategyParams current_params = {short_p, long_p, rsi_p, 14};` followed by the
evaluation and the update of `best_params`. -/
def rsiBody (simulate : SignalvE.StrategyParams → Option ℚ) (short_p long_p rsi_p : Int)
    (s : SignalvE.StrategyParams × List SignalvE.StrategyParams) :
    Option (SignalvE.StrategyParams × List SignalvE.StrategyParams) :=
  SignalvE.evaluate simulate
    { sma_short := short_p, sma_long := long_p, rsi_period := rsi_p, atr_period := 14 } s

/-- The body of the loop over `long_p`: `if (short_p >= long_p) continue;`
followed by the loop `for (int rsi_p = 7; rsi_p <= 21; rsi_p += 2)`. -/
def longBody (simulate : SignalvE.StrategyParams → Option ℚ) (short_p long_p : Int)
    (s : SignalvE.StrategyParams × List SignalvE.StrategyParams) :
    Option (SignalvE.StrategyParams × List SignalvE.StrategyParams) :=
  if short_p ≥ long_p then some s
  else forValues (rsiBody simulate short_p long_p) (forIntValues 7 21 2) s

/-- The body of the loop over `short_p`: the loop
`for (int long_p = 20; long_p <= 50; long_p += 5)`. -/
def shortBody (simulate : SignalvE.StrategyParams → Option ℚ) (short_p : Int)
    (s : SignalvE.StrategyParams × List SignalvE.StrategyParams) :
    Option (SignalvE.StrategyParams × List SignalvE.StrategyParams) :=
  forValues (longBody simulate short_p) (forIntValues 20 50 5) s

/-- The loop nest of `findBestParameters`, from
`for (int short_p = 5; short_p <= 15; short_p += 2)` down, over a simulator. -/
def gridSearch (simulate : SignalvE.StrategyParams → Option ℚ) :
    Option (SignalvE.StrategyParams × List SignalvE.StrategyParams) :=
  forValues (shortBody simulate) (forIntValues 5 15 2) ({}, [])

/-- `findBestParameters` of `signalv_c.cpp`, returning the final `best_params`
together with the list of the evaluated candidates. -/
def findBestParametersTrace (historical_candles : List SignalvE.Candle) :
    Option (SignalvE.StrategyParams × List SignalvE.StrategyParams) :=
  gridSearch (SignalvE.simulateBacktest historical_candles)

/-- `findBestParameters` of `signalv_c.cpp`. -/
def findBestParameters (historical_candles : List SignalvE.Candle) :
    Option SignalvE.StrategyParams :=
  (findBestParametersTrace historical_candles).map Prod.fst

end SignalvC

namespace Signalv

/-- The parameter sets of the grid, in search order: `sma_short` outermost,
`sma_long` in the middle, `rsi_period` innermost. -/
def gridCandidates : List SignalvE.StrategyParams :=
  ([5, 7, 9, 11, 13, 15] : List Int).flatMap fun short_p =>
    ([20, 25, 30, 35, 40, 45, 50] : List Int).flatMap fun long_p =>
      ([7, 9, 11, 13, 15, 17, 19, 21] : List Int).map fun rsi_p =>
        { sma_short := short_p, sma_long := long_p, rsi_period := rsi_p, atr_period := 14 }

/-- The invariant of `StrategyParameters`: `shortWindow < longWindow` and all
periods at least 2, on the three periods of a parameter set. -/
def validPeriods (sma_short sma_long rsi_period : Int) : Prop :=
  sma_short < sma_long ∧ 2 ≤ sma_short ∧ 2 ≤ sma_long ∧ 2 ≤ rsi_period

end Signalv

namespace Signalv

/-- The parameter sets evaluated by the loop nest of the grid search, read off
the three loop headers and the `continue` test: for each `short_p` and each
`long_p` with `short_p < long_p`, one set per `rsi_p`. -/
def gridVisited : List SignalvE.StrategyParams :=
  (forIntValues 5 15 2).flatMap fun short_p =>
    (forIntValues 20 50 5).flatMap fun long_p =>
      if short_p ≥ long_p then []
      else (forIntValues 7 21 2).map fun rsi_p =>
        { sma_short := short_p, sma_long := long_p, rsi_period := rsi_p, atr_period := 14 }

end Signalv

/-! ## The trade log and the decision step

The trade log `tradelog.csv` is the list of its lines.  `float` is, like
`double`, the field `ℚ`: the thresholds `0.10`, `0.30` and `0.50` are compared
with a value of the form `k / 1000` for an integer `k`, and neighbouring values
of that form are much further apart than the rounding of a `float`, so the
comparisons come out as in exact arithmetic.  A conversion of a `double` to
`int` whose truncated value is not an `int`, and a division by a zero close,
have no defined result: the model faults (`none`). -/

namespace Signalv

/-- A decimal digit of `n` as a character: the digit of `n % 10`. -/
def digit (n : Nat) : Char := Nat.digitChar (n % 10)

/-- The number of `0.00001` units nearest to `|x|`. -/
def fixed5Units (x : ℚ) : Nat := (⌊|x| * 100000 + 1 / 2⌋).toNat

/-- The text written by `<< std::fixed << std::setprecision(5) << x`: a minus
sign for a negative `x`, the integer part, a point and five decimals, `|x|`
being rounded to the nearest multiple of `0.00001`. -/
def fixed5 (x : ℚ) : String :=
  (if x < 0 then "-" else "") ++ toString (fixed5Units x / 100000) ++ "." ++
    String.mk [digit (fixed5Units x / 10000), digit (fixed5Units x / 1000),
      digit (fixed5Units x / 100), digit (fixed5Units x / 10), digit (fixed5Units x)]

/-- The header line of the trade log. -/
def logHeader : String := "Datetime,Ticker,Signal,Entry,StopLoss,TakeProfit"

/-- The row that `logTrade` writes. -/
def logRow (datetime ticker signal : String) (entry sl tp : ℚ) : String :=
  datetime ++ "," ++ ticker ++ "," ++ signal ++ "," ++ fixed5 entry ++ "," ++ fixed5 sl ++ "," ++
    fixed5 tp

/-- `logTrade` of both variants, on the lines of `tradelog.csv`: the file is
opened for appending, the header is written when the write position is `0`
(the file is empty or was absent), then the row is written. -/
def logTrade (datetime ticker signal : String) (entry sl tp : ℚ) (log : List String) :
    List String :=
  (if log.isEmpty then [logHeader] else log) ++ [logRow datetime ticker signal entry sl tp]

end Signalv

namespace SignalvG
open Signalv

/-- The two statements
`float current_atr_percent = (int)((current_atr / entry) * 100*1000);`
`current_atr_percent = current_atr_percent/1000;` of `process_ticker`. -/
def atrPercent (current_atr entry : ℚ) : Option ℚ :=
  if entry = 0 then none
  else
    let scaled : ℚ := (current_atr / entry) * 100 * 1000
    let truncated : Int := if 0 ≤ scaled then ⌊scaled⌋ else ⌈scaled⌉
    if -2147483648 ≤ truncated ∧ truncated ≤ 2147483647 then some ((truncated : ℚ) / 1000)
    else none

/-- The directional rule of `process_ticker`: the value of `signal` after the
two `if` chains. -/
def directionalSignal (use_volume : Bool) (sma_short sma_long rsi : ℚ) (obv_direction : Int) :
    String :=
  if use_volume then
    if sma_short > sma_long ∧ rsi > 50 ∧ obv_direction = 1 ∧ rsi < 70 then "BUY"
    else if sma_short < sma_long ∧ rsi < 50 ∧ obv_direction = -1 ∧ rsi > 30 then "SELL"
    else "HOLD"
  else
    if sma_short > sma_long ∧ rsi > 50 ∧ rsi < 70 then "BUY"
    else if sma_short < sma_long ∧ rsi < 50 ∧ rsi > 30 then "SELL"
    else "HOLD"

/-- What the last block of `process_ticker` prints after `FINAL SIGNAL`: the
signal, the reason appended to a `HOLD`, and the levels `(sl, tp)` of a
trade. -/
structure Outcome where
  final_signal : String
  reason : String
  levels : Option (ℚ × ℚ)
  deriving DecidableEq

/-- The block `if (signal != "HOLD" && is_volatile_enough) … else …` of
`process_ticker`: the outcome printed and the trade log afterwards. -/
def settle (datetime ticker signal : String) (entry current_atr : ℚ) (is_volatile_enough : Bool)
    (log : List String) : Outcome × List String :=
  if signal ≠ "HOLD" ∧ is_volatile_enough then
    let sl := if signal = "BUY" then entry - 3 / 2 * current_atr else entry + 3 / 2 * current_atr
    let tp := if signal = "BUY" then entry + 2 * current_atr else entry - 2 * current_atr
    ({ final_signal := signal, reason := "", levels := some (sl, tp) },
      logTrade datetime ticker signal entry sl tp log)
  else
    let reason := if signal ≠ "HOLD" ∧ ¬ is_volatile_enough then " (Ignored: Low Volatility)" else ""
    ({ final_signal := "HOLD", reason := reason, levels := none }, log)

/-- The values that `process_ticker` computes for one instrument. -/
structure Report where
  optimal_params : StrategyParams
  current_atr_percent : ℚ
  is_volatile_enough : Bool
  sma_short : ℚ
  sma_long : ℚ
  rsi : ℚ
  use_volume : Bool
  obv_direction : Int
  signal : String
  outcome : Outcome
  high_volatility : Bool
  extreme_volatility : Bool
  deriving DecidableEq

/-- The decision step of `process_ticker`: everything after the optimizer,
for the bars `candles` (not empty), the parameters `optimal_params` and the
trade log `log`. -/
def decisionStep (ticker : String) (candles : List Candle) (optimal_params : StrategyParams)
    (log : List String) : Option (Report × List String) :=
  let closes := candles.map Candle.close
  match candles.getLast? with
  | none => none
  | some last =>
    let current_atr := last.atr
    let entry := last.close
    match atrPercent current_atr entry with
    | none => none
    | some current_atr_percent =>
      let is_volatile_enough := decide (current_atr_percent > 1 / 10)
      match computeSMA closes (sizePred closes.length) optimal_params.sma_short,
        computeSMA closes (sizePred closes.length) optimal_params.sma_long,
        computeRSI closes (sizePred closes.length) optimal_params.rsi_period with
      | some sma_short, some sma_long, some rsi =>
        let use_volume := hasVolumeData candles
        match (if use_volume then computeOBVDirection candles 14 else some 0) with
        | none => none
        | some obv_direction =>
          let signal := directionalSignal use_volume sma_short sma_long rsi obv_direction
          let result := settle last.datetime ticker signal entry current_atr is_volatile_enough log
          some ({ optimal_params := optimal_params,
                  current_atr_percent := current_atr_percent,
                  is_volatile_enough := is_volatile_enough,
                  sma_short := sma_short, sma_long := sma_long, rsi := rsi,
                  use_volume := use_volume, obv_direction := obv_direction,
                  signal := signal, outcome := result.1,
                  high_volatility :=
                    decide (current_atr_percent > 3 / 10 ∧ current_atr_percent < 1 / 2),
                  extreme_volatility := decide (current_atr_percent > 1 / 2) }, result.2)
      | _, _, _ => none

/-- The parameters that `process_ticker` optimizes: `findBestParameters_Random`
on `optimization_candles(candles.begin(), candles.end() - 1)`, 100 iterations. -/
def optimalParams (candles : List Candle) (draws : Nat → Draw) : Option StrategyParams :=
  findBestParameters_Random candles.dropLast 100 draws

/-- `process_ticker` of `signalv_g.cpp` on the bars read for the instrument:
`some (none, log)` when the instrument is skipped, else the report and the
trade log afterwards. -/
def process_ticker (ticker : String) (candles : List Candle) (draws : Nat → Draw)
    (log : List String) : Option (Option Report × List String) :=
  if candles.length < 1 then some (none, log)
  else
    match optimalParams candles draws with
    | none => none
    | some optimal_params =>
      match decisionStep ticker candles optimal_params log with
      | none => none
      | some (report, log') => some (some report, log')

end SignalvG

namespace SignalvE
open Signalv

/-- The directional rule of `ProcessTicker`: the value of `signal` after the
two `if` chains. -/
def directionalSignal (use_volume : Bool) (sma_short sma_long rsi : ℚ) (obv_direction : Int) :
    String :=
  if use_volume then
    if sma_short > sma_long ∧ rsi > 50 ∧ obv_direction = 1 then "BUY"
    else if sma_short < sma_long ∧ rsi < 50 ∧ obv_direction = -1 then "SELL"
    else "HOLD"
  else
    if sma_short > sma_long ∧ rsi > 50 then "BUY"
    else if sma_short < sma_long ∧ rsi < 50 then "SELL"
    else "HOLD"

/-- The block `if (signal != "HOLD") …` of `ProcessTicker`: the values of `sl`
and `tp` (both initialised to `0`) and the trade log afterwards. -/
def settle (datetime ticker signal : String) (entry atr : ℚ) (log : List String) :
    (ℚ × ℚ) × List String :=
  if signal ≠ "HOLD" then
    let sl := if signal = "BUY" then entry - 3 / 2 * atr else entry + 3 / 2 * atr
    let tp := if signal = "BUY" then entry + 2 * atr else entry - 2 * atr
    ((sl, tp), logTrade datetime ticker signal entry sl tp log)
  else ((0, 0), log)

/-- The values that `ProcessTicker` computes for one instrument. -/
structure Report where
  optimal_params : StrategyParams
  use_volume : Bool
  sma_short : ℚ
  sma_long : ℚ
  rsi : ℚ
  atr : ℚ
  obv_direction : Int
  signal : String
  entry : ℚ
  sl : ℚ
  tp : ℚ
  deriving DecidableEq

/-- The decision step of `ProcessTicker`: everything after the optimizer, for
the bars `candles` (not empty), the parameters `optimal_params` and the trade
log `log`. -/
def decisionStep (ticker : String) (candles : List Candle) (optimal_params : StrategyParams)
    (log : List String) : Option (Report × List String) :=
  let closes := candles.map Candle.close
  let use_volume := hasVolumeData candles
  match computeSMA closes (sizePred closes.length) optimal_params.sma_short,
    computeSMA closes (sizePred closes.length) optimal_params.sma_long,
    computeRSI closes (sizePred closes.length) optimal_params.rsi_period,
    computeATR candles (sizePred candles.length) optimal_params.atr_period with
  | some sma_short, some sma_long, some rsi, some atr =>
    match (if use_volume then computeOBVDirection candles 14 else some 0) with
    | none => none
    | some obv_direction =>
      let signal := directionalSignal use_volume sma_short sma_long rsi obv_direction
      match candles.getLast? with
      | none => none
      | some last =>
        let entry := last.close
        let result := settle last.datetime ticker signal entry atr log
        some ({ optimal_params := optimal_params, use_volume := use_volume,
                sma_short := sma_short, sma_long := sma_long, rsi := rsi, atr := atr,
                obv_direction := obv_direction, signal := signal, entry := entry,
                sl := result.1.1, tp := result.1.2 }, result.2)
  | _, _, _, _ => none

/-- The parameters that `ProcessTicker` optimizes: `findBestParametersRandom`
on `optimization_candles(candles.begin(), candles.end() - 1)`. -/
def optimalParams (candles : List Candle) (draws : Nat → Draw) : Option StrategyParams :=
  findBestParametersRandom candles.dropLast draws

/-- `ProcessTicker` of `signalv_e.cpp` on the bars read for the instrument:
`some (none, log)` when the instrument is rejected with fewer than 100 bars,
else the report and the trade log afterwards. -/
def ProcessTicker (ticker : String) (candles : List Candle) (draws : Nat → Draw)
    (log : List String) : Option (Option Report × List String) :=
  if candles.length < 100 then some (none, log)
  else
    match optimalParams candles draws with
    | none => none
    | some optimal_params =>
      match decisionStep ticker candles optimal_params log with
      | none => none
      | some (report, log') => some (some report, log')

end SignalvE

/-! ## Example histories -/

namespace Signalv

/-- A 120-bar uptrend for `signalv_g.cpp`: the closes 1, 2, …, 120, the volume
1 and the ATR 1 on every bar. -/
def uptrendG : List SignalvG.Candle :=
  (List.range 120).map fun (i : Nat) =>
    ⟨"bar", (i : ℚ) + 1, (i : ℚ) + 1, (i : ℚ) + 1, (i : ℚ) + 1, 1, 1⟩

/-- The same uptrend for `signalv_e.cpp`. -/
def uptrendE : List SignalvE.Candle :=
  (List.range 120).map fun (i : Nat) =>
    ⟨"bar", (i : ℚ) + 1, (i : ℚ) + 1, (i : ℚ) + 1, (i : ℚ) + 1, 1⟩

/-- A 16-bar history for `signalv_g.cpp` without volume: after two bars at 100
the close rises by 3 and falls by 2 in turn; the ATR is 1 on every bar. -/
def shortHistory : List SignalvG.Candle :=
  ([100, 100, 103, 101, 104, 102, 105, 103, 106, 104, 107, 105, 108, 106, 109, 107] :
    List ℚ).map fun c => ⟨"bar", c, c, c, c, 0, 1⟩

end Signalv

/-! ## Sequences of calls of `logTrade` -/

namespace Signalv

/-- The arguments of one call of `logTrade`. -/
structure TradeCall where
  datetime : String
  ticker : String
  signal : String
  entry : ℚ
  sl : ℚ
  tp : ℚ

/-- The row written by a call. -/
def rowOf (c : TradeCall) : String := logRow c.datetime c.ticker c.signal c.entry c.sl c.tp

/-- The trade log after a sequence of calls of `logTrade`, in call order,
starting from the log `log`. -/
def logTrades (calls : List TradeCall) (log : List String) : List String :=
  calls.foldl (fun lines c => logTrade c.datetime c.ticker c.signal c.entry c.sl c.tp lines) log

/-- The decimal value of a digit character. -/
def digitValue (c : Char) : Nat := c.toNat - 48

end Signalv

namespace Signalv

/-- The sum of the signed volumes of the last `period - 1` bars, each bar given
as `(close, volume)`: the bars `size - period + 1 .. size - 1`. -/
def tailSignedVolume (bars : List (ℚ × Int)) (period : Nat) : Int :=
  ((List.range' (bars.length - period + 1) (period - 1)).map (signedVolume bars)).sum

end Signalv

/-! # Theorems -/

namespace Signalv

/-! ## Lemmas on machine integers and loops -/

theorem toSizeT_natCast (n : Nat) (h : n < 2 ^ 64) : toSizeT (n : Int) = n := by
  unfold toSizeT
  omega

theorem sizeSucc_eq (i : Nat) (h : i + 1 < 2 ^ 64) : sizeSucc i = i + 1 := by
  unfold sizeSucc
  omega

theorem toSizeT_window_start (e p : Nat) (he : e + 1 < 2 ^ 64) (hpe : p ≤ e + 1) :
    toSizeT ((e : Int) - (p : Int) + 1) = e + 1 - p := by
  unfold toSizeT
  omega

theorem not_smaInsufficient (e p : Nat) (he : e + 1 < 2 ^ 64) (hp : 1 ≤ p) (hpe : p ≤ e + 1) :
    ¬ smaInsufficient e (p : Int) := by
  unfold smaInsufficient
  rw [sizeSucc_eq e he, toSizeT_natCast p (by omega)]
  omega

theorem forLoop_sumBody (prices : List ℚ) :
    ∀ (n i : Nat) (s : ℚ), i + n ≤ prices.length →
      forLoop (sumBody prices) i n s = some (s + ((prices.drop i).take n).sum) := by
  intro n
  induction n with
  | zero => intro i s _; simp [forLoop]
  | succ n ih =>
    intro i s h
    have hi : i < prices.length := by omega
    rw [forLoop, sumBody, List.getElem?_eq_getElem hi]
    simp only []
    rw [ih (i + 1) (s + prices[i]) (by omega)]
    rw [List.drop_eq_getElem_cons hi, List.take_succ_cons, List.sum_cons, add_assoc]

theorem window_length (prices : List ℚ) (e p : Nat) (he : e < prices.length) (hpe : p ≤ e + 1) :
    (window prices e p).length = p := by
  unfold window
  rw [List.length_take, List.length_drop]
  omega

end Signalv

open Signalv

/-- C1: for every price list, every `endIndex < prices.size()` and every period
with `1 ≤ period ≤ endIndex + 1`, `computeSMA` (both variants) returns the
arithmetic mean of the `period` prices at the indices
`endIndex - period + 1 .. endIndex`: the sum of that window divided by its
length, which is `period`. -/
theorem C1_computeSMA_window_mean (prices : List ℚ) (e p : Nat)
    (hlen : prices.length < 2 ^ 64) (he : e < prices.length)
    (hp : 1 ≤ p) (hpe : p ≤ e + 1) :
    SignalvE.computeSMA prices e (p : Int) = some (mean (window prices e p)) ∧
    SignalvG.computeSMA prices e (p : Int) = some (mean (window prices e p)) ∧
    (window prices e p).length = p := by
  have he1 : e + 1 < 2 ^ 64 := by omega
  have hg := not_smaInsufficient e p he1 hp hpe
  have hstart := toSizeT_window_start e p he1 hpe
  have hwl := window_length prices e p he hpe
  have hloop := forLoop_sumBody prices p (e + 1 - p) 0 (by omega)
  have hcnt : e + 1 - (e + 1 - p) = p := by omega
  refine ⟨?_, ?_, hwl⟩
  · unfold SignalvE.computeSMA
    rw [if_neg hg]
    simp only [hstart, hcnt, hloop, mean, window, zero_add]
    rw [← window, hwl]
    simp
  · unfold SignalvG.computeSMA SignalvG.accumulate
    rw [if_neg hg]
    simp only [hstart, sizeSucc_eq e he1, hcnt, hloop, mean, window, zero_add]
    rw [← window, hwl]
    simp

/-- Witness for C1 on the prices `1, 2, 3, 4, 5`, end index 4 and period 3. -/
theorem C1_computeSMA_window_mean_witness :
    SignalvE.computeSMA [1, 2, 3, 4, 5] 4 ((3 : Nat) : Int) = some (mean (window [1, 2, 3, 4, 5] 4 3)) ∧
    SignalvG.computeSMA [1, 2, 3, 4, 5] 4 ((3 : Nat) : Int) = some (mean (window [1, 2, 3, 4, 5] 4 3)) ∧
    (window [1, 2, 3, 4, 5] 4 3).length = 3 :=
  C1_computeSMA_window_mean [1, 2, 3, 4, 5] 4 3 (by simp) (by simp) (by decide) (by decide)

namespace Signalv

theorem smaInsufficient_of_short (e : Nat) (p : Int) (hp : p < 2 ^ 31) (h : (e : Int) + 1 < p) :
    smaInsufficient e p := by
  unfold smaInsufficient sizeSucc toSizeT
  omega

theorem needsPreviousE_of_short (e : Nat) (p : Int) (hp : p < 2 ^ 31) (h : (e : Int) + 1 < p) :
    SignalvE.needsPrevious e p := by
  unfold SignalvE.needsPrevious sizeSucc toSizeT wrapInt
  omega

theorem needsPreviousG_of_short (e : Nat) (p : Int) (hp : p < 2 ^ 31) (h : (e : Int) + 1 < p) :
    SignalvG.needsPrevious e p := by
  unfold SignalvG.needsPrevious sizeSucc toSizeT wrapInt
  omega

end Signalv

/-- C2: for a history of length `n`, an end index `e < n` and an `int` period
`p > n`, `computeSMA`, `computeRSI` (both variants) and `computeATR` return the
insufficient-data sentinel 0 without faulting; and they read no element: the
same calls on an empty vector, where every element read is out of bounds,
return 0 as well. -/
theorem C2_short_history_sentinel (closes : List ℚ) (candles : List SignalvE.Candle)
    (n e : Nat) (p : Int) (_hcl : closes.length = n) (_hca : candles.length = n)
    (he : e < n) (hn : (n : Int) < p) (hp : p < 2 ^ 31) :
    (SignalvE.computeSMA closes e p = some 0 ∧ SignalvG.computeSMA closes e p = some 0 ∧
      SignalvE.computeRSI closes e p = some 0 ∧ SignalvG.computeRSI closes e p = some 0 ∧
      SignalvE.computeATR candles e p = some 0) ∧
    (SignalvE.computeSMA [] e p = some 0 ∧ SignalvG.computeSMA [] e p = some 0 ∧
      SignalvE.computeRSI [] e p = some 0 ∧ SignalvG.computeRSI [] e p = some 0 ∧
      SignalvE.computeATR [] e p = some 0) := by
  have h : (e : Int) + 1 < p := by omega
  have h1 := smaInsufficient_of_short e p hp h
  have h2 := needsPreviousE_of_short e p hp h
  have h3 := needsPreviousG_of_short e p hp h
  simp [SignalvE.computeSMA, SignalvG.computeSMA, SignalvE.computeRSI, SignalvG.computeRSI,
    SignalvE.computeATR, h1, h2, h3]

/-- Witness for C2: a three-bar history, end index 2 and period 5. -/
theorem C2_short_history_sentinel_witness :
    (SignalvE.computeSMA [1, 2, 3] 2 5 = some 0 ∧ SignalvG.computeSMA [1, 2, 3] 2 5 = some 0 ∧
      SignalvE.computeRSI [1, 2, 3] 2 5 = some 0 ∧ SignalvG.computeRSI [1, 2, 3] 2 5 = some 0 ∧
      SignalvE.computeATR [⟨"a", 1, 1, 1, 1, 0⟩, ⟨"b", 2, 2, 2, 2, 0⟩, ⟨"c", 3, 3, 3, 3, 0⟩] 2 5
        = some 0) ∧
    (SignalvE.computeSMA [] 2 5 = some 0 ∧ SignalvG.computeSMA [] 2 5 = some 0 ∧
      SignalvE.computeRSI [] 2 5 = some 0 ∧ SignalvG.computeRSI [] 2 5 = some 0 ∧
      SignalvE.computeATR [] 2 5 = some 0) :=
  C2_short_history_sentinel [1, 2, 3]
    [⟨"a", 1, 1, 1, 1, 0⟩, ⟨"b", 2, 2, 2, 2, 0⟩, ⟨"c", 3, 3, 3, 3, 0⟩] 3 2 5
    rfl rfl (by decide) (by decide) (by decide)

namespace Signalv

theorem sizePred_eq (i : Nat) (h1 : 1 ≤ i) (h : i < 2 ^ 64) : sizePred i = i - 1 := by
  unfold sizePred toSizeT
  omega

theorem not_needsPreviousE (e p : Nat) (he : e + 1 < 2 ^ 64) (hpi : p + 1 < 2 ^ 31)
    (hpe : p ≤ e) :
    ¬ SignalvE.needsPrevious e (p : Int) := by
  unfold SignalvE.needsPrevious sizeSucc toSizeT wrapInt
  omega

theorem not_needsPreviousG (e p : Nat) (he : e + 1 < 2 ^ 64) (hpi : p + 1 < 2 ^ 31)
    (hpe : p ≤ e) :
    ¬ SignalvG.needsPrevious e (p : Int) := by
  unfold SignalvG.needsPrevious sizeSucc toSizeT wrapInt
  omega

theorem rsiBodyG_eq_rsiBodyE (closes : List ℚ) : SignalvG.rsiBody closes = SignalvE.rsiBody closes := by
  funext i s
  unfold SignalvG.rsiBody SignalvE.rsiBody
  simp only [sub_eq_add_neg]

theorem rsiBody_step (closes : List ℚ) (i : Nat) (s : ℚ × ℚ) (h1 : 1 ≤ i)
    (hi : i < closes.length) (hlen : closes.length < 2 ^ 64) :
    SignalvE.rsiBody closes i s = some (s.1 + gainAt closes i, s.2 + lossAt closes i) := by
  have hi' : i - 1 < closes.length := by omega
  have hc : change closes i = closes[i] - closes[i - 1] := by
    unfold change
    rw [List.getD_eq_getElem _ _ hi, List.getD_eq_getElem _ _ hi']
  unfold SignalvE.rsiBody
  rw [sizePred_eq i h1 (by omega), List.getElem?_eq_getElem hi, List.getElem?_eq_getElem hi']
  simp only [gainAt, lossAt, hc]
  by_cases hpos : closes[i] - closes[i - 1] > 0
  · have hnle : ¬ closes[i] - closes[i - 1] ≤ 0 := not_le.mpr hpos
    have hpos' : 0 < closes[i] - closes[i - 1] := hpos
    simp only [hpos, hpos', hnle, if_true, if_false, add_zero]
  · have hle : closes[i] - closes[i - 1] ≤ 0 := not_lt.mp hpos
    have hpos' : ¬ 0 < closes[i] - closes[i - 1] := hpos
    simp only [hpos, hpos', hle, if_true, if_false, add_zero, abs_of_nonpos hle]

theorem forLoop_rsiBody (closes : List ℚ) (hlen : closes.length < 2 ^ 64) :
    ∀ (n i : Nat) (s : ℚ × ℚ), 1 ≤ i → i + n ≤ closes.length →
      forLoop (SignalvE.rsiBody closes) i n s =
        some (s.1 + ((List.range' i n).map (gainAt closes)).sum,
              s.2 + ((List.range' i n).map (lossAt closes)).sum) := by
  intro n
  induction n with
  | zero => intro i s _ _; simp [forLoop]
  | succ n ih =>
    intro i s h1 h
    rw [forLoop, rsiBody_step closes i s h1 (by omega) hlen]
    simp only []
    rw [ih (i + 1) _ (by omega) (by omega)]
    simp only [List.range'_succ, List.map_cons, List.sum_cons, add_assoc]

end Signalv

namespace Signalv

theorem computeRSI_eq_rsiSpec (closes : List ℚ) (e p : Nat)
    (hlen : closes.length < 2 ^ 64) (hpi : p + 1 < 2 ^ 31) (hp : 1 ≤ p) (hpe : p ≤ e)
    (he : e < closes.length) :
    SignalvE.computeRSI closes e (p : Int) = some (rsiSpec closes e p) ∧
    SignalvG.computeRSI closes e (p : Int) = some (rsiSpec closes e p) := by
  have he1 : e + 1 < 2 ^ 64 := by omega
  have hstart := toSizeT_window_start e p he1 (by omega)
  have hcnt : e + 1 - (e + 1 - p) = p := by omega
  have hloop := forLoop_rsiBody closes hlen p (e + 1 - p) (0, 0) (by omega) (by omega)
  have hp0 : (p : ℚ) ≠ 0 := by
    have : (0 : ℚ) < (p : ℚ) := by exact_mod_cast hp
    exact ne_of_gt this
  constructor
  · unfold SignalvE.computeRSI
    rw [if_neg (not_needsPreviousE e p he1 hpi hpe)]
    simp only [hstart, hcnt, hloop, zero_add, Int.cast_natCast]
    unfold rsiSpec gainSum lossSum
    by_cases hL : ((List.range' (e + 1 - p) p).map (lossAt closes)).sum = 0
    · simp [hL]
    · have hq : ((List.range' (e + 1 - p) p).map (lossAt closes)).sum / (p : ℚ) ≠ 0 :=
        div_ne_zero hL hp0
      simp only [hL, hq, if_false]
  · unfold SignalvG.computeRSI
    rw [if_neg (not_needsPreviousG e p he1 hpi hpe), rsiBodyG_eq_rsiBodyE]
    simp only [hstart, hcnt, hloop, zero_add, Int.cast_natCast]
    unfold rsiSpec gainSum lossSum
    split_ifs <;> rfl

end Signalv

/-- C3: for every close series, period `p ≥ 1` and end index `e` with
`p ≤ e < closes.size()`, `computeRSI` (both variants) returns 100 when the sum
`L` of the magnitudes of the non-positive one-step changes over the steps
`e - p + 1 .. e` is zero, and otherwise `100 - 100 / (1 + (G / p) / (L / p))`
with `G` the sum of the positive changes over the same steps; every change of
the window is `closes[i] - closes[i-1]` for two elements of the series.  The
period is an `int` for which the guard's `period + 1` is an `int` too. -/
theorem C3_computeRSI_formula (closes : List ℚ) (e p : Nat)
    (hlen : closes.length < 2 ^ 64) (hpi : p + 1 < 2 ^ 31) (hp : 1 ≤ p) (hpe : p ≤ e)
    (he : e < closes.length) :
    SignalvE.computeRSI closes e (p : Int) = some (rsiSpec closes e p) ∧
    SignalvG.computeRSI closes e (p : Int) = some (rsiSpec closes e p) ∧
    ∀ i, e + 1 - p ≤ i → i ≤ e → ∃ cur prev, closes[i]? = some cur ∧
      closes[i - 1]? = some prev ∧ change closes i = cur - prev := by
  have h := computeRSI_eq_rsiSpec closes e p hlen hpi hp hpe he
  refine ⟨h.1, h.2, ?_⟩
  intro i _ hie
  have h1 : i < closes.length := by omega
  have h2 : i - 1 < closes.length := by omega
  refine ⟨closes[i], closes[i - 1], List.getElem?_eq_getElem h1, List.getElem?_eq_getElem h2, ?_⟩
  unfold change
  rw [List.getD_eq_getElem _ _ h1, List.getD_eq_getElem _ _ h2]

/-- Witness for C3 on the closes `1, 2, 3, 2, 5`, end index 4 and period 3. -/
theorem C3_computeRSI_formula_witness :
    SignalvE.computeRSI [1, 2, 3, 2, 5] 4 ((3 : Nat) : Int) = some (rsiSpec [1, 2, 3, 2, 5] 4 3) ∧
    SignalvG.computeRSI [1, 2, 3, 2, 5] 4 ((3 : Nat) : Int) = some (rsiSpec [1, 2, 3, 2, 5] 4 3) :=
  have h := C3_computeRSI_formula [1, 2, 3, 2, 5] 4 3 (by simp) (by decide) (by decide)
    (by decide) (by simp)
  ⟨h.1, h.2.1⟩

namespace Signalv

theorem rsiSpec_of_lossSum_zero (closes : List ℚ) (e p : Nat) (h : lossSum closes e p = 0) :
    rsiSpec closes e p = 100 := by
  unfold rsiSpec
  rw [if_pos h]

theorem needsPreviousG_iff_E (e : Nat) (p : Int) :
    SignalvG.needsPrevious e p ↔ SignalvE.needsPrevious e p := Iff.rfl

end Signalv

namespace Signalv

theorem stdAbs_eq_abs (x : ℚ) : SignalvE.stdAbs x = |x| := by
  unfold SignalvE.stdAbs
  split_ifs with h
  · exact (abs_of_neg h).symm
  · exact (abs_of_nonneg (not_lt.mp h)).symm

theorem stdMax3_eq_max (a b c : ℚ) : SignalvE.stdMax3 a b c = max a (max b c) := by
  unfold SignalvE.stdMax3
  rw [← max_assoc]
  have h1 : (if a < b then b else a) = max a b := by
    split_ifs with h
    · exact (max_eq_right (le_of_lt h)).symm
    · exact (max_eq_left (not_lt.mp h)).symm
  simp only [h1]
  split_ifs with h
  · exact (max_eq_right (le_of_lt h)).symm
  · exact (max_eq_left (not_lt.mp h)).symm

theorem atrBody_step (candles : List SignalvE.Candle) (i : Nat) (s : ℚ) (h1 : 1 ≤ i)
    (hi : i < candles.length) (hlen : candles.length < 2 ^ 64) :
    SignalvE.atrBody candles i s = some (s + trueRangeAt candles i) := by
  have hi' : i - 1 < candles.length := by omega
  unfold SignalvE.atrBody trueRangeAt
  rw [sizePred_eq i h1 (by omega), List.getElem?_eq_getElem hi, List.getElem?_eq_getElem hi']

theorem forLoop_atrBody (candles : List SignalvE.Candle) (hlen : candles.length < 2 ^ 64) :
    ∀ (n i : Nat) (s : ℚ), 1 ≤ i → i + n ≤ candles.length →
      forLoop (SignalvE.atrBody candles) i n s =
        some (s + ((List.range' i n).map (trueRangeAt candles)).sum) := by
  intro n
  induction n with
  | zero => intro i s _ _; simp [forLoop]
  | succ n ih =>
    intro i s h1 h
    rw [forLoop, atrBody_step candles i s h1 (by omega) hlen]
    simp only []
    rw [ih (i + 1) _ (by omega) (by omega)]
    simp only [List.range'_succ, List.map_cons, List.sum_cons, add_assoc]

end Signalv

/-- C5: for every pair of bars, `computeTrueRange(current, previous)` equals
`max(current.high - current.low, |current.high - previous.close|,
|current.low - previous.close|)`. -/
theorem C5_computeTrueRange_max (current previous : SignalvE.Candle) :
    SignalvE.computeTrueRange current previous =
      max (current.high - current.low)
        (max |current.high - previous.close| |current.low - previous.close|) := by
  unfold SignalvE.computeTrueRange
  rw [stdMax3_eq_max, stdAbs_eq_abs, stdAbs_eq_abs]

/-- C6: for every bar list, period `p ≥ 1` and end index `e` with
`p ≤ e < candles.size()`, `computeATR` returns the mean of
`computeTrueRange(candles[i], candles[i-1])` over the `p` bars
`i = e - p + 1 .. e`.  The period is an `int` for which the guard's
`period + 1` is an `int` too. -/
theorem C6_computeATR_mean (candles : List SignalvE.Candle) (e p : Nat)
    (hlen : candles.length < 2 ^ 64) (hpi : p + 1 < 2 ^ 31) (hp : 1 ≤ p) (hpe : p ≤ e)
    (he : e < candles.length) :
    SignalvE.computeATR candles e (p : Int) = some (mean (trueRangeWindow candles e p)) ∧
    (trueRangeWindow candles e p).length = p ∧
    ∀ k, k < p → ∃ cur prev, candles[e + 1 - p + k]? = some cur ∧
      candles[e + 1 - p + k - 1]? = some prev ∧
      (trueRangeWindow candles e p)[k]? = some (SignalvE.computeTrueRange cur prev) := by
  have he1 : e + 1 < 2 ^ 64 := by omega
  have hstart := toSizeT_window_start e p he1 (by omega)
  have hcnt : e + 1 - (e + 1 - p) = p := by omega
  have hloop := forLoop_atrBody candles hlen p (e + 1 - p) 0 (by omega) (by omega)
  have hwl : (trueRangeWindow candles e p).length = p := by
    unfold trueRangeWindow
    rw [List.length_map, List.length_range']
  refine ⟨?_, hwl, ?_⟩
  · unfold SignalvE.computeATR
    rw [if_neg (not_needsPreviousE e p he1 hpi hpe)]
    simp only [hstart, hcnt, hloop, zero_add, Int.cast_natCast, mean]
    rw [hwl]
    rfl
  · intro k hk
    have h1 : e + 1 - p + k < candles.length := by omega
    have h2 : e + 1 - p + k - 1 < candles.length := by omega
    refine ⟨candles[e + 1 - p + k], candles[e + 1 - p + k - 1],
      List.getElem?_eq_getElem h1, List.getElem?_eq_getElem h2, ?_⟩
    unfold trueRangeWindow
    rw [List.getElem?_map, List.getElem?_range' _ _ hk]
    simp only [Option.map_some', trueRangeAt, one_mul, List.getElem?_eq_getElem h1,
      List.getElem?_eq_getElem h2]

/-- Witness for C6: three bars, end index 2 and period 2. -/
theorem C6_computeATR_mean_witness :
    SignalvE.computeATR [⟨"a", 1, 1, 1, 1, 0⟩, ⟨"b", 3, 3, 3, 3, 0⟩, ⟨"c", 2, 2, 2, 2, 0⟩] 2
        ((2 : Nat) : Int) =
      some (mean (trueRangeWindow
        [⟨"a", 1, 1, 1, 1, 0⟩, ⟨"b", 3, 3, 3, 3, 0⟩, ⟨"c", 2, 2, 2, 2, 0⟩] 2 2)) :=
  (C6_computeATR_mean [⟨"a", 1, 1, 1, 1, 0⟩, ⟨"b", 3, 3, 3, 3, 0⟩, ⟨"c", 2, 2, 2, 2, 0⟩] 2 2
    (by simp) (by decide) (by decide) (by decide) (by simp)).1

/-- C7, counterexample: at end index 0 and period 1 it is not the case that
`computeATR` takes its insufficient-data branch exactly when `e + 1 < p` and
exactly when `computeSMA` does.  `computeATR` takes the branch (and returns
the sentinel 0 on a one-bar list) although `0 + 1 < 1` is false, while
`computeSMA` does not take its own and returns the mean 7 of the one close. -/
theorem C7_atr_guard_differs_from_sma :
    ¬ ((SignalvE.needsPrevious 0 1 ↔ (0 : Nat) + 1 < 1) ∧
       (SignalvE.needsPrevious 0 1 ↔ smaInsufficient 0 1)) ∧
    SignalvE.computeATR [⟨"a", 7, 7, 7, 7, 0⟩] 0 1 = some 0 ∧
    SignalvE.computeSMA [7] 0 1 = some 7 := by
  refine ⟨?_, ?_, ?_⟩
  · intro h
    have hg : SignalvE.needsPrevious 0 1 := by decide
    exact absurd (h.1.mp hg) (by decide)
  · decide
  · simp [SignalvE.computeSMA, smaInsufficient, sizeSucc, toSizeT, forLoop, sumBody]

/-- C7, amended: `computeATR` uses the insufficient-data rule of `computeRSI`,
not that of `computeSMA`.  For every end index `e` and period `p ≥ 1`,
`computeATR` takes its insufficient-data branch exactly when `e + 1 < p + 1`
(that is `e < p`) and then returns the sentinel 0 on every bar list, while
`computeSMA` takes its own exactly when `e + 1 < p`; so `computeATR` returns
the sentinel whenever `computeSMA` does, and the two rules differ exactly
at `e + 1 = p`. -/
theorem C7_atr_guard_amended (e p : Nat) (he : e + 1 < 2 ^ 64) (hp : 1 ≤ p)
    (hpi : p + 1 < 2 ^ 31) :
    (SignalvE.needsPrevious e (p : Int) ↔ e + 1 < p + 1) ∧
    (smaInsufficient e (p : Int) ↔ e + 1 < p) ∧
    (smaInsufficient e (p : Int) → SignalvE.needsPrevious e (p : Int)) ∧
    ((SignalvE.needsPrevious e (p : Int) ∧ ¬ smaInsufficient e (p : Int)) ↔ e + 1 = p) ∧
    (SignalvE.needsPrevious e (p : Int) →
      ∀ candles : List SignalvE.Candle, SignalvE.computeATR candles e (p : Int) = some 0) := by
  have h1 : SignalvE.needsPrevious e (p : Int) ↔ e + 1 < p + 1 := by
    unfold SignalvE.needsPrevious sizeSucc toSizeT wrapInt
    omega
  have h2 : smaInsufficient e (p : Int) ↔ e + 1 < p := by
    unfold smaInsufficient sizeSucc toSizeT
    omega
  refine ⟨h1, h2, ?_, ?_, ?_⟩
  · intro h
    exact h1.mpr (by have := h2.mp h; omega)
  · rw [h1, h2]
    omega
  · intro h candles
    unfold SignalvE.computeATR
    rw [if_pos h]

/-- Witness for the amended C7 at end index 0 and period 1. -/
theorem C7_atr_guard_amended_witness :
    (SignalvE.needsPrevious 0 ((1 : Nat) : Int) ↔ 0 + 1 < 1 + 1) ∧
    (smaInsufficient 0 ((1 : Nat) : Int) ↔ 0 + 1 < 1) ∧
    (smaInsufficient 0 ((1 : Nat) : Int) → SignalvE.needsPrevious 0 ((1 : Nat) : Int)) ∧
    ((SignalvE.needsPrevious 0 ((1 : Nat) : Int) ∧ ¬ smaInsufficient 0 ((1 : Nat) : Int)) ↔
      0 + 1 = 1) ∧
    (SignalvE.needsPrevious 0 ((1 : Nat) : Int) →
      ∀ candles : List SignalvE.Candle, SignalvE.computeATR candles 0 ((1 : Nat) : Int) = some 0) :=
  C7_atr_guard_amended 0 1 (by decide) (by decide) (by decide)

namespace Signalv

theorem wrapLL_idem_add (a b : Int) : wrapLL (wrapLL a + b) = wrapLL (a + b) := by
  unfold wrapLL
  omega

theorem wrapLL_wrapLL (a : Int) : wrapLL (wrapLL a) = wrapLL a := by
  unfold wrapLL
  omega

theorem wrapLL_of_range (a : Int) (h1 : -2 ^ 63 ≤ a) (h2 : a < 2 ^ 63) : wrapLL a = a := by
  unfold wrapLL
  omega

end Signalv

namespace Signalv

theorem obvUpdate_eq (bars : List (ℚ × Int)) (i : Nat) (obv : Int)
    (h1 : -2 ^ 63 ≤ obv + signedVolume bars i) (h2 : obv + signedVolume bars i < 2 ^ 63) :
    obvUpdate bars i obv = obv + signedVolume bars i := by
  unfold obvUpdate
  unfold signedVolume at h1 h2 ⊢
  cases hc : bars[i]? with
  | none => simp
  | some cur =>
    cases hp : bars[i - 1]? with
    | none => simp
    | some prev =>
      rw [hc, hp] at h1 h2
      simp only [gt_iff_lt] at h1 h2 ⊢
      by_cases hr : prev.1 < cur.1
      · simp only [hr, if_true] at h1 h2 ⊢
        exact wrapLL_of_range _ h1 h2
      · by_cases hf : cur.1 < prev.1
        · simp only [hr, hf, if_true, if_false] at h1 h2 ⊢
          rw [← sub_eq_add_neg] at h1 h2 ⊢
          exact wrapLL_of_range _ h1 h2
        · simp only [hr, hf, if_false, add_zero]

theorem obvBodyE_step (candles : List SignalvE.Candle) (i : Nat) (s : Int × List Int)
    (h1 : 1 ≤ i) (hi : i < candles.length) (hlen : candles.length < 2 ^ 64) :
    SignalvE.obvBody candles i s =
      some (obvUpdate (candles.map barE) i s.1, s.2 ++ [obvUpdate (candles.map barE) i s.1]) := by
  have hi' : i - 1 < candles.length := by omega
  unfold SignalvE.obvBody obvUpdate
  rw [sizePred_eq i h1 (by omega), List.getElem?_map, List.getElem?_map,
    List.getElem?_eq_getElem hi, List.getElem?_eq_getElem hi']
  rfl

theorem obvBodyG_step (candles : List SignalvG.Candle) (i : Nat) (s : Int × List Int)
    (h1 : 1 ≤ i) (hi : i < candles.length) (hlen : candles.length < 2 ^ 64) :
    SignalvG.obvBody candles i s =
      some (obvUpdate (candles.map barG) i s.1, s.2 ++ [obvUpdate (candles.map barG) i s.1]) := by
  have hi' : i - 1 < candles.length := by omega
  unfold SignalvG.obvBody obvUpdate
  rw [sizePred_eq i h1 (by omega), List.getElem?_map, List.getElem?_map,
    List.getElem?_eq_getElem hi, List.getElem?_eq_getElem hi']
  rfl

theorem forLoop_obv (bars : List (ℚ × Int))
    (body : Nat → Int × List Int → Option (Int × List Int))
    (hbody : ∀ i s, 1 ≤ i → i < bars.length →
      body i s = some (obvUpdate bars i s.1, s.2 ++ [obvUpdate bars i s.1])) :
    ∀ (n i : Nat) (s : Int × List Int), 1 ≤ i → i + n ≤ bars.length →
      (∀ k, k < n →
        -2 ^ 63 ≤ s.1 + ((List.range' i (k + 1)).map (signedVolume bars)).sum ∧
        s.1 + ((List.range' i (k + 1)).map (signedVolume bars)).sum < 2 ^ 63) →
      forLoop body i n s =
        some (s.1 + ((List.range' i n).map (signedVolume bars)).sum,
          s.2 ++ (List.range n).map
            (fun k => s.1 + ((List.range' i (k + 1)).map (signedVolume bars)).sum)) := by
  intro n
  induction n with
  | zero => intro i s _ _ _; simp [forLoop]
  | succ n ih =>
    intro i s h1 h hr
    have h0 := hr 0 (by omega)
    simp only [List.range'_succ, List.range'_zero, List.map_cons, List.map_nil, List.sum_cons,
      List.sum_nil, add_zero, zero_add] at h0
    rw [forLoop, hbody i s h1 (by omega), obvUpdate_eq bars i s.1 h0.1 h0.2]
    simp only []
    rw [ih (i + 1) _ (by omega) (by omega)]
    · simp only [List.range'_succ, List.map_cons, List.sum_cons, add_assoc, List.range_succ_eq_map,
        List.map_map, List.append_assoc, List.singleton_append, List.range'_zero, List.map_nil,
        List.sum_nil, add_zero, zero_add]
      rfl
    · intro k hk
      have := hr (k + 1) (by omega)
      simp only [List.range'_succ, List.map_cons, List.sum_cons] at this ⊢
      simp only [add_assoc]
      exact this

end Signalv

namespace Signalv

theorem obvSeries_length (bars : List (ℚ × Int)) (p : Nat) : (obvSeries bars p).length = p := by
  unfold obvSeries
  rw [List.length_map, List.length_range]

theorem obv_guard_iff (n p : Nat) (hpi : p + 1 < 2 ^ 31) :
    n < toSizeT (wrapInt ((p : Int) + 1)) ↔ n < p + 1 := by
  unfold toSizeT wrapInt
  omega

theorem obv_start (n p : Nat) (hn : n < 2 ^ 64) (hp : p ≤ n) :
    toSizeT ((n : Int) - (p : Int)) = n - p := by
  unfold toSizeT
  omega

theorem obv_loop_result (bars : List (ℚ × Int)) (p : Nat)
    (hpl : p + 1 ≤ bars.length)
    (body : Nat → Int × List Int → Option (Int × List Int))
    (hbody : ∀ i s, 1 ≤ i → i < bars.length →
      body i s = some (obvUpdate bars i s.1, s.2 ++ [obvUpdate bars i s.1]))
    (hrange : ∀ x ∈ obvSeries bars p, -2 ^ 63 ≤ x ∧ x < 2 ^ 63) :
    forLoop body (bars.length - p) p (0, []) =
      some (((List.range' (bars.length - p) p).map (signedVolume bars)).sum, obvSeries bars p) := by
  have h := forLoop_obv bars body hbody p (bars.length - p) (0, []) (by omega) (by omega) (by
    intro k hk
    simp only [zero_add]
    apply hrange
    unfold obvSeries
    exact List.mem_map.mpr ⟨k, List.mem_range.mpr hk, rfl⟩)
  rw [h]
  simp only [zero_add, List.nil_append, obvSeries]

theorem obv_compare (series : List Int) (hne : series ≠ []) :
    ∃ last first, series.getLast? = some last ∧ series.head? = some first := by
  cases series with
  | nil => exact absurd rfl hne
  | cons a t => exact ⟨(a :: t).getLast (by simp), a, List.getLast?_eq_getLast _ (by simp), rfl⟩

theorem computeOBVDirectionE_eq (candles : List SignalvE.Candle) (p : Nat)
    (hlen : candles.length < 2 ^ 64) (hpi : p + 1 < 2 ^ 31) (hp : 1 ≤ p)
    (hrange : ∀ x ∈ obvSeries (candles.map barE) p, -2 ^ 63 ≤ x ∧ x < 2 ^ 63) :
    SignalvE.computeOBVDirection candles (p : Int) =
      some (obvDirectionSpec (candles.map barE) p) := by
  have hl : (candles.map barE).length = candles.length := List.length_map _ _
  unfold SignalvE.computeOBVDirection obvDirectionSpec
  by_cases hg : candles.length < p + 1
  · rw [if_pos ((obv_guard_iff _ p hpi).mpr hg), if_pos (by rw [hl]; exact hg)]
  · rw [if_neg (fun h => hg ((obv_guard_iff _ p hpi).mp h)), if_neg (by rw [hl]; exact hg)]
    have hloop := obv_loop_result (candles.map barE) p (by rw [hl]; omega)
      (SignalvE.obvBody candles)
      (fun i s h1 hi => obvBodyE_step candles i s h1 (by rw [hl] at hi; exact hi) hlen) hrange
    rw [hl] at hloop
    have hcnt : candles.length - (candles.length - p) = p := by omega
    simp only [obv_start candles.length p hlen (by omega), hcnt, hloop]
    have hne : obvSeries (candles.map barE) p ≠ [] := by
      intro h0
      have := obvSeries_length (candles.map barE) p
      rw [h0] at this
      simp at this
      omega
    obtain ⟨last, first, hlast, hfirst⟩ := obv_compare _ hne
    rw [hlast, hfirst]
    simp only [gt_iff_lt]
    split_ifs <;> rfl

theorem computeOBVDirectionG_eq (candles : List SignalvG.Candle) (p : Nat)
    (hlen : candles.length < 2 ^ 64) (hpi : p + 1 < 2 ^ 31) (hp : 1 ≤ p)
    (hrange : ∀ x ∈ obvSeries (candles.map barG) p, -2 ^ 63 ≤ x ∧ x < 2 ^ 63) :
    SignalvG.computeOBVDirection candles (p : Int) =
      some (obvDirectionSpec (candles.map barG) p) := by
  have hl : (candles.map barG).length = candles.length := List.length_map _ _
  unfold SignalvG.computeOBVDirection obvDirectionSpec
  by_cases hg : candles.length < p + 1
  · rw [if_pos ((obv_guard_iff _ p hpi).mpr hg), if_pos (by rw [hl]; exact hg)]
  · rw [if_neg (fun h => hg ((obv_guard_iff _ p hpi).mp h)), if_neg (by rw [hl]; exact hg)]
    have hloop := obv_loop_result (candles.map barG) p (by rw [hl]; omega)
      (SignalvG.obvBody candles)
      (fun i s h1 hi => obvBodyG_step candles i s h1 (by rw [hl] at hi; exact hi) hlen) hrange
    rw [hl] at hloop
    have hcnt : candles.length - (candles.length - p) = p := by omega
    simp only [obv_start candles.length p hlen (by omega), hcnt, hloop]
    have hne : obvSeries (candles.map barG) p ≠ [] := by
      intro h0
      have := obvSeries_length (candles.map barG) p
      rw [h0] at this
      simp at this
      omega
    obtain ⟨last, first, hlast, hfirst⟩ := obv_compare _ hne
    rw [hlast, hfirst]
    simp only [gt_iff_lt]
    split_ifs <;> rfl

end Signalv

/-- C8, counterexample: three bars with rising closes and volumes
`0, 2^63 - 1, 1`, period 2.  The running series of the claim is
`2^63 - 1, 2^63`, whose last value exceeds its first, so the claim gives `+1`;
`computeOBVDirection` (both variants) returns `-1`, because the `long long`
running total overflows. -/
theorem C8_obv_overflow :
    (SignalvE.computeOBVDirection
        [⟨"a", 1, 1, 1, 1, 0⟩, ⟨"b", 2, 2, 2, 2, 9223372036854775807⟩, ⟨"c", 3, 3, 3, 3, 1⟩] 2
        = some (-1) ∧
      obvDirectionSpec (([⟨"a", 1, 1, 1, 1, 0⟩, ⟨"b", 2, 2, 2, 2, 9223372036854775807⟩,
        ⟨"c", 3, 3, 3, 3, 1⟩] : List SignalvE.Candle).map barE) 2 = 1) ∧
    (SignalvG.computeOBVDirection
        [⟨"a", 1, 1, 1, 1, 0, 0⟩, ⟨"b", 2, 2, 2, 2, 9223372036854775807, 0⟩,
          ⟨"c", 3, 3, 3, 3, 1, 0⟩] 2
        = some (-1) ∧
      obvDirectionSpec (([⟨"a", 1, 1, 1, 1, 0, 0⟩, ⟨"b", 2, 2, 2, 2, 9223372036854775807, 0⟩,
        ⟨"c", 3, 3, 3, 3, 1, 0⟩] : List SignalvG.Candle).map barG) 2 = 1) := by
  refine ⟨⟨?_, ?_⟩, ⟨?_, ?_⟩⟩ <;> decide

/-- C8, amended: for every bar list and period `p ≥ 1`, provided every value
of the running series `s` fits in a `long long`, `computeOBVDirection` (both
variants) returns 0 when `candles.size() < p + 1`; otherwise, with `s` the
running series obtained over the last `p` bars by adding the bar's volume when
its close rose versus the prior bar, subtracting it when it fell and leaving
the sum unchanged otherwise, it returns `+1` if the last value of `s` exceeds
the first, `-1` if it is less, and 0 if they are equal. -/
theorem C8_obv_amended (ce : List SignalvE.Candle) (cg : List SignalvG.Candle) (p : Nat)
    (hle : ce.length < 2 ^ 64) (hlg : cg.length < 2 ^ 64) (hpi : p + 1 < 2 ^ 31) (hp : 1 ≤ p)
    (hre : ∀ x ∈ obvSeries (ce.map barE) p, -2 ^ 63 ≤ x ∧ x < 2 ^ 63)
    (hrg : ∀ x ∈ obvSeries (cg.map barG) p, -2 ^ 63 ≤ x ∧ x < 2 ^ 63) :
    SignalvE.computeOBVDirection ce (p : Int) = some (obvDirectionSpec (ce.map barE) p) ∧
    SignalvG.computeOBVDirection cg (p : Int) = some (obvDirectionSpec (cg.map barG) p) :=
  ⟨computeOBVDirectionE_eq ce p hle hpi hp hre, computeOBVDirectionG_eq cg p hlg hpi hp hrg⟩

/-- Witness for the amended C8: four bars with closes `1, 2, 3, 2` and
volumes `5, 5, 7, 20`, period 3. -/
theorem C8_obv_amended_witness :
    SignalvE.computeOBVDirection
        [⟨"a", 1, 1, 1, 1, 5⟩, ⟨"b", 2, 2, 2, 2, 5⟩, ⟨"c", 3, 3, 3, 3, 7⟩, ⟨"d", 2, 2, 2, 2, 20⟩]
        ((3 : Nat) : Int) =
      some (obvDirectionSpec (([⟨"a", 1, 1, 1, 1, 5⟩, ⟨"b", 2, 2, 2, 2, 5⟩, ⟨"c", 3, 3, 3, 3, 7⟩,
        ⟨"d", 2, 2, 2, 2, 20⟩] : List SignalvE.Candle).map barE) 3) ∧
    SignalvG.computeOBVDirection
        [⟨"a", 1, 1, 1, 1, 5, 0⟩, ⟨"b", 2, 2, 2, 2, 5, 0⟩, ⟨"c", 3, 3, 3, 3, 7, 0⟩,
          ⟨"d", 2, 2, 2, 2, 20, 0⟩]
        ((3 : Nat) : Int) =
      some (obvDirectionSpec (([⟨"a", 1, 1, 1, 1, 5, 0⟩, ⟨"b", 2, 2, 2, 2, 5, 0⟩,
        ⟨"c", 3, 3, 3, 3, 7, 0⟩, ⟨"d", 2, 2, 2, 2, 20, 0⟩] : List SignalvG.Candle).map barG) 3) :=
  C8_obv_amended
    [⟨"a", 1, 1, 1, 1, 5⟩, ⟨"b", 2, 2, 2, 2, 5⟩, ⟨"c", 3, 3, 3, 3, 7⟩, ⟨"d", 2, 2, 2, 2, 20⟩]
    [⟨"a", 1, 1, 1, 1, 5, 0⟩, ⟨"b", 2, 2, 2, 2, 5, 0⟩, ⟨"c", 3, 3, 3, 3, 7, 0⟩,
      ⟨"d", 2, 2, 2, 2, 20, 0⟩]
    3 (by simp) (by simp) (by decide) (by decide) (by decide) (by decide)

namespace Signalv

theorem foldl_wrapLL {α : Type} (vol : α → Int) :
    ∀ (cs : List α) (t : Int),
      cs.foldl (fun total c => wrapLL (total + vol c)) (wrapLL t) =
        wrapLL (t + (cs.map vol).sum) := by
  intro cs
  induction cs with
  | nil => intro t; simp
  | cons c cs ih =>
    intro t
    rw [List.foldl_cons, wrapLL_idem_add, ih (t + vol c), List.map_cons, List.sum_cons, add_assoc]

theorem foldl_wrapLL_zero {α : Type} (vol : α → Int) (cs : List α) :
    cs.foldl (fun total c => wrapLL (total + vol c)) 0 = wrapLL ((cs.map vol).sum) := by
  have h := foldl_wrapLL vol cs 0
  have h0 : wrapLL 0 = 0 := by decide
  rw [h0, zero_add] at h
  exact h

theorem hasVolumeDataE_eq (candles : List SignalvE.Candle) :
    SignalvE.hasVolumeData candles =
      decide (0 < wrapLL ((candles.map SignalvE.Candle.volume).sum)) := by
  unfold SignalvE.hasVolumeData
  rw [foldl_wrapLL_zero]
  cases candles with
  | nil => decide
  | cons c cs => simp

theorem hasVolumeDataG_eq (candles : List SignalvG.Candle) :
    SignalvG.hasVolumeData candles =
      decide (0 < wrapLL ((candles.map SignalvG.Candle.volume).sum)) := by
  unfold SignalvG.hasVolumeData
  rw [foldl_wrapLL_zero]

end Signalv

/-- C9, counterexample: on two bars of volume `2^62` each, the sum of the
volumes is `2^63 > 0`, yet `hasVolumeData` (both variants) returns false: the
running `long long` total overflows. -/
theorem C9_hasVolumeData_overflow :
    (SignalvE.hasVolumeData
        [⟨"a", 1, 1, 1, 1, 4611686018427387904⟩, ⟨"b", 1, 1, 1, 1, 4611686018427387904⟩] = false ∧
      0 < (([⟨"a", 1, 1, 1, 1, 4611686018427387904⟩, ⟨"b", 1, 1, 1, 1, 4611686018427387904⟩] :
        List SignalvE.Candle).map SignalvE.Candle.volume).sum) ∧
    (SignalvG.hasVolumeData
        [⟨"a", 1, 1, 1, 1, 4611686018427387904, 0⟩, ⟨"b", 1, 1, 1, 1, 4611686018427387904, 0⟩] = false ∧
      0 < (([⟨"a", 1, 1, 1, 1, 4611686018427387904, 0⟩, ⟨"b", 1, 1, 1, 1, 4611686018427387904, 0⟩] :
        List SignalvG.Candle).map SignalvG.Candle.volume).sum) := by
  refine ⟨⟨?_, ?_⟩, ⟨?_, ?_⟩⟩ <;> decide

/-- C9, amended: whenever the sum of the volume field over the supplied bars
fits in a `long long` (it lies in `[-2^63, 2^63)`), `hasVolumeData(candles)`
(both variants) is true if and only if that sum is strictly positive; and it
is false for an empty list and for bars whose volume is zero on every bar. -/
theorem C9_hasVolumeData_amended (ce : List SignalvE.Candle) (cg : List SignalvG.Candle)
    (he : -2 ^ 63 ≤ (ce.map SignalvE.Candle.volume).sum ∧
      (ce.map SignalvE.Candle.volume).sum < 2 ^ 63)
    (hg : -2 ^ 63 ≤ (cg.map SignalvG.Candle.volume).sum ∧
      (cg.map SignalvG.Candle.volume).sum < 2 ^ 63) :
    (SignalvE.hasVolumeData ce = true ↔ 0 < (ce.map SignalvE.Candle.volume).sum) ∧
    (SignalvG.hasVolumeData cg = true ↔ 0 < (cg.map SignalvG.Candle.volume).sum) ∧
    SignalvE.hasVolumeData [] = false ∧ SignalvG.hasVolumeData [] = false ∧
    ((∀ c ∈ ce, c.volume = 0) → SignalvE.hasVolumeData ce = false) ∧
    ((∀ c ∈ cg, c.volume = 0) → SignalvG.hasVolumeData cg = false) := by
  refine ⟨?_, ?_, by decide, by decide, ?_, ?_⟩
  · rw [hasVolumeDataE_eq, wrapLL_of_range _ he.1 he.2]
    simp
  · rw [hasVolumeDataG_eq, wrapLL_of_range _ hg.1 hg.2]
    simp
  · intro h
    have hs : (ce.map SignalvE.Candle.volume).sum = 0 := by
      apply List.sum_eq_zero
      intro x hx
      obtain ⟨c, hc, rfl⟩ := List.mem_map.mp hx
      exact h c hc
    rw [hasVolumeDataE_eq, hs]
    decide
  · intro h
    have hs : (cg.map SignalvG.Candle.volume).sum = 0 := by
      apply List.sum_eq_zero
      intro x hx
      obtain ⟨c, hc, rfl⟩ := List.mem_map.mp hx
      exact h c hc
    rw [hasVolumeDataG_eq, hs]
    decide

/-- Witness for the amended C9: two bars of volume 3 and 0. -/
theorem C9_hasVolumeData_amended_witness :
    (SignalvE.hasVolumeData [⟨"a", 1, 1, 1, 1, 3⟩, ⟨"b", 1, 1, 1, 1, 0⟩] = true ↔
      0 < (([⟨"a", 1, 1, 1, 1, 3⟩, ⟨"b", 1, 1, 1, 1, 0⟩] : List SignalvE.Candle).map
        SignalvE.Candle.volume).sum) ∧
    (SignalvG.hasVolumeData [⟨"a", 1, 1, 1, 1, 3, 0⟩, ⟨"b", 1, 1, 1, 1, 0, 0⟩] = true ↔
      0 < (([⟨"a", 1, 1, 1, 1, 3, 0⟩, ⟨"b", 1, 1, 1, 1, 0, 0⟩] : List SignalvG.Candle).map
        SignalvG.Candle.volume).sum) :=
  have h := C9_hasVolumeData_amended [⟨"a", 1, 1, 1, 1, 3⟩, ⟨"b", 1, 1, 1, 1, 0⟩]
    [⟨"a", 1, 1, 1, 1, 3, 0⟩, ⟨"b", 1, 1, 1, 1, 0, 0⟩] (by decide) (by decide)
  ⟨h.1, h.2.1⟩

namespace Signalv

theorem backtest_guard (n : Nat) (sma_long rsi_period : Int) (h1 : sma_long < 2 ^ 31)
    (h2 : rsi_period < 2 ^ 31) (hn : (n : Int) < max sma_long rsi_period + 1) :
    n < toSizeT (wrapInt (max sma_long rsi_period + 1)) := by
  have hm : max sma_long rsi_period < 2 ^ 31 := max_lt h1 h2
  generalize max sma_long rsi_period = m at hn hm
  unfold toSizeT wrapInt
  omega

end Signalv

/-- C10: for `int` parameters and every bar history whose length is less
than `max(sma_long, rsi_period) + 1`, `simulateBacktest` (both variants)
returns the sentinel `-1e9` without faulting; and it reads no bar: it returns
the sentinel whatever the element access of a vector of that size does, also
when every element read faults. -/
theorem C10_simulateBacktest_sentinel
    (ce : List SignalvE.Candle) (pe : SignalvE.StrategyParams)
    (cg : List SignalvG.Candle) (pg : SignalvG.StrategyParams)
    (hel : pe.sma_long < 2 ^ 31) (her : pe.rsi_period < 2 ^ 31)
    (hgl : pg.sma_long < 2 ^ 31) (hgr : pg.rsi_period < 2 ^ 31)
    (hes : (ce.length : Int) < max pe.sma_long pe.rsi_period + 1)
    (hgs : (cg.length : Int) < max pg.sma_long pg.rsi_period + 1) :
    (SignalvE.simulateBacktest ce pe = some (-1000000000) ∧
      ∀ read, SignalvE.simulateBacktestAt ce.length read pe = some (-1000000000)) ∧
    (SignalvG.simulateBacktest cg pg = some (-1000000000) ∧
      ∀ read, SignalvG.simulateBacktestAt cg.length read pg = some (-1000000000)) := by
  have he := backtest_guard ce.length pe.sma_long pe.rsi_period hel her hes
  have hg := backtest_guard cg.length pg.sma_long pg.rsi_period hgl hgr hgs
  refine ⟨⟨?_, ?_⟩, ⟨?_, ?_⟩⟩
  · unfold SignalvE.simulateBacktest SignalvE.simulateBacktestAt
    rw [if_pos he]
  · intro read
    unfold SignalvE.simulateBacktestAt
    rw [if_pos he]
  · unfold SignalvG.simulateBacktest SignalvG.simulateBacktestAt
    rw [if_pos hg]
  · intro read
    unfold SignalvG.simulateBacktestAt
    rw [if_pos hg]

/-- Witness for C10: a three-bar history under the default parameters
(`sma_long = 20`, `rsi_period = 14`). -/
theorem C10_simulateBacktest_sentinel_witness :
    (SignalvE.simulateBacktest
        [⟨"a", 1, 1, 1, 1, 0⟩, ⟨"b", 2, 2, 2, 2, 0⟩, ⟨"c", 3, 3, 3, 3, 0⟩] {} =
        some (-1000000000) ∧
      ∀ read, SignalvE.simulateBacktestAt
        ([⟨"a", 1, 1, 1, 1, 0⟩, ⟨"b", 2, 2, 2, 2, 0⟩, ⟨"c", 3, 3, 3, 3, 0⟩] :
          List SignalvE.Candle).length read {} = some (-1000000000)) ∧
    (SignalvG.simulateBacktest
        [⟨"a", 1, 1, 1, 1, 0, 0⟩, ⟨"b", 2, 2, 2, 2, 0, 0⟩, ⟨"c", 3, 3, 3, 3, 0, 0⟩] {} =
        some (-1000000000) ∧
      ∀ read, SignalvG.simulateBacktestAt
        ([⟨"a", 1, 1, 1, 1, 0, 0⟩, ⟨"b", 2, 2, 2, 2, 0, 0⟩, ⟨"c", 3, 3, 3, 3, 0, 0⟩] :
          List SignalvG.Candle).length read {} = some (-1000000000)) :=
  C10_simulateBacktest_sentinel
    [⟨"a", 1, 1, 1, 1, 0⟩, ⟨"b", 2, 2, 2, 2, 0⟩, ⟨"c", 3, 3, 3, 3, 0⟩] {}
    [⟨"a", 1, 1, 1, 1, 0, 0⟩, ⟨"b", 2, 2, 2, 2, 0, 0⟩, ⟨"c", 3, 3, 3, 3, 0, 0⟩] {}
    (by decide) (by decide) (by decide) (by decide) (by decide) (by decide)

namespace Signalv

/-! ## The copy of the closes in `simulateBacktest` -/

theorem forLoop_closesBodyE (candles : List SignalvE.Candle) :
    ∀ (n i : Nat) (acc : List ℚ), i + n ≤ candles.length →
      forLoop (SignalvE.closesBody (fun j => candles[j]?)) i n acc =
        some (acc ++ ((candles.drop i).take n).map SignalvE.Candle.close) := by
  intro n
  induction n with
  | zero => intro i acc _; simp [forLoop]
  | succ n ih =>
    intro i acc h
    have hi : i < candles.length := by omega
    rw [forLoop, SignalvE.closesBody, List.getElem?_eq_getElem hi]
    simp only []
    rw [ih (i + 1) _ (by omega), List.drop_eq_getElem_cons hi, List.take_succ_cons, List.map_cons,
      List.append_assoc, List.singleton_append]

theorem forLoop_closesBodyG (candles : List SignalvG.Candle) :
    ∀ (n i : Nat) (acc : List ℚ), i + n ≤ candles.length →
      forLoop (SignalvG.closesBody (fun j => candles[j]?)) i n acc =
        some (acc ++ ((candles.drop i).take n).map SignalvG.Candle.close) := by
  intro n
  induction n with
  | zero => intro i acc _; simp [forLoop]
  | succ n ih =>
    intro i acc h
    have hi : i < candles.length := by omega
    rw [forLoop, SignalvG.closesBody, List.getElem?_eq_getElem hi]
    simp only []
    rw [ih (i + 1) _ (by omega), List.drop_eq_getElem_cons hi, List.take_succ_cons, List.map_cons,
      List.append_assoc, List.singleton_append]

theorem closes_copyE (candles : List SignalvE.Candle) :
    forLoop (SignalvE.closesBody (fun j => candles[j]?)) 0 candles.length [] =
      some (candles.map SignalvE.Candle.close) := by
  rw [forLoop_closesBodyE candles candles.length 0 [] (by omega)]
  simp

theorem closes_copyG (candles : List SignalvG.Candle) :
    forLoop (SignalvG.closesBody (fun j => candles[j]?)) 0 candles.length [] =
      some (candles.map SignalvG.Candle.close) := by
  rw [forLoop_closesBodyG candles candles.length 0 [] (by omega)]
  simp

end Signalv

namespace Signalv

/-! ## The replay loop of `simulateBacktest` -/

theorem computeSMAE_eq_mean (prices : List ℚ) (e p : Nat)
    (hlen : prices.length < 2 ^ 64) (he : e < prices.length) (hp : 1 ≤ p) (hpe : p ≤ e + 1) :
    SignalvE.computeSMA prices e (p : Int) = some (mean (window prices e p)) := by
  have he1 : e + 1 < 2 ^ 64 := by omega
  have hwl := window_length prices e p he hpe
  have hloop := forLoop_sumBody prices p (e + 1 - p) 0 (by omega)
  have hcnt : e + 1 - (e + 1 - p) = p := by omega
  unfold SignalvE.computeSMA
  rw [if_neg (not_smaInsufficient e p he1 hp hpe)]
  simp only [toSizeT_window_start e p he1 hpe, hcnt, hloop, mean, window, zero_add]
  rw [← window, hwl]
  simp

theorem computeSMA_E_eq_G (prices : List ℚ) (e : Nat) (p : Int) (he : e + 1 < 2 ^ 64) :
    SignalvE.computeSMA prices e p = SignalvG.computeSMA prices e p := by
  unfold SignalvE.computeSMA SignalvG.computeSMA SignalvG.accumulate
  rw [sizeSucc_eq e he]

theorem computeSMAG_eq_mean (prices : List ℚ) (e p : Nat)
    (hlen : prices.length < 2 ^ 64) (he : e < prices.length) (hp : 1 ≤ p) (hpe : p ≤ e + 1) :
    SignalvG.computeSMA prices e (p : Int) = some (mean (window prices e p)) := by
  rw [← computeSMA_E_eq_G prices e p (by omega)]
  exact computeSMAE_eq_mean prices e p hlen he hp hpe

theorem computeRSI_E_eq_G (closes : List ℚ) (e : Nat) (p : Int) (hp : p ≠ 0) :
    SignalvE.computeRSI closes e p = SignalvG.computeRSI closes e p := by
  have hp0 : (p : ℚ) ≠ 0 := by exact_mod_cast hp
  unfold SignalvE.computeRSI SignalvG.computeRSI
  rw [rsiBodyG_eq_rsiBodyE]
  by_cases hg : SignalvE.needsPrevious e p
  · rw [if_pos hg, if_pos ((needsPreviousG_iff_E e p).mpr hg)]
  · rw [if_neg hg, if_neg (fun h => hg ((needsPreviousG_iff_E e p).mp h))]
    simp only []
    cases forLoop (SignalvE.rsiBody closes) (toSizeT ((e : Int) - p + 1))
        (e + 1 - toSizeT ((e : Int) - p + 1)) (0, 0) with
    | none => rfl
    | some gl =>
      obtain ⟨gain, loss⟩ := gl
      simp only []
      by_cases hl : loss = 0
      · simp [hl]
      · have hq : loss / (p : ℚ) ≠ 0 := div_ne_zero hl hp0
        simp only [hl, hq, if_false]

end Signalv

namespace Signalv

theorem simBodyG_step (closes : List ℚ) (params : SignalvG.StrategyParams) (ss sl rp : Nat)
    (hss : params.sma_short = (ss : Int)) (hsl : params.sma_long = (sl : Int))
    (hrp : params.rsi_period = (rp : Int))
    (hlen : closes.length < 2 ^ 64) (h1 : 1 ≤ ss) (h2 : ss ≤ sl) (h3 : 1 ≤ rp)
    (hpi : rp + 1 < 2 ^ 31) (i : Nat) (hi : replayStart sl rp ≤ i) (hil : i < closes.length)
    (s : SignalvG.SimState) :
    SignalvG.simBody closes params i s =
      some (if s.in_pos = false ∧ entrySignal closes ss sl rp i = true then
          { s with in_pos := true, entry := closes.getD i 0 }
        else if s.in_pos = true ∧ exitSignal closes ss sl i = true then
          { s with profit := s.profit + (closes.getD i 0 - s.entry), in_pos := false }
        else s) := by
  unfold replayStart at hi
  have hsli : sl ≤ i := by omega
  have hrpi : rp ≤ i := by omega
  have e1 := computeSMAG_eq_mean closes i ss hlen hil h1 (by omega)
  have e2 := computeSMAG_eq_mean closes i sl hlen hil (by omega) (by omega)
  have e3 := (computeRSI_eq_rsiSpec closes i rp hlen hpi h3 hrpi hil).2
  unfold SignalvG.simBody
  rw [hss, hsl, hrp, e1, e2, e3, List.getElem?_eq_getElem hil, List.getD_eq_getElem _ _ hil]
  simp only [entrySignal, exitSignal, decide_eq_true_eq, gt_iff_lt]
  cases hpos : s.in_pos <;> simp <;> split_ifs <;> rfl

end Signalv

namespace Signalv

theorem forLoop_simBodyG (closes : List ℚ) (params : SignalvG.StrategyParams) (ss sl rp : Nat)
    (hss : params.sma_short = (ss : Int)) (hsl : params.sma_long = (sl : Int))
    (hrp : params.rsi_period = (rp : Int))
    (hlen : closes.length < 2 ^ 64) (h1 : 1 ≤ ss) (h2 : ss ≤ sl) (h3 : 1 ≤ rp)
    (hpi : rp + 1 < 2 ^ 31) :
    ∀ (n i : Nat) (s : SignalvG.SimState) (pos : Option Nat),
      replayStart sl rp ≤ i → i + n ≤ closes.length →
      ((s.in_pos = false ∧ pos = none) ∨
        (s.in_pos = true ∧ ∃ j, pos = some j ∧ s.entry = closes.getD j 0)) →
      ∃ s', forLoop (SignalvG.simBody closes params) i n s = some s' ∧
        s'.profit = s.profit +
          ((scanTrips (entrySignal closes ss sl rp) (exitSignal closes ss sl) pos
            (List.range' i n)).map (tripProfit closes)).sum := by
  intro n
  induction n with
  | zero =>
    intro i s pos _ _ _
    refine ⟨s, rfl, ?_⟩
    cases pos <;> simp [scanTrips]
  | succ n ih =>
    intro i s pos hi hn hpos
    rw [forLoop, simBodyG_step closes params ss sl rp hss hsl hrp hlen h1 h2 h3 hpi i hi
      (by omega) s]
    simp only [List.range'_succ]
    rcases hpos with ⟨hflat, rfl⟩ | ⟨hlong, j, rfl, hentry⟩
    · by_cases hen : entrySignal closes ss sl rp i = true
      · obtain ⟨s', hs', hp'⟩ := ih (i + 1) { s with in_pos := true, entry := closes.getD i 0 }
          (some i) (by omega) (by omega) (Or.inr ⟨rfl, i, rfl, rfl⟩)
        refine ⟨s', ?_, ?_⟩
        · simp only [hflat, hen, and_self, if_true]
          exact hs'
        · rw [hp', scanTrips, if_pos hen]
      · obtain ⟨s', hs', hp'⟩ := ih (i + 1) s none (by omega) (by omega) (Or.inl ⟨hflat, rfl⟩)
        refine ⟨s', ?_, ?_⟩
        · simp only [hflat, hen, and_false, if_false, Bool.false_eq_true, false_and]
          exact hs'
        · rw [hp', scanTrips, if_neg hen]
    · by_cases hex : exitSignal closes ss sl i = true
      · obtain ⟨s', hs', hp'⟩ := ih (i + 1)
          { s with profit := s.profit + (closes.getD i 0 - s.entry), in_pos := false } none
          (by omega) (by omega) (Or.inl ⟨rfl, rfl⟩)
        refine ⟨s', ?_, ?_⟩
        · simp only [hlong, hex, and_self, if_true, Bool.true_eq_false, false_and, if_false]
          exact hs'
        · rw [hp', scanTrips, if_pos hex, List.map_cons, List.sum_cons]
          simp only [tripProfit, hentry]
          ring
      · obtain ⟨s', hs', hp'⟩ := ih (i + 1) s (some j) (by omega) (by omega)
          (Or.inr ⟨hlong, j, rfl, hentry⟩)
        refine ⟨s', ?_, ?_⟩
        · simp only [hlong, hex, and_false, if_false, Bool.true_eq_false, false_and]
          exact hs'
        · rw [hp', scanTrips, if_neg hex]

end Signalv

namespace Signalv

theorem replay_start_eq (sl rp : Nat) (h : max sl rp + 1 < 2 ^ 31) :
    toSizeT (wrapInt (max (sl : Int) (rp : Int) + 1)) = replayStart sl rp := by
  unfold replayStart
  rw [← Nat.cast_max]
  generalize max sl rp = m at h
  unfold toSizeT wrapInt
  omega

theorem simulateBacktestG_eq (candles : List SignalvG.Candle) (params : SignalvG.StrategyParams)
    (ss sl rp : Nat)
    (hss : params.sma_short = (ss : Int)) (hsl : params.sma_long = (sl : Int))
    (hrp : params.rsi_period = (rp : Int))
    (hlen : candles.length < 2 ^ 64) (h1 : 1 ≤ ss) (h2 : ss ≤ sl) (h3 : 1 ≤ rp)
    (hpi : max sl rp + 1 < 2 ^ 31) (hfeas : replayStart sl rp ≤ candles.length) :
    SignalvG.simulateBacktest candles params =
      some (realizedProfit (candles.map SignalvG.Candle.close) ss sl rp) := by
  have hl : (candles.map SignalvG.Candle.close).length = candles.length := List.length_map _ _
  have hrp1 : rp + 1 < 2 ^ 31 := by
    have : rp ≤ max sl rp := le_max_right sl rp
    omega
  unfold SignalvG.simulateBacktest SignalvG.simulateBacktestAt
  rw [hsl, hrp, replay_start_eq sl rp hpi, if_neg (by omega), closes_copyG]
  simp only []
  obtain ⟨s', hs', hp'⟩ := forLoop_simBodyG (candles.map SignalvG.Candle.close) params ss sl rp
    hss hsl hrp (by rw [hl]; exact hlen) h1 h2 h3 hrp1 (candles.length - replayStart sl rp)
    (replayStart sl rp) ⟨0, false, 0⟩ none (le_refl _) (by rw [hl]; omega) (Or.inl ⟨rfl, rfl⟩)
  rw [hs']
  simp only [hp', zero_add, realizedProfit, roundTrips, hl]

end Signalv

namespace Signalv

/-! ## The two variants of `simulateBacktest` agree -/

theorem forLoop_map {σ τ : Type} (f : σ → τ) (b1 : Nat → σ → Option σ)
    (b2 : Nat → τ → Option τ) (hi : Nat)
    (h : ∀ i s, i < hi → b2 i (f s) = (b1 i s).map f) :
    ∀ (n i : Nat) (s : σ), i + n ≤ hi → forLoop b2 i n (f s) = (forLoop b1 i n s).map f := by
  intro n
  induction n with
  | zero => intro i s _; simp [forLoop]
  | succ n ih =>
    intro i s hn
    rw [forLoop, forLoop, h i s (by omega)]
    cases hb : b1 i s with
    | none => simp
    | some s' =>
      simp only [Option.map_some']
      exact ih (i + 1) s' (by omega)

theorem simBody_E_G (closes : List ℚ) (pe : SignalvE.StrategyParams)
    (pg : SignalvG.StrategyParams) (hss : pe.sma_short = pg.sma_short)
    (hsl : pe.sma_long = pg.sma_long) (hrp : pe.rsi_period = pg.rsi_period)
    (hrp0 : pe.rsi_period ≠ 0) (i : Nat) (hi : i + 1 < 2 ^ 64) (s : SignalvE.SimState) :
    SignalvG.simBody closes pg i (simStateG s) =
      (SignalvE.simBody closes pe i s).map simStateG := by
  unfold SignalvG.simBody SignalvE.simBody
  rw [← hss, ← hsl, ← hrp, ← computeSMA_E_eq_G closes i pe.sma_short hi,
    ← computeSMA_E_eq_G closes i pe.sma_long hi, ← computeRSI_E_eq_G closes i pe.rsi_period hrp0]
  cases SignalvE.computeSMA closes i pe.sma_short with
  | none => rfl
  | some a =>
    cases SignalvE.computeSMA closes i pe.sma_long with
    | none => rfl
    | some b =>
      cases SignalvE.computeRSI closes i pe.rsi_period with
      | none => rfl
      | some r =>
        simp only [simStateG]
        cases closes[i]? <;> split_ifs <;> rfl

end Signalv

namespace Signalv

theorem simulateBacktest_E_eq_G (ce : List SignalvE.Candle) (cg : List SignalvG.Candle)
    (pe : SignalvE.StrategyParams) (pg : SignalvG.StrategyParams)
    (hcl : ce.map SignalvE.Candle.close = cg.map SignalvG.Candle.close)
    (hss : pe.sma_short = pg.sma_short) (hsl : pe.sma_long = pg.sma_long)
    (hrp : pe.rsi_period = pg.rsi_period) (hrp0 : pe.rsi_period ≠ 0)
    (hlen : ce.length < 2 ^ 64) :
    SignalvE.simulateBacktest ce pe = SignalvG.simulateBacktest cg pg := by
  have hl : cg.length = ce.length := by
    have := congrArg List.length hcl
    simpa using this.symm
  unfold SignalvE.simulateBacktest SignalvE.simulateBacktestAt SignalvG.simulateBacktest
    SignalvG.simulateBacktestAt
  rw [closes_copyE, closes_copyG, ← hcl, hl, ← hsl, ← hrp]
  by_cases hg : ce.length < toSizeT (wrapInt (max pe.sma_long pe.rsi_period + 1))
  · rw [if_pos hg, if_pos hg]
  · rw [if_neg hg, if_neg hg]
    simp only []
    have hm := forLoop_map simStateG (SignalvE.simBody (ce.map SignalvE.Candle.close) pe)
      (SignalvG.simBody (ce.map SignalvE.Candle.close) pg) ce.length
      (fun i s hi => simBody_E_G _ pe pg hss hsl hrp hrp0 i (by omega) s)
      (ce.length - toSizeT (wrapInt (max pe.sma_long pe.rsi_period + 1)))
      (toSizeT (wrapInt (max pe.sma_long pe.rsi_period + 1))) ⟨0, false, 0⟩ (by omega)
    have h0 : simStateG ⟨0, false, 0⟩ = (⟨0, false, 0⟩ : SignalvG.SimState) := rfl
    rw [h0] at hm
    rw [hm]
    cases forLoop (SignalvE.simBody (ce.map SignalvE.Candle.close) pe)
        (toSizeT (wrapInt (max pe.sma_long pe.rsi_period + 1)))
        (ce.length - toSizeT (wrapInt (max pe.sma_long pe.rsi_period + 1))) ⟨0, false, 0⟩ with
    | none => rfl
    | some s => rfl

theorem candleG_closes (atr : ℚ) (ce : List SignalvE.Candle) :
    (ce.map (candleG atr)).map SignalvG.Candle.close = ce.map SignalvE.Candle.close := by
  rw [List.map_map]
  rfl

theorem simulateBacktestE_eq (candles : List SignalvE.Candle) (params : SignalvE.StrategyParams)
    (ss sl rp : Nat)
    (hss : params.sma_short = (ss : Int)) (hsl : params.sma_long = (sl : Int))
    (hrp : params.rsi_period = (rp : Int))
    (hlen : candles.length < 2 ^ 64) (h1 : 1 ≤ ss) (h2 : ss ≤ sl) (h3 : 1 ≤ rp)
    (hpi : max sl rp + 1 < 2 ^ 31) (hfeas : replayStart sl rp ≤ candles.length) :
    SignalvE.simulateBacktest candles params =
      some (realizedProfit (candles.map SignalvE.Candle.close) ss sl rp) := by
  have hrp0 : params.rsi_period ≠ 0 := by
    rw [hrp]
    exact_mod_cast (by omega : rp ≠ 0)
  rw [simulateBacktest_E_eq_G candles (candles.map (candleG 0)) params (paramsG params)
    (candleG_closes 0 candles).symm rfl rfl rfl hrp0 hlen,
    simulateBacktestG_eq (candles.map (candleG 0)) (paramsG params) ss sl rp hss hsl hrp
      (by rw [List.length_map]; exact hlen) h1 h2 h3 hpi
      (by rw [List.length_map]; exact hfeas),
    candleG_closes]

end Signalv

namespace Signalv

/-! ## Shape of the round trips -/

theorem scanTrips_mem (enter exit : Nat → Bool) :
    ∀ (n i : Nat) (pos : Option Nat), (∀ j, pos = some j → j < i) →
      ∀ t ∈ scanTrips enter exit pos (List.range' i n),
        (pos = some t.1 ∨ (i ≤ t.1 ∧ enter t.1 = true)) ∧ t.1 < t.2 ∧ i ≤ t.2 ∧ t.2 < i + n ∧
        exit t.2 = true ∧ ∀ m, i ≤ m → t.1 < m → m < t.2 → exit m = false := by
  intro n
  induction n with
  | zero =>
    intro i pos _ t ht
    cases pos <;> simp [scanTrips] at ht
  | succ n ih =>
    intro i pos hpos t ht
    rw [List.range'_succ] at ht
    cases pos with
    | none =>
      rw [scanTrips] at ht
      by_cases hen : enter i = true
      · rw [if_pos hen] at ht
        obtain ⟨h1, h2, h3, h4, h5, h6⟩ := ih (i + 1) (some i) (by intro j hj; cases hj; omega) t ht
        refine ⟨Or.inr ?_, h2, by omega, by omega, h5, ?_⟩
        · rcases h1 with h1 | ⟨h1, h1'⟩
          · cases h1
            exact ⟨le_refl _, hen⟩
          · exact ⟨by omega, h1'⟩
        · intro m hm1 hm2 hm3
          have : i ≤ t.1 := by
            rcases h1 with h1 | ⟨h1, _⟩
            · cases h1; exact le_refl _
            · omega
          exact h6 m (by omega) hm2 hm3
      · rw [if_neg hen] at ht
        obtain ⟨h1, h2, h3, h4, h5, h6⟩ := ih (i + 1) none (by intro j hj; cases hj) t ht
        rcases h1 with h1 | ⟨h1, h1'⟩
        · cases h1
        · exact ⟨Or.inr ⟨by omega, h1'⟩, h2, by omega, by omega, h5,
            fun m _ hm2 hm3 => h6 m (by omega) hm2 hm3⟩
    | some j =>
      have hj : j < i := hpos j rfl
      rw [scanTrips] at ht
      by_cases hex : exit i = true
      · rw [if_pos hex] at ht
        rcases List.mem_cons.mp ht with ht | ht
        · subst ht
          exact ⟨Or.inl rfl, hj, le_refl _, by omega, hex, fun m hm1 _ hm3 => by
            simp only at hm3; omega⟩
        · obtain ⟨h1, h2, h3, h4, h5, h6⟩ := ih (i + 1) none (by intro j hj; cases hj) t ht
          rcases h1 with h1 | ⟨h1, h1'⟩
          · cases h1
          · exact ⟨Or.inr ⟨by omega, h1'⟩, h2, by omega, by omega, h5,
              fun m _ hm2 hm3 => h6 m (by omega) hm2 hm3⟩
      · rw [if_neg hex] at ht
        obtain ⟨h1, h2, h3, h4, h5, h6⟩ := ih (i + 1) (some j)
          (by intro j' hj'; cases hj'; omega) t ht
        refine ⟨?_, h2, by omega, by omega, h5, ?_⟩
        · rcases h1 with h1 | ⟨h1, h1'⟩
          · exact Or.inl h1
          · exact Or.inr ⟨by omega, h1'⟩
        · intro m hm1 hm2 hm3
          by_cases hmi : m = i
          · subst hmi
            simpa using hex
          · exact h6 m (by omega) hm2 hm3

theorem scanTrips_pairwise (enter exit : Nat → Bool) :
    ∀ (n i : Nat) (pos : Option Nat), (∀ j, pos = some j → j < i) →
      (scanTrips enter exit pos (List.range' i n)).Pairwise (fun a b => a.2 < b.1) := by
  intro n
  induction n with
  | zero =>
    intro i pos _
    cases pos <;> simp [scanTrips]
  | succ n ih =>
    intro i pos hpos
    rw [List.range'_succ]
    cases pos with
    | none =>
      rw [scanTrips]
      split_ifs
      · exact ih (i + 1) (some i) (by intro j hj; cases hj; omega)
      · exact ih (i + 1) none (by intro j hj; cases hj)
    | some j =>
      rw [scanTrips]
      split_ifs
      · refine List.Pairwise.cons ?_ (ih (i + 1) none (by intro j hj; cases hj))
        intro b hb
        obtain ⟨h1, _⟩ := scanTrips_mem enter exit n (i + 1) none (by intro j hj; cases hj) b hb
        rcases h1 with h1 | ⟨h1, _⟩
        · cases h1
        · simp only
          omega
      · exact ih (i + 1) (some j) (by intro j' hj'; cases hj'; have := hpos j rfl; omega)

end Signalv

namespace Signalv

theorem scanTrips_entry_first (enter exit : Nat → Bool) :
    ∀ (n i : Nat) (pos : Option Nat), (∀ j, pos = some j → j < i) →
      ∀ t ∈ scanTrips enter exit pos (List.range' i n), ∀ m, m < t.1 →
        ((i ≤ m ∧ enter m = true) ∨ (∃ j, pos = some j ∧ j ≤ m ∧ m < i)) →
        ∃ t0 ∈ scanTrips enter exit pos (List.range' i n),
          t0.1 ≤ m ∧ m ≤ t0.2 ∧ t0.2 < t.1 := by
  intro n
  induction n with
  | zero =>
    intro i pos _ t ht
    cases pos <;> simp [scanTrips] at ht
  | succ n ih =>
    intro i pos hpos t ht m hm hc
    rw [List.range'_succ] at ht ⊢
    cases pos with
    | none =>
      rw [scanTrips] at ht ⊢
      rcases hc with ⟨hc1, hc2⟩ | ⟨j, hj, _⟩
      · by_cases hen : enter i = true
        · rw [if_pos hen] at ht ⊢
          refine ih (i + 1) (some i) (by intro j hj; cases hj; omega) t ht m hm ?_
          by_cases hmi : m = i
          · exact Or.inr ⟨i, rfl, by omega, by omega⟩
          · exact Or.inl ⟨by omega, hc2⟩
        · rw [if_neg hen] at ht ⊢
          refine ih (i + 1) none (by intro j hj; cases hj) t ht m hm (Or.inl ⟨?_, hc2⟩)
          by_cases hmi : m = i
          · subst hmi
            exact absurd hc2 hen
          · omega
      · cases hj
    | some j =>
      have hj : j < i := hpos j rfl
      rw [scanTrips] at ht ⊢
      by_cases hex : exit i = true
      · rw [if_pos hex] at ht ⊢
        rcases List.mem_cons.mp ht with ht | ht
        · subst ht
          simp only at hm
          rcases hc with ⟨hc1, _⟩ | ⟨j', hj', hc1, _⟩
          · omega
          · cases hj'
            omega
        · have hmem := scanTrips_mem enter exit n (i + 1) none (by intro j hj; cases hj) t ht
          have hti : i + 1 ≤ t.1 := by
            rcases hmem.1 with h | ⟨h, _⟩
            · cases h
            · exact h
          by_cases hmi : m ≤ i
          · refine ⟨(j, i), List.mem_cons_self _ _, ?_, hmi, by simp only; omega⟩
            rcases hc with ⟨hc1, _⟩ | ⟨j', hj', hc1, _⟩
            · simp only; omega
            · cases hj'
              exact hc1
          · rcases hc with ⟨hc1, hc2⟩ | ⟨j', _, _, hc1⟩
            · obtain ⟨t0, ht0, h⟩ := ih (i + 1) none (by intro j hj; cases hj) t ht m hm
                (Or.inl ⟨by omega, hc2⟩)
              exact ⟨t0, List.mem_cons_of_mem _ ht0, h⟩
            · omega
      · rw [if_neg hex] at ht ⊢
        refine ih (i + 1) (some j) (by intro j' hj'; cases hj'; omega) t ht m hm ?_
        rcases hc with ⟨hc1, hc2⟩ | ⟨j', hj', hc1, hc2⟩
        · by_cases hmi : m = i
          · exact Or.inr ⟨j, rfl, by omega, by omega⟩
          · exact Or.inl ⟨by omega, hc2⟩
        · cases hj'
          exact Or.inr ⟨j, rfl, hc1, by omega⟩

end Signalv

namespace Signalv

theorem roundTrips_shape (closes : List ℚ) (ss sl rp : Nat) :
    (∀ t ∈ roundTrips closes ss sl rp,
      replayStart sl rp ≤ t.1 ∧ t.1 < t.2 ∧ t.2 < closes.length ∧
      entrySignal closes ss sl rp t.1 = true ∧ exitSignal closes ss sl t.2 = true ∧
      (∀ m, t.1 < m → m < t.2 → exitSignal closes ss sl m = false) ∧
      (∀ m, replayStart sl rp ≤ m → m < t.1 → entrySignal closes ss sl rp m = true →
        ∃ t0 ∈ roundTrips closes ss sl rp, t0.1 ≤ m ∧ m ≤ t0.2 ∧ t0.2 < t.1)) ∧
    (roundTrips closes ss sl rp).Pairwise (fun a b => a.2 < b.1) := by
  refine ⟨?_, scanTrips_pairwise _ _ _ _ none (by intro j hj; cases hj)⟩
  intro t ht
  unfold roundTrips at ht ⊢
  obtain ⟨h1, h2, h3, h4, h5, h6⟩ := scanTrips_mem _ _ _ _ none (by intro j hj; cases hj) t ht
  have h1' : replayStart sl rp ≤ t.1 ∧ entrySignal closes ss sl rp t.1 = true := by
    rcases h1 with h1 | h1
    · cases h1
    · exact h1
  refine ⟨h1'.1, h2, by omega, h1'.2, h5, fun m hm1 hm2 => h6 m (by omega) hm1 hm2, ?_⟩
  intro m hm1 hm2 hm3
  exact scanTrips_entry_first _ _ _ _ none (by intro j hj; cases hj) t ht m hm2
    (Or.inl ⟨hm1, hm3⟩)

end Signalv

/-- C11: for every feasible history (`length ≥ max(sma_long, rsi_period) + 1`)
and parameters with `1 ≤ sma_short ≤ sma_long` and `rsi_period ≥ 1`,
`simulateBacktest` (both variants) returns the sum of
`closes[exit] - closes[entry]` over the completed round trips of the long-only
replay that starts flat at bar `max(sma_long, rsi_period) + 1`.  Every round
trip `(entry, exit)` has its entry at a bar with `shortSMA > longSMA` and
`rsi > 50` and its exit at a strictly later bar with `shortSMA < longSMA`; no
bar strictly between them has the exit signal (the exit is the first one);
every earlier bar with the entry signal lies inside an earlier round trip (the
entry is the first bar at which the position is flat); and each round trip
ends strictly before the next one begins (one position at a time). -/
theorem C11_simulateBacktest_round_trips (closes : List ℚ)
    (ce : List SignalvE.Candle) (pe : SignalvE.StrategyParams)
    (cg : List SignalvG.Candle) (pg : SignalvG.StrategyParams) (ss sl rp : Nat)
    (hce : ce.map SignalvE.Candle.close = closes) (hcg : cg.map SignalvG.Candle.close = closes)
    (hpe : pe.sma_short = (ss : Int) ∧ pe.sma_long = (sl : Int) ∧ pe.rsi_period = (rp : Int))
    (hpg : pg.sma_short = (ss : Int) ∧ pg.sma_long = (sl : Int) ∧ pg.rsi_period = (rp : Int))
    (hlen : closes.length < 2 ^ 64) (hpi : max sl rp + 1 < 2 ^ 31)
    (h1 : 1 ≤ ss) (h2 : ss ≤ sl) (h3 : 1 ≤ rp) (hfeas : max sl rp + 1 ≤ closes.length) :
    SignalvG.simulateBacktest cg pg =
      some (((roundTrips closes ss sl rp).map (tripProfit closes)).sum) ∧
    SignalvE.simulateBacktest ce pe =
      some (((roundTrips closes ss sl rp).map (tripProfit closes)).sum) ∧
    (∀ t ∈ roundTrips closes ss sl rp,
      max sl rp + 1 ≤ t.1 ∧ t.1 < t.2 ∧ t.2 < closes.length ∧
      entrySignal closes ss sl rp t.1 = true ∧ exitSignal closes ss sl t.2 = true ∧
      (∀ m, t.1 < m → m < t.2 → exitSignal closes ss sl m = false) ∧
      (∀ m, max sl rp + 1 ≤ m → m < t.1 → entrySignal closes ss sl rp m = true →
        ∃ t0 ∈ roundTrips closes ss sl rp, t0.1 ≤ m ∧ m ≤ t0.2 ∧ t0.2 < t.1)) ∧
    (roundTrips closes ss sl rp).Pairwise (fun a b => a.2 < b.1) := by
  have hle : ce.length = closes.length := by rw [← hce, List.length_map]
  have hlg : cg.length = closes.length := by rw [← hcg, List.length_map]
  have hg := simulateBacktestG_eq cg pg ss sl rp hpg.1 hpg.2.1 hpg.2.2 (by omega) h1 h2 h3 hpi
    (by unfold replayStart; omega)
  have he := simulateBacktestE_eq ce pe ss sl rp hpe.1 hpe.2.1 hpe.2.2 (by omega) h1 h2 h3 hpi
    (by unfold replayStart; omega)
  rw [hcg] at hg
  rw [hce] at he
  exact ⟨hg, he, roundTrips_shape closes ss sl rp⟩

/-- Witness for C11: twelve bars with closes `0, 1, …, 7, 4, 2, 0, -2` and
the periods 1, 2, 2.  The replay has the one round trip `(3, 8)`. -/
theorem C11_simulateBacktest_round_trips_witness :
    SignalvG.simulateBacktest
        (([0, 1, 2, 3, 4, 5, 6, 7, 4, 2, 0, -2] : List ℚ).map (fun c => ⟨"", c, c, c, c, 0, 0⟩))
        { sma_short := 1, sma_long := 2, rsi_period := 2 } =
      some (((roundTrips [0, 1, 2, 3, 4, 5, 6, 7, 4, 2, 0, -2] 1 2 2).map
        (tripProfit [0, 1, 2, 3, 4, 5, 6, 7, 4, 2, 0, -2])).sum) ∧
    SignalvE.simulateBacktest
        (([0, 1, 2, 3, 4, 5, 6, 7, 4, 2, 0, -2] : List ℚ).map (fun c => ⟨"", c, c, c, c, 0⟩))
        { sma_short := 1, sma_long := 2, rsi_period := 2 } =
      some (((roundTrips [0, 1, 2, 3, 4, 5, 6, 7, 4, 2, 0, -2] 1 2 2).map
        (tripProfit [0, 1, 2, 3, 4, 5, 6, 7, 4, 2, 0, -2])).sum) ∧
    roundTrips [0, 1, 2, 3, 4, 5, 6, 7, 4, 2, 0, -2] 1 2 2 = [(3, 8)] := by
  have h := C11_simulateBacktest_round_trips [0, 1, 2, 3, 4, 5, 6, 7, 4, 2, 0, -2]
    (([0, 1, 2, 3, 4, 5, 6, 7, 4, 2, 0, -2] : List ℚ).map (fun c => ⟨"", c, c, c, c, 0⟩))
    { sma_short := 1, sma_long := 2, rsi_period := 2 }
    (([0, 1, 2, 3, 4, 5, 6, 7, 4, 2, 0, -2] : List ℚ).map (fun c => ⟨"", c, c, c, c, 0, 0⟩))
    { sma_short := 1, sma_long := 2, rsi_period := 2 } 1 2 2
    (by simp) (by simp) ⟨rfl, rfl, rfl⟩ ⟨rfl, rfl, rfl⟩ (by simp) (by decide) (by decide)
    (by decide) (by decide) (by simp)
  refine ⟨h.1, h.2.1, ?_⟩
  simp [roundTrips, replayStart, scanTrips, List.range', entrySignal, exitSignal, mean, window,
    rsiSpec, lossSum, gainSum, lossAt, gainAt, change]
  norm_num

namespace Signalv

theorem roundTrips_nil_of_no_exit (closes : List ℚ) (ss sl rp : Nat)
    (hno : ∀ i, replayStart sl rp ≤ i → i < closes.length → exitSignal closes ss sl i = false) :
    roundTrips closes ss sl rp = [] := by
  apply List.eq_nil_iff_forall_not_mem.mpr
  intro t ht
  obtain ⟨h1, h2, h3, _, h5, _⟩ := (roundTrips_shape closes ss sl rp).1 t ht
  have := hno t.2 (by omega) h3
  rw [this] at h5
  exact Bool.false_ne_true h5

end Signalv

/-- C12: for every feasible history and parameters with
`1 ≤ sma_short ≤ sma_long` and `rsi_period ≥ 1` such that no bar from the start
index `max(sma_long, rsi_period) + 1` to the end has `shortSMA < longSMA`,
`simulateBacktest` (both variants) returns exactly 0: a position that is still
open at the end contributes nothing. -/
theorem C12_unrealized_profit_not_counted (closes : List ℚ)
    (ce : List SignalvE.Candle) (pe : SignalvE.StrategyParams)
    (cg : List SignalvG.Candle) (pg : SignalvG.StrategyParams) (ss sl rp : Nat)
    (hce : ce.map SignalvE.Candle.close = closes) (hcg : cg.map SignalvG.Candle.close = closes)
    (hpe : pe.sma_short = (ss : Int) ∧ pe.sma_long = (sl : Int) ∧ pe.rsi_period = (rp : Int))
    (hpg : pg.sma_short = (ss : Int) ∧ pg.sma_long = (sl : Int) ∧ pg.rsi_period = (rp : Int))
    (hlen : closes.length < 2 ^ 64) (hpi : max sl rp + 1 < 2 ^ 31)
    (h1 : 1 ≤ ss) (h2 : ss ≤ sl) (h3 : 1 ≤ rp) (hfeas : max sl rp + 1 ≤ closes.length)
    (hno : ∀ i, max sl rp + 1 ≤ i → i < closes.length → exitSignal closes ss sl i = false) :
    SignalvG.simulateBacktest cg pg = some 0 ∧ SignalvE.simulateBacktest ce pe = some 0 := by
  have hle : ce.length = closes.length := by rw [← hce, List.length_map]
  have hlg : cg.length = closes.length := by rw [← hcg, List.length_map]
  have hg := simulateBacktestG_eq cg pg ss sl rp hpg.1 hpg.2.1 hpg.2.2 (by omega) h1 h2 h3 hpi
    (by unfold replayStart; omega)
  have he := simulateBacktestE_eq ce pe ss sl rp hpe.1 hpe.2.1 hpe.2.2 (by omega) h1 h2 h3 hpi
    (by unfold replayStart; omega)
  have hnil := roundTrips_nil_of_no_exit closes ss sl rp hno
  rw [hcg] at hg
  rw [hce] at he
  simp only [realizedProfit, hnil, List.map_nil, List.sum_nil] at hg he
  exact ⟨hg, he⟩

/-- Witness for C12: the uptrend `1, 2, 3, 4, 5, 6` with the periods 1, 2, 2.
Bar 3 has the entry signal and the close rises afterwards, yet the result
is 0. -/
theorem C12_unrealized_profit_not_counted_witness :
    (SignalvG.simulateBacktest
        (([1, 2, 3, 4, 5, 6] : List ℚ).map (fun c => ⟨"", c, c, c, c, 0, 0⟩))
        { sma_short := 1, sma_long := 2, rsi_period := 2 } = some 0 ∧
      SignalvE.simulateBacktest
        (([1, 2, 3, 4, 5, 6] : List ℚ).map (fun c => ⟨"", c, c, c, c, 0⟩))
        { sma_short := 1, sma_long := 2, rsi_period := 2 } = some 0) ∧
    entrySignal [1, 2, 3, 4, 5, 6] 1 2 2 3 = true := by
  refine ⟨C12_unrealized_profit_not_counted [1, 2, 3, 4, 5, 6]
    (([1, 2, 3, 4, 5, 6] : List ℚ).map (fun c => ⟨"", c, c, c, c, 0⟩))
    { sma_short := 1, sma_long := 2, rsi_period := 2 }
    (([1, 2, 3, 4, 5, 6] : List ℚ).map (fun c => ⟨"", c, c, c, c, 0, 0⟩))
    { sma_short := 1, sma_long := 2, rsi_period := 2 } 1 2 2
    (by simp) (by simp) ⟨rfl, rfl, rfl⟩ ⟨rfl, rfl, rfl⟩ (by simp) (by decide) (by decide)
    (by decide) (by decide) (by simp) ?_, ?_⟩
  · intro i hi1 hi2
    simp only [List.length_cons, List.length_nil] at hi2
    have hi3 : 3 ≤ i := hi1
    interval_cases i <;> simp [exitSignal, mean, window] <;> norm_num
  · simp [entrySignal, mean, window, rsiSpec, lossSum, gainSum, lossAt, gainAt, change,
      List.range']
    norm_num

namespace Signalv

theorem scanTrips_length (enter exit : Nat → Bool) :
    ∀ (idx : List Nat) (pos : Option Nat), (scanTrips enter exit pos idx).length ≤ idx.length := by
  intro idx
  induction idx with
  | nil => intro pos; cases pos <;> simp [scanTrips]
  | cons i rest ih =>
    intro pos
    cases pos with
    | none =>
      rw [scanTrips]
      split_ifs
      · exact le_trans (ih (some i)) (by simp)
      · exact le_trans (ih none) (by simp)
    | some j =>
      rw [scanTrips]
      split_ifs
      · simp only [List.length_cons]
        exact Nat.succ_le_succ (ih none)
      · exact le_trans (ih (some j)) (by simp)

theorem realizedProfit_lower (closes : List ℚ) (ss sl rp : Nat) (lo hi : ℚ)
    (hne : closes ≠ []) (hb : ∀ c ∈ closes, lo ≤ c ∧ c ≤ hi) :
    -((hi - lo) * ((closes.length - replayStart sl rp : Nat) : ℚ)) ≤
      realizedProfit closes ss sl rp := by
  have hlohi : lo ≤ hi := by
    obtain ⟨c, hc⟩ := List.exists_mem_of_ne_nil closes hne
    exact le_trans (hb c hc).1 (hb c hc).2
  have hterm : ∀ x ∈ (roundTrips closes ss sl rp).map (tripProfit closes), lo - hi ≤ x := by
    intro x hx
    obtain ⟨t, ht, rfl⟩ := List.mem_map.mp hx
    obtain ⟨_, h2, h3, _⟩ := (roundTrips_shape closes ss sl rp).1 t ht
    have h1' : t.1 < closes.length := by omega
    unfold tripProfit
    rw [List.getD_eq_getElem _ _ h3, List.getD_eq_getElem _ _ h1']
    have a := (hb _ (List.getElem_mem h3)).1
    have b := (hb _ (List.getElem_mem h1')).2
    linarith
  have hsum := List.card_nsmul_le_sum _ _ hterm
  rw [List.length_map, nsmul_eq_mul] at hsum
  have hlen : (roundTrips closes ss sl rp).length ≤ closes.length - replayStart sl rp := by
    unfold roundTrips
    refine le_trans (scanTrips_length _ _ _ none) ?_
    rw [List.length_range']
  have hlenq : ((roundTrips closes ss sl rp).length : ℚ) ≤
      ((closes.length - replayStart sl rp : Nat) : ℚ) := by exact_mod_cast hlen
  unfold realizedProfit
  have hnonneg : 0 ≤ hi - lo := by linarith
  nlinarith [mul_le_mul_of_nonneg_left hlenq hnonneg]

end Signalv

/-- C13, counterexample: seven bars with closes `0, 0, 0, 0, 1e9, 0, 0` and
the valid parameters `sma_short = 2, sma_long = 3, rsi_period = 2`.  The
history is feasible (`7 ≥ max(3, 2) + 1`); the replay enters at bar 4 at
`1e9` and exits at bar 6 at `0`, so `simulateBacktest` (both variants) returns
the realized profit `-1e9`, which is the sentinel itself and not strictly
greater than it. -/
theorem C13_profit_equals_sentinel :
    (SignalvG.simulateBacktest
        (([0, 0, 0, 0, 1000000000, 0, 0] : List ℚ).map (fun c => ⟨"", c, c, c, c, 0, 0⟩))
        { sma_short := 2, sma_long := 3, rsi_period := 2 } = some (-1000000000) ∧
      ¬ ∃ r, SignalvG.simulateBacktest
        (([0, 0, 0, 0, 1000000000, 0, 0] : List ℚ).map (fun c => ⟨"", c, c, c, c, 0, 0⟩))
        { sma_short := 2, sma_long := 3, rsi_period := 2 } = some r ∧ -1000000000 < r) ∧
    (SignalvE.simulateBacktest
        (([0, 0, 0, 0, 1000000000, 0, 0] : List ℚ).map (fun c => ⟨"", c, c, c, c, 0⟩))
        { sma_short := 2, sma_long := 3, rsi_period := 2 } = some (-1000000000) ∧
      ¬ ∃ r, SignalvE.simulateBacktest
        (([0, 0, 0, 0, 1000000000, 0, 0] : List ℚ).map (fun c => ⟨"", c, c, c, c, 0⟩))
        { sma_short := 2, sma_long := 3, rsi_period := 2 } = some r ∧ -1000000000 < r) := by
  have hv : realizedProfit [0, 0, 0, 0, 1000000000, 0, 0] 2 3 2 = -1000000000 := by
    simp [realizedProfit, tripProfit, roundTrips, replayStart, scanTrips, List.range',
      entrySignal, exitSignal, mean, window, rsiSpec, lossSum, gainSum, lossAt, gainAt, change]
    norm_num [tripProfit]
  have hg := simulateBacktestG_eq
    (([0, 0, 0, 0, 1000000000, 0, 0] : List ℚ).map (fun c => ⟨"", c, c, c, c, 0, 0⟩))
    { sma_short := 2, sma_long := 3, rsi_period := 2 } 2 3 2 rfl rfl rfl (by simp) (by decide)
    (by decide) (by decide) (by decide) (by simp [replayStart])
  have he := simulateBacktestE_eq
    (([0, 0, 0, 0, 1000000000, 0, 0] : List ℚ).map (fun c => ⟨"", c, c, c, c, 0⟩))
    { sma_short := 2, sma_long := 3, rsi_period := 2 } 2 3 2 rfl rfl rfl (by simp) (by decide)
    (by decide) (by decide) (by decide) (by simp [replayStart])
  have hcg : (([0, 0, 0, 0, 1000000000, 0, 0] : List ℚ).map
      (fun c => (⟨"", c, c, c, c, 0, 0⟩ : SignalvG.Candle))).map SignalvG.Candle.close =
      [0, 0, 0, 0, 1000000000, 0, 0] := by simp
  have hce : (([0, 0, 0, 0, 1000000000, 0, 0] : List ℚ).map
      (fun c => (⟨"", c, c, c, c, 0⟩ : SignalvE.Candle))).map SignalvE.Candle.close =
      [0, 0, 0, 0, 1000000000, 0, 0] := by simp
  rw [hcg, hv] at hg
  rw [hce, hv] at he
  refine ⟨⟨hg, ?_⟩, ⟨he, ?_⟩⟩
  · rintro ⟨r, hr, hlt⟩
    rw [hg] at hr
    cases hr
    exact lt_irrefl _ hlt
  · rintro ⟨r, hr, hlt⟩
    rw [he] at hr
    cases hr
    exact lt_irrefl _ hlt

/-- C13, amended: for every feasible history whose closes all lie in an
interval `[lo, hi]` with `(hi - lo) * (number of replayed bars) < 1e9`, and
parameters with `1 ≤ sma_short ≤ sma_long` and `rsi_period ≥ 1`, the profit
returned by `simulateBacktest` (both variants) is strictly greater than the
sentinel `-1e9`. -/
theorem C13_profit_above_sentinel_amended (closes : List ℚ)
    (ce : List SignalvE.Candle) (pe : SignalvE.StrategyParams)
    (cg : List SignalvG.Candle) (pg : SignalvG.StrategyParams) (ss sl rp : Nat)
    (hce : ce.map SignalvE.Candle.close = closes) (hcg : cg.map SignalvG.Candle.close = closes)
    (hpe : pe.sma_short = (ss : Int) ∧ pe.sma_long = (sl : Int) ∧ pe.rsi_period = (rp : Int))
    (hpg : pg.sma_short = (ss : Int) ∧ pg.sma_long = (sl : Int) ∧ pg.rsi_period = (rp : Int))
    (hlen : closes.length < 2 ^ 64) (hpi : max sl rp + 1 < 2 ^ 31)
    (h1 : 1 ≤ ss) (h2 : ss ≤ sl) (h3 : 1 ≤ rp) (hfeas : max sl rp + 1 ≤ closes.length)
    (lo hi : ℚ) (hb : ∀ c ∈ closes, lo ≤ c ∧ c ≤ hi)
    (hw : (hi - lo) * ((closes.length - (max sl rp + 1) : Nat) : ℚ) < 1000000000) :
    (∃ r, SignalvG.simulateBacktest cg pg = some r ∧ -1000000000 < r) ∧
    (∃ r, SignalvE.simulateBacktest ce pe = some r ∧ -1000000000 < r) := by
  have hle : ce.length = closes.length := by rw [← hce, List.length_map]
  have hlg : cg.length = closes.length := by rw [← hcg, List.length_map]
  have hg := simulateBacktestG_eq cg pg ss sl rp hpg.1 hpg.2.1 hpg.2.2 (by omega) h1 h2 h3 hpi
    (by unfold replayStart; omega)
  have he := simulateBacktestE_eq ce pe ss sl rp hpe.1 hpe.2.1 hpe.2.2 (by omega) h1 h2 h3 hpi
    (by unfold replayStart; omega)
  rw [hcg] at hg
  rw [hce] at he
  have hne : closes ≠ [] := by
    intro h0
    rw [h0] at hfeas
    simp at hfeas
  have hlow := realizedProfit_lower closes ss sl rp lo hi hne hb
  have hw' : (hi - lo) * ((closes.length - replayStart sl rp : Nat) : ℚ) < 1000000000 := hw
  have hr : -1000000000 < realizedProfit closes ss sl rp := by linarith
  exact ⟨⟨_, hg, hr⟩, ⟨_, he, hr⟩⟩

/-- Witness for the amended C13: the closes `1, 2, 3, 4, 5, 6`, all in
`[1, 6]`, with the periods 1, 2, 2. -/
theorem C13_profit_above_sentinel_amended_witness :
    (∃ r, SignalvG.simulateBacktest
        (([1, 2, 3, 4, 5, 6] : List ℚ).map (fun c => ⟨"", c, c, c, c, 0, 0⟩))
        { sma_short := 1, sma_long := 2, rsi_period := 2 } = some r ∧ -1000000000 < r) ∧
    (∃ r, SignalvE.simulateBacktest
        (([1, 2, 3, 4, 5, 6] : List ℚ).map (fun c => ⟨"", c, c, c, c, 0⟩))
        { sma_short := 1, sma_long := 2, rsi_period := 2 } = some r ∧ -1000000000 < r) :=
  C13_profit_above_sentinel_amended [1, 2, 3, 4, 5, 6]
    (([1, 2, 3, 4, 5, 6] : List ℚ).map (fun c => ⟨"", c, c, c, c, 0⟩))
    { sma_short := 1, sma_long := 2, rsi_period := 2 }
    (([1, 2, 3, 4, 5, 6] : List ℚ).map (fun c => ⟨"", c, c, c, c, 0, 0⟩))
    { sma_short := 1, sma_long := 2, rsi_period := 2 } 1 2 2
    (by simp) (by simp) ⟨rfl, rfl, rfl⟩ ⟨rfl, rfl, rfl⟩ (by simp) (by decide) (by decide)
    (by decide) (by decide) (by simp) 1 6
    (by
      intro c hc
      simp only [List.mem_cons, List.mem_singleton, List.not_mem_nil, or_false] at hc
      rcases hc with rfl | rfl | rfl | rfl | rfl | rfl <;> norm_num)
    (by norm_num)

namespace Signalv

theorem simulateBacktestG_congr (c1 c2 : List SignalvG.Candle) (p1 p2 : SignalvG.StrategyParams)
    (hcl : c1.map SignalvG.Candle.close = c2.map SignalvG.Candle.close)
    (hss : p1.sma_short = p2.sma_short) (hsl : p1.sma_long = p2.sma_long)
    (hrp : p1.rsi_period = p2.rsi_period) :
    SignalvG.simulateBacktest c1 p1 = SignalvG.simulateBacktest c2 p2 := by
  have hl : c1.length = c2.length := by
    have := congrArg List.length hcl
    simpa using this
  have hb : SignalvG.simBody (c2.map SignalvG.Candle.close) p1 =
      SignalvG.simBody (c2.map SignalvG.Candle.close) p2 := by
    funext i s
    unfold SignalvG.simBody
    rw [hss, hsl, hrp]
  unfold SignalvG.simulateBacktest SignalvG.simulateBacktestAt
  rw [closes_copyG, closes_copyG, hcl, hl, hsl, hrp]
  simp only [hb]

theorem simulateBacktestE_congr (c1 c2 : List SignalvE.Candle) (p1 p2 : SignalvE.StrategyParams)
    (hcl : c1.map SignalvE.Candle.close = c2.map SignalvE.Candle.close)
    (hss : p1.sma_short = p2.sma_short) (hsl : p1.sma_long = p2.sma_long)
    (hrp : p1.rsi_period = p2.rsi_period) :
    SignalvE.simulateBacktest c1 p1 = SignalvE.simulateBacktest c2 p2 := by
  have hl : c1.length = c2.length := by
    have := congrArg List.length hcl
    simpa using this
  have hb : SignalvE.simBody (c2.map SignalvE.Candle.close) p1 =
      SignalvE.simBody (c2.map SignalvE.Candle.close) p2 := by
    funext i s
    unfold SignalvE.simBody
    rw [hss, hsl, hrp]
  unfold SignalvE.simulateBacktest SignalvE.simulateBacktestAt
  rw [closes_copyE, closes_copyE, hcl, hl, hsl, hrp]
  simp only [hb]

end Signalv

/-- C14: `simulateBacktest` (both variants) is a function of the close series
and of `sma_short`, `sma_long` and `rsi_period` only: two bar histories with
the same sequence of closes and two parameter sets with the same three periods
yield the same result, whatever the other fields of the bars (datetime, open,
high, low, volume, atr) and of the parameters (performance, atr_period) are.
The model has no state besides its arguments, so identical inputs give
identical results. -/
theorem C14_simulateBacktest_deterministic
    (g1 g2 : List SignalvG.Candle) (pg1 pg2 : SignalvG.StrategyParams)
    (e1 e2 : List SignalvE.Candle) (pe1 pe2 : SignalvE.StrategyParams)
    (hg : g1.map SignalvG.Candle.close = g2.map SignalvG.Candle.close)
    (hpg : pg1.sma_short = pg2.sma_short ∧ pg1.sma_long = pg2.sma_long ∧
      pg1.rsi_period = pg2.rsi_period)
    (he : e1.map SignalvE.Candle.close = e2.map SignalvE.Candle.close)
    (hpe : pe1.sma_short = pe2.sma_short ∧ pe1.sma_long = pe2.sma_long ∧
      pe1.rsi_period = pe2.rsi_period) :
    SignalvG.simulateBacktest g1 pg1 = SignalvG.simulateBacktest g2 pg2 ∧
    SignalvE.simulateBacktest e1 pe1 = SignalvE.simulateBacktest e2 pe2 :=
  ⟨simulateBacktestG_congr g1 g2 pg1 pg2 hg hpg.1 hpg.2.1 hpg.2.2,
    simulateBacktestE_congr e1 e2 pe1 pe2 he hpe.1 hpe.2.1 hpe.2.2⟩

/-- Witness for C14: two four-bar histories with the closes `1, 2, 3, 2` that
differ in every other field, under parameter sets that differ in the
performance field (and in `atr_period`). -/
theorem C14_simulateBacktest_deterministic_witness :
    SignalvG.simulateBacktest
        [⟨"a", 1, 1, 1, 1, 0, 0⟩, ⟨"b", 2, 2, 2, 2, 0, 0⟩, ⟨"c", 3, 3, 3, 3, 0, 0⟩,
          ⟨"d", 2, 2, 2, 2, 0, 0⟩]
        { sma_short := 1, sma_long := 2, rsi_period := 2 } =
      SignalvG.simulateBacktest
        [⟨"w", 0, 9, 0, 1, 5, 1⟩, ⟨"x", 0, 9, 0, 2, 6, 2⟩, ⟨"y", 0, 9, 0, 3, 7, 3⟩,
          ⟨"z", 0, 9, 0, 2, 8, 4⟩]
        { sma_short := 1, sma_long := 2, rsi_period := 2, performance := 42 } ∧
    SignalvE.simulateBacktest
        [⟨"a", 1, 1, 1, 1, 0⟩, ⟨"b", 2, 2, 2, 2, 0⟩, ⟨"c", 3, 3, 3, 3, 0⟩, ⟨"d", 2, 2, 2, 2, 0⟩]
        { sma_short := 1, sma_long := 2, rsi_period := 2 } =
      SignalvE.simulateBacktest
        [⟨"w", 0, 9, 0, 1, 5⟩, ⟨"x", 0, 9, 0, 2, 6⟩, ⟨"y", 0, 9, 0, 3, 7⟩, ⟨"z", 0, 9, 0, 2, 8⟩]
        { sma_short := 1, sma_long := 2, rsi_period := 2, atr_period := 3, performance := 42 } :=
  C14_simulateBacktest_deterministic _ _ _ _ _ _ _ _ (by simp) ⟨rfl, rfl, rfl⟩ (by simp)
    ⟨rfl, rfl, rfl⟩

namespace Signalv

/-! ## Searches that keep the best candidate -/

theorem forLoop_eq_forValues {α σ : Type} (body : α → σ → Option σ) (f : Nat → α) :
    ∀ (n i : Nat) (s : σ),
      forLoop (fun k t => body (f k) t) i n s = forValues body ((List.range' i n).map f) s := by
  intro n
  induction n with
  | zero => intro i s; rfl
  | succ n ih =>
    intro i s
    rw [forLoop, List.range'_succ, List.map_cons, forValues]
    cases body (f i) s with
    | none => rfl
    | some s' => exact ih (i + 1) s'

theorem forValues_append {α σ : Type} (body : α → σ → Option σ) :
    ∀ (xs ys : List α) (s : σ),
      forValues body (xs ++ ys) s =
        match forValues body xs s with
        | none => none
        | some s' => forValues body ys s' := by
  intro xs
  induction xs with
  | nil => intro ys s; rfl
  | cons x xs ih =>
    intro ys s
    rw [List.cons_append, forValues, forValues]
    cases body x s with
    | none => rfl
    | some s' => exact ih ys s'

theorem forValues_flatMap {α β σ : Type} (body : β → σ → Option σ) (f : α → List β) :
    ∀ (xs : List α) (s : σ),
      forValues (fun x t => forValues body (f x) t) xs s = forValues body (xs.flatMap f) s := by
  intro xs
  induction xs with
  | nil => intro s; rfl
  | cons x xs ih =>
    intro s
    rw [List.flatMap_cons, forValues_append, forValues]
    cases forValues body (f x) s with
    | none => rfl
    | some s' => exact ih s'

theorem search_result {P : Type} (perf : P → ℚ) (setPerf : P → ℚ → P) (sim : P → Option ℚ)
    (step : P → P × List P → Option (P × List P))
    (hperf : ∀ p x, perf (setPerf p x) = x)
    (hstep : ∀ p s, step p s =
      (sim p).map (fun x => (if perf (setPerf p x) > perf s.1 then setPerf p x else s.1,
        s.2 ++ [p]))) :
    ∀ (cands : List P) (s : P × List P), (∀ p ∈ cands, ∃ x, sim p = some x) →
      ∃ b, forValues step cands s = some (b, s.2 ++ cands) ∧
        ((b = s.1 ∧ ∀ p ∈ cands, ∀ y, sim p = some y → y ≤ perf s.1) ∨
         (∃ (k : Nat) (c : P) (x : ℚ), cands[k]? = some c ∧ sim c = some x ∧
            b = setPerf c x ∧ perf s.1 < x ∧
            (∀ (j : Nat) (c' : P), j < k → cands[j]? = some c' →
              ∀ y, sim c' = some y → y < x) ∧
            (∀ p ∈ cands, ∀ y, sim p = some y → y ≤ x))) := by
  intro cands
  induction cands with
  | nil =>
    intro s _
    exact ⟨s.1, by simp [forValues], Or.inl ⟨rfl, by simp⟩⟩
  | cons p rest ih =>
    intro s hsim
    obtain ⟨x0, hx0⟩ := hsim p (List.mem_cons_self _ _)
    have hrest : ∀ q ∈ rest, ∃ x, sim q = some x :=
      fun q hq => hsim q (List.mem_cons_of_mem _ hq)
    rw [forValues, hstep p s, hx0]
    simp only [Option.map_some', hperf]
    by_cases hgt : x0 > perf s.1
    · rw [if_pos hgt]
      obtain ⟨b, hb, hcase⟩ := ih (setPerf p x0, s.2 ++ [p]) hrest
      refine ⟨b, by simpa using hb, Or.inr ?_⟩
      simp only [hperf] at hcase
      rcases hcase with ⟨hbeq, hall⟩ | ⟨k, c, x, hk, hc, hbx, hlt, hbefore, hall⟩
      · refine ⟨0, p, x0, List.getElem?_cons_zero, hx0, hbeq, hgt, ?_, ?_⟩
        · intro j c' hj
          omega
        · intro q hq y hy
          rcases List.mem_cons.mp hq with rfl | hq
          · rw [hx0] at hy
            cases hy
            exact le_refl _
          · exact hall q hq y hy
      · refine ⟨k + 1, c, x, by simpa using hk, hc, hbx, lt_trans hgt hlt, ?_, ?_⟩
        · intro j c' hj hjc y hy
          cases j with
          | zero =>
            simp only [List.getElem?_cons_zero, Option.some.injEq] at hjc
            subst hjc
            rw [hx0] at hy
            cases hy
            exact hlt
          | succ j =>
            simp only [List.getElem?_cons_succ] at hjc
            exact hbefore j c' (by omega) hjc y hy
        · intro q hq y hy
          rcases List.mem_cons.mp hq with rfl | hq
          · rw [hx0] at hy
            cases hy
            exact le_of_lt hlt
          · exact hall q hq y hy
    · rw [if_neg hgt]
      obtain ⟨b, hb, hcase⟩ := ih (s.1, s.2 ++ [p]) hrest
      refine ⟨b, by simpa using hb, ?_⟩
      simp only at hcase
      rcases hcase with ⟨hbeq, hall⟩ | ⟨k, c, x, hk, hc, hbx, hlt, hbefore, hall⟩
      · refine Or.inl ⟨hbeq, ?_⟩
        intro q hq y hy
        rcases List.mem_cons.mp hq with rfl | hq
        · rw [hx0] at hy
          cases hy
          exact not_lt.mp hgt
        · exact hall q hq y hy
      · refine Or.inr ⟨k + 1, c, x, by simpa using hk, hc, hbx, hlt, ?_, ?_⟩
        · intro j c' hj hjc y hy
          cases j with
          | zero =>
            simp only [List.getElem?_cons_zero, Option.some.injEq] at hjc
            subst hjc
            rw [hx0] at hy
            cases hy
            exact lt_of_le_of_lt (not_lt.mp hgt) hlt
          | succ j =>
            simp only [List.getElem?_cons_succ] at hjc
            exact hbefore j c' (by omega) hjc y hy
        · intro q hq y hy
          rcases List.mem_cons.mp hq with rfl | hq
          · rw [hx0] at hy
            cases hy
            exact le_trans (not_lt.mp hgt) (le_of_lt hlt)
          · exact hall q hq y hy

end Signalv

namespace Signalv

/-! ## `simulateBacktest` returns a value on every candidate -/

theorem simulateBacktestG_total (candles : List SignalvG.Candle) (params : SignalvG.StrategyParams)
    (hlen : candles.length < 2 ^ 64)
    (h1 : 1 ≤ params.sma_short) (h2 : params.sma_short ≤ params.sma_long)
    (h3 : 1 ≤ params.rsi_period) (hl : params.sma_long + 1 < 2 ^ 31)
    (hr : params.rsi_period + 1 < 2 ^ 31) :
    ∃ x, SignalvG.simulateBacktest candles params = some x := by
  have hss : params.sma_short = (params.sma_short.toNat : Int) :=
    (Int.toNat_of_nonneg (by omega)).symm
  have hsl : params.sma_long = (params.sma_long.toNat : Int) :=
    (Int.toNat_of_nonneg (by omega)).symm
  have hrp : params.rsi_period = (params.rsi_period.toNat : Int) :=
    (Int.toNat_of_nonneg (by omega)).symm
  have hmax : max params.sma_long.toNat params.rsi_period.toNat + 1 < 2 ^ 31 := by
    rcases max_cases params.sma_long.toNat params.rsi_period.toNat with ⟨h, _⟩ | ⟨h, _⟩ <;>
      rw [h] <;> omega
  by_cases hf : replayStart params.sma_long.toNat params.rsi_period.toNat ≤ candles.length
  · exact ⟨_, simulateBacktestG_eq candles params _ _ _ hss hsl hrp hlen (by omega) (by omega)
      (by omega) hmax hf⟩
  · refine ⟨-1000000000, ?_⟩
    have hg := backtest_guard candles.length params.sma_long params.rsi_period (by omega)
      (by omega) (by
        unfold replayStart at hf
        rw [hsl, hrp, ← Nat.cast_max]
        omega)
    unfold SignalvG.simulateBacktest SignalvG.simulateBacktestAt
    rw [if_pos hg]

theorem simulateBacktestE_total (candles : List SignalvE.Candle) (params : SignalvE.StrategyParams)
    (hlen : candles.length < 2 ^ 64)
    (h1 : 1 ≤ params.sma_short) (h2 : params.sma_short ≤ params.sma_long)
    (h3 : 1 ≤ params.rsi_period) (hl : params.sma_long + 1 < 2 ^ 31)
    (hr : params.rsi_period + 1 < 2 ^ 31) :
    ∃ x, SignalvE.simulateBacktest candles params = some x := by
  have hrp0 : params.rsi_period ≠ 0 := by omega
  rw [simulateBacktest_E_eq_G candles (candles.map (candleG 0)) params (paramsG params)
    (candleG_closes 0 candles).symm rfl rfl rfl hrp0 hlen]
  exact simulateBacktestG_total (candles.map (candleG 0)) (paramsG params)
    (by rw [List.length_map]; exact hlen) h1 h2 h3 hl hr

theorem simulateBacktestG_short (candles : List SignalvG.Candle) (params : SignalvG.StrategyParams)
    (hl : params.sma_long < 2 ^ 31) (hr : params.rsi_period < 2 ^ 31)
    (hs : (candles.length : Int) < max params.sma_long params.rsi_period + 1) :
    SignalvG.simulateBacktest candles params = some (-1000000000) := by
  have hg := backtest_guard candles.length params.sma_long params.rsi_period hl hr hs
  unfold SignalvG.simulateBacktest SignalvG.simulateBacktestAt
  rw [if_pos hg]

theorem simulateBacktestE_short (candles : List SignalvE.Candle) (params : SignalvE.StrategyParams)
    (hl : params.sma_long < 2 ^ 31) (hr : params.rsi_period < 2 ^ 31)
    (hs : (candles.length : Int) < max params.sma_long params.rsi_period + 1) :
    SignalvE.simulateBacktest candles params = some (-1000000000) := by
  have hg := backtest_guard candles.length params.sma_long params.rsi_period hl hr hs
  unfold SignalvE.simulateBacktest SignalvE.simulateBacktestAt
  rw [if_pos hg]

/-! ## The random searches -/

theorem candidateG_periods (d : Draw) (h : SignalvG.drawInBounds d) :
    (SignalvG.candidate d).sma_short = d.short ∧
    (SignalvG.candidate d).sma_long = d.short + d.long_diff ∧
    (SignalvG.candidate d).rsi_period = d.rsi ∧
    (SignalvG.candidate d).performance = -1000000000 := by
  obtain ⟨⟨a1, a2⟩, ⟨b1, b2⟩, _⟩ := h
  refine ⟨rfl, ?_, rfl, rfl⟩
  show wrapInt (d.short + d.long_diff) = d.short + d.long_diff
  unfold wrapInt
  omega

theorem candidateE_periods (d : Draw) (h : SignalvE.drawInBounds d) :
    (SignalvE.candidate d).sma_short = d.short ∧
    (SignalvE.candidate d).sma_long = d.long_diff + d.short ∧
    (SignalvE.candidate d).rsi_period = d.rsi ∧
    (SignalvE.candidate d).atr_period = 14 ∧
    (SignalvE.candidate d).performance = -1000000000 := by
  obtain ⟨⟨a1, a2⟩, ⟨b1, b2⟩, _⟩ := h
  refine ⟨rfl, ?_, rfl, rfl, rfl⟩
  show wrapInt (d.long_diff + d.short) = d.long_diff + d.short
  unfold wrapInt
  omega

theorem evaluateG_step (candles : List SignalvG.Candle) (p : SignalvG.StrategyParams)
    (s : SignalvG.StrategyParams × List SignalvG.StrategyParams) :
    SignalvG.evaluate candles p s =
      (SignalvG.simulateBacktest candles p).map (fun x =>
        (if ({ p with performance := x } : SignalvG.StrategyParams).performance >
            s.1.performance then { p with performance := x } else s.1, s.2 ++ [p])) := by
  unfold SignalvG.evaluate
  cases SignalvG.simulateBacktest candles p <;> rfl

theorem evaluateE_step (sim : SignalvE.StrategyParams → Option ℚ) (p : SignalvE.StrategyParams)
    (s : SignalvE.StrategyParams × List SignalvE.StrategyParams) :
    SignalvE.evaluate sim p s =
      (sim p).map (fun x =>
        (if ({ p with performance := x } : SignalvE.StrategyParams).performance >
            s.1.performance then { p with performance := x } else s.1, s.2 ++ [p])) := by
  unfold SignalvE.evaluate
  cases sim p <;> rfl

end Signalv

namespace Signalv

theorem candidateG_total (candles : List SignalvG.Candle) (hlen : candles.length < 2 ^ 64)
    (d : Draw) (h : SignalvG.drawInBounds d) :
    ∃ x, SignalvG.simulateBacktest candles (SignalvG.candidate d) = some x := by
  obtain ⟨e1, e2, e3, _⟩ := candidateG_periods d h
  obtain ⟨⟨a1, a2⟩, ⟨b1, b2⟩, c1, c2⟩ := h
  exact simulateBacktestG_total candles _ hlen (by rw [e1]; omega) (by rw [e1, e2]; omega)
    (by rw [e3]; omega) (by rw [e2]; omega) (by rw [e3]; omega)

theorem candidateE_total (candles : List SignalvE.Candle) (hlen : candles.length < 2 ^ 64)
    (d : Draw) (h : SignalvE.drawInBounds d) :
    ∃ x, SignalvE.simulateBacktest candles (SignalvE.candidate d) = some x := by
  obtain ⟨e1, e2, e3, _⟩ := candidateE_periods d h
  obtain ⟨⟨a1, a2⟩, ⟨b1, b2⟩, c1, c2⟩ := h
  exact simulateBacktestE_total candles _ hlen (by rw [e1]; omega) (by rw [e1, e2]; omega)
    (by rw [e3]; omega) (by rw [e2]; omega) (by rw [e3]; omega)

theorem randomG_result (candles : List SignalvG.Candle) (hlen : candles.length < 2 ^ 64)
    (n : Int) (draws : Nat → Draw) (hb : ∀ i, i < n.toNat → SignalvG.drawInBounds (draws i)) :
    ∃ b, SignalvG.findBestParameters_RandomTrace candles n draws =
        some (b, (List.range n.toNat).map (fun i => SignalvG.candidate (draws i))) ∧
      ((b = {} ∧ ∀ p ∈ (List.range n.toNat).map (fun i => SignalvG.candidate (draws i)),
          ∀ y, SignalvG.simulateBacktest candles p = some y → y ≤ -1000000000) ∨
       (∃ (k : Nat) (c : SignalvG.StrategyParams) (x : ℚ),
          ((List.range n.toNat).map (fun i => SignalvG.candidate (draws i)))[k]? = some c ∧
          SignalvG.simulateBacktest candles c = some x ∧ b = { c with performance := x } ∧
          -1000000000 < x ∧
          (∀ (j : Nat) (c' : SignalvG.StrategyParams), j < k →
            ((List.range n.toNat).map (fun i => SignalvG.candidate (draws i)))[j]? = some c' →
            ∀ y, SignalvG.simulateBacktest candles c' = some y → y < x) ∧
          (∀ p ∈ (List.range n.toNat).map (fun i => SignalvG.candidate (draws i)),
            ∀ y, SignalvG.simulateBacktest candles p = some y → y ≤ x))) := by
  have hsim : ∀ p ∈ (List.range n.toNat).map (fun i => SignalvG.candidate (draws i)),
      ∃ x, SignalvG.simulateBacktest candles p = some x := by
    intro p hp
    obtain ⟨i, hi, rfl⟩ := List.mem_map.mp hp
    exact candidateG_total candles hlen (draws i) (hb i (List.mem_range.mp hi))
  obtain ⟨b, hb1, hb2⟩ := search_result (fun p : SignalvG.StrategyParams => p.performance)
    (fun p x => { p with performance := x }) (SignalvG.simulateBacktest candles)
    (SignalvG.evaluate candles) (fun _ _ => rfl) (evaluateG_step candles)
    ((List.range n.toNat).map (fun i => SignalvG.candidate (draws i))) ({}, []) hsim
  refine ⟨b, ?_, hb2⟩
  unfold SignalvG.findBestParameters_RandomTrace
  rw [forLoop_eq_forValues (SignalvG.evaluate candles) (fun i => SignalvG.candidate (draws i)),
    ← List.range_eq_range', hb1, List.nil_append]

theorem randomE_result (candles : List SignalvE.Candle) (hlen : candles.length < 2 ^ 64)
    (draws : Nat → Draw) (hb : ∀ i, i < 100 → SignalvE.drawInBounds (draws i)) :
    ∃ b, SignalvE.findBestParametersRandomTrace candles draws =
        some (b, (List.range 100).map (fun i => SignalvE.candidate (draws i))) ∧
      ((b = {} ∧ ∀ p ∈ (List.range 100).map (fun i => SignalvE.candidate (draws i)),
          ∀ y, SignalvE.simulateBacktest candles p = some y → y ≤ -1000000000) ∨
       (∃ (k : Nat) (c : SignalvE.StrategyParams) (x : ℚ),
          ((List.range 100).map (fun i => SignalvE.candidate (draws i)))[k]? = some c ∧
          SignalvE.simulateBacktest candles c = some x ∧ b = { c with performance := x } ∧
          -1000000000 < x ∧
          (∀ (j : Nat) (c' : SignalvE.StrategyParams), j < k →
            ((List.range 100).map (fun i => SignalvE.candidate (draws i)))[j]? = some c' →
            ∀ y, SignalvE.simulateBacktest candles c' = some y → y < x) ∧
          (∀ p ∈ (List.range 100).map (fun i => SignalvE.candidate (draws i)),
            ∀ y, SignalvE.simulateBacktest candles p = some y → y ≤ x))) := by
  have hsim : ∀ p ∈ (List.range 100).map (fun i => SignalvE.candidate (draws i)),
      ∃ x, SignalvE.simulateBacktest candles p = some x := by
    intro p hp
    obtain ⟨i, hi, rfl⟩ := List.mem_map.mp hp
    exact candidateE_total candles hlen (draws i) (hb i (List.mem_range.mp hi))
  obtain ⟨b, hb1, hb2⟩ := search_result (fun p : SignalvE.StrategyParams => p.performance)
    (fun p x => { p with performance := x }) (SignalvE.simulateBacktest candles)
    (SignalvE.evaluate (SignalvE.simulateBacktest candles)) (fun _ _ => rfl)
    (evaluateE_step (SignalvE.simulateBacktest candles))
    ((List.range 100).map (fun i => SignalvE.candidate (draws i))) ({}, []) hsim
  refine ⟨b, ?_, hb2⟩
  unfold SignalvE.findBestParametersRandomTrace
  rw [forLoop_eq_forValues (SignalvE.evaluate (SignalvE.simulateBacktest candles))
    (fun i => SignalvE.candidate (draws i)), ← List.range_eq_range', hb1, List.nil_append]

end Signalv

namespace Signalv

/-! ## The grid search -/

theorem forValues_map {α β σ : Type} (body : β → σ → Option σ) (f : α → β) :
    ∀ (xs : List α) (s : σ),
      forValues (fun x t => body (f x) t) xs s = forValues body (xs.map f) s := by
  intro xs
  induction xs with
  | nil => intro s; rfl
  | cons x xs ih =>
    intro s
    rw [List.map_cons, forValues, forValues]
    cases body (f x) s with
    | none => rfl
    | some s' => exact ih s'

theorem gridSearch_eq (sim : SignalvE.StrategyParams → Option ℚ) :
    SignalvC.gridSearch sim = forValues (SignalvE.evaluate sim) gridVisited ({}, []) := by
  have hlong : ∀ sp, SignalvC.longBody sim sp = fun lp s =>
      forValues (SignalvE.evaluate sim)
        (if sp ≥ lp then []
         else (forIntValues 7 21 2).map fun rsi_p =>
          ({ sma_short := sp, sma_long := lp, rsi_period := rsi_p, atr_period := 14 } :
            SignalvE.StrategyParams)) s := by
    intro sp
    funext lp s
    unfold SignalvC.longBody
    split_ifs
    · rfl
    · exact forValues_map (SignalvE.evaluate sim) _ _ s
  have hshort : SignalvC.shortBody sim = fun sp s =>
      forValues (SignalvE.evaluate sim)
        ((forIntValues 20 50 5).flatMap fun lp =>
          if sp ≥ lp then []
          else (forIntValues 7 21 2).map fun rsi_p =>
            ({ sma_short := sp, sma_long := lp, rsi_period := rsi_p, atr_period := 14 } :
              SignalvE.StrategyParams)) s := by
    funext sp s
    unfold SignalvC.shortBody
    rw [hlong sp]
    exact forValues_flatMap (SignalvE.evaluate sim) _ _ s
  unfold SignalvC.gridSearch
  rw [hshort]
  exact forValues_flatMap (SignalvE.evaluate sim) _ _ _

theorem forIntValues_short : forIntValues 5 15 2 = [5, 7, 9, 11, 13, 15] := by decide

theorem forIntValues_long : forIntValues 20 50 5 = [20, 25, 30, 35, 40, 45, 50] := by decide

theorem forIntValues_rsi : forIntValues 7 21 2 = [7, 9, 11, 13, 15, 17, 19, 21] := by decide

theorem gridVisited_eq : gridVisited = gridCandidates := by
  unfold gridVisited gridCandidates
  rw [forIntValues_short, forIntValues_long, forIntValues_rsi]
  simp

theorem gridCandidates_periods :
    ∀ p ∈ gridCandidates,
      p.sma_short ∈ ([5, 7, 9, 11, 13, 15] : List Int) ∧
      p.sma_long ∈ ([20, 25, 30, 35, 40, 45, 50] : List Int) ∧
      p.rsi_period ∈ ([7, 9, 11, 13, 15, 17, 19, 21] : List Int) ∧
      p.atr_period = 14 ∧ p.performance = -1000000000 := by
  intro p hp
  unfold gridCandidates at hp
  simp only [List.mem_flatMap, List.mem_map] at hp
  obtain ⟨a, ha, b, hb, c, hc, rfl⟩ := hp
  exact ⟨ha, hb, hc, rfl, rfl⟩

theorem gridCandidates_mem (p : SignalvE.StrategyParams)
    (h1 : p.sma_short ∈ ([5, 7, 9, 11, 13, 15] : List Int))
    (h2 : p.sma_long ∈ ([20, 25, 30, 35, 40, 45, 50] : List Int))
    (h3 : p.rsi_period ∈ ([7, 9, 11, 13, 15, 17, 19, 21] : List Int))
    (h4 : p.atr_period = 14) (h5 : p.performance = -1000000000) : p ∈ gridCandidates := by
  unfold gridCandidates
  simp only [List.mem_flatMap, List.mem_map]
  refine ⟨p.sma_short, h1, p.sma_long, h2, p.rsi_period, h3, ?_⟩
  cases p
  simp only at h4 h5
  subst h4 h5
  rfl

theorem gridCandidates_bounds :
    ∀ p ∈ gridCandidates,
      (5 ≤ p.sma_short ∧ p.sma_short ≤ 15) ∧ (20 ≤ p.sma_long ∧ p.sma_long ≤ 50) ∧
      (7 ≤ p.rsi_period ∧ p.rsi_period ≤ 21) := by
  intro p hp
  obtain ⟨h1, h2, h3, _⟩ := gridCandidates_periods p hp
  simp only [List.mem_cons, List.mem_singleton, List.not_mem_nil, or_false] at h1 h2 h3
  refine ⟨⟨?_, ?_⟩, ⟨?_, ?_⟩, ⟨?_, ?_⟩⟩ <;> omega

theorem gridCandidates_total (candles : List SignalvE.Candle) (hlen : candles.length < 2 ^ 64) :
    ∀ p ∈ gridCandidates, ∃ x, SignalvE.simulateBacktest candles p = some x := by
  intro p hp
  obtain ⟨⟨a1, a2⟩, ⟨b1, b2⟩, c1, c2⟩ := gridCandidates_bounds p hp
  exact simulateBacktestE_total candles p hlen (by omega) (by omega) (by omega) (by omega)
    (by omega)

theorem grid_result (sim : SignalvE.StrategyParams → Option ℚ)
    (hsim : ∀ p ∈ gridCandidates, ∃ x, sim p = some x) :
    ∃ b, SignalvC.gridSearch sim = some (b, gridCandidates) ∧
      ((b = {} ∧ ∀ p ∈ gridCandidates, ∀ y, sim p = some y → y ≤ -1000000000) ∨
       (∃ (k : Nat) (c : SignalvE.StrategyParams) (x : ℚ),
          gridCandidates[k]? = some c ∧ sim c = some x ∧ b = { c with performance := x } ∧
          -1000000000 < x ∧
          (∀ (j : Nat) (c' : SignalvE.StrategyParams), j < k → gridCandidates[j]? = some c' →
            ∀ y, sim c' = some y → y < x) ∧
          (∀ p ∈ gridCandidates, ∀ y, sim p = some y → y ≤ x))) := by
  obtain ⟨b, hb1, hb2⟩ := search_result (fun p : SignalvE.StrategyParams => p.performance)
    (fun p x => { p with performance := x }) sim (SignalvE.evaluate sim) (fun _ _ => rfl)
    (evaluateE_step sim) gridCandidates ({}, []) hsim
  refine ⟨b, ?_, hb2⟩
  rw [gridSearch_eq, gridVisited_eq, hb1, List.nil_append]

end Signalv

/-- C15, counterexample: on an empty history every candidate scores the
sentinel, so with the in-bounds draws `(7, 5, 9)` in each of 100 iterations the
only parameter set passed to `simulateBacktest` is `(7, 12, 9)`, while the
random search (both variants) returns the default `(5, 20, 14)` with
performance `-1e9`, which is none of the candidates. -/
theorem C15_default_is_no_candidate :
    (SignalvG.drawInBounds ⟨7, 5, 9⟩ ∧
      SignalvG.findBestParameters_RandomTrace [] 100 (fun _ => ⟨7, 5, 9⟩) =
        some ({ sma_short := 5, sma_long := 20, rsi_period := 14, performance := -1000000000 },
          List.replicate 100
            { sma_short := 7, sma_long := 12, rsi_period := 9, performance := -1000000000 })) ∧
    (SignalvE.drawInBounds ⟨7, 5, 9⟩ ∧
      SignalvE.findBestParametersRandomTrace [] (fun _ => ⟨7, 5, 9⟩) =
        some ({ sma_short := 5, sma_long := 20, rsi_period := 14, atr_period := 14,
                performance := -1000000000 },
          List.replicate 100
            { sma_short := 7, sma_long := 12, rsi_period := 9, atr_period := 14,
              performance := -1000000000 })) := by
  have hbG : SignalvG.drawInBounds ⟨7, 5, 9⟩ := by unfold SignalvG.drawInBounds; decide
  have hbE : SignalvE.drawInBounds ⟨7, 5, 9⟩ := by unfold SignalvE.drawInBounds; decide
  refine ⟨⟨hbG, ?_⟩, ⟨hbE, ?_⟩⟩
  · obtain ⟨b, hb1, hb2⟩ := randomG_result [] (by simp) 100 (fun _ => ⟨7, 5, 9⟩) (fun _ _ => hbG)
    have hcands : (List.range (100 : Int).toNat).map
        (fun _ => SignalvG.candidate (⟨7, 5, 9⟩ : Draw)) =
        List.replicate 100
          { sma_short := 7, sma_long := 12, rsi_period := 9, performance := -1000000000 } := rfl
    rw [hcands] at hb1 hb2
    have hb : b = {} := by
      rcases hb2 with ⟨h, _⟩ | ⟨k, c, x, hk, hc, _, hx, _⟩
      · exact h
      · have hmem := List.getElem?_mem hk
        rw [List.eq_of_mem_replicate hmem] at hc
        rw [simulateBacktestG_short [] _ (by decide) (by decide) (by decide)] at hc
        cases hc
        exact absurd hx (lt_irrefl _)
    rw [hb1, hb]
  · obtain ⟨b, hb1, hb2⟩ := randomE_result [] (by simp) (fun _ => ⟨7, 5, 9⟩) (fun _ _ => hbE)
    have hcands : (List.range 100).map
        (fun _ => SignalvE.candidate (⟨7, 5, 9⟩ : Draw)) =
        List.replicate 100
          { sma_short := 7, sma_long := 12, rsi_period := 9, atr_period := 14,
            performance := -1000000000 } := rfl
    rw [hcands] at hb1 hb2
    have hb : b = {} := by
      rcases hb2 with ⟨h, _⟩ | ⟨k, c, x, hk, hc, _, hx, _⟩
      · exact h
      · have hmem := List.getElem?_mem hk
        rw [List.eq_of_mem_replicate hmem] at hc
        rw [simulateBacktestE_short [] _ (by decide) (by decide) (by decide)] at hc
        cases hc
        exact absurd hx (lt_irrefl _)
    rw [hb1, hb]

/-- C15, amended: for every history and every sequence of draws within the
distributions' bounds, the random search (both variants) evaluates the
candidates of the draws in order and returns either one of the evaluated
candidates with its score, when that score is strictly above `-1e9`, or, when
no candidate scores strictly above `-1e9`, the default `StrategyParams` with
performance `-1e9`; in both cases no evaluated candidate has a strictly higher
score than the performance returned. -/
theorem C15_random_search_best_amended
    (cg : List SignalvG.Candle) (n : Int) (dg : Nat → Draw)
    (ce : List SignalvE.Candle) (de : Nat → Draw)
    (hlg : cg.length < 2 ^ 64) (hle : ce.length < 2 ^ 64)
    (hbg : ∀ i, i < n.toNat → SignalvG.drawInBounds (dg i))
    (hbe : ∀ i, i < 100 → SignalvE.drawInBounds (de i)) :
    (∃ r, SignalvG.findBestParameters_Random cg n dg = some r ∧
      SignalvG.findBestParameters_RandomTrace cg n dg =
        some (r, (List.range n.toNat).map (fun i => SignalvG.candidate (dg i))) ∧
      ((∃ p ∈ (List.range n.toNat).map (fun i => SignalvG.candidate (dg i)),
          ∃ x, SignalvG.simulateBacktest cg p = some x ∧ -1000000000 < x ∧
            r = { p with performance := x }) ∨
        (r = {} ∧ ∀ p ∈ (List.range n.toNat).map (fun i => SignalvG.candidate (dg i)),
          ∀ y, SignalvG.simulateBacktest cg p = some y → y ≤ -1000000000)) ∧
      (∀ p ∈ (List.range n.toNat).map (fun i => SignalvG.candidate (dg i)),
        ∀ y, SignalvG.simulateBacktest cg p = some y → y ≤ r.performance)) ∧
    (∃ r, SignalvE.findBestParametersRandom ce de = some r ∧
      SignalvE.findBestParametersRandomTrace ce de =
        some (r, (List.range 100).map (fun i => SignalvE.candidate (de i))) ∧
      ((∃ p ∈ (List.range 100).map (fun i => SignalvE.candidate (de i)),
          ∃ x, SignalvE.simulateBacktest ce p = some x ∧ -1000000000 < x ∧
            r = { p with performance := x }) ∨
        (r = {} ∧ ∀ p ∈ (List.range 100).map (fun i => SignalvE.candidate (de i)),
          ∀ y, SignalvE.simulateBacktest ce p = some y → y ≤ -1000000000)) ∧
      (∀ p ∈ (List.range 100).map (fun i => SignalvE.candidate (de i)),
        ∀ y, SignalvE.simulateBacktest ce p = some y → y ≤ r.performance)) := by
  constructor
  · obtain ⟨b, hb1, hb2⟩ := randomG_result cg hlg n dg hbg
    refine ⟨b, by unfold SignalvG.findBestParameters_Random; rw [hb1]; rfl, hb1, ?_, ?_⟩
    · rcases hb2 with ⟨h, hall⟩ | ⟨k, c, x, hk, hc, hbx, hx, _, _⟩
      · exact Or.inr ⟨h, hall⟩
      · exact Or.inl ⟨c, List.getElem?_mem hk, x, hc, hx, hbx⟩
    · rcases hb2 with ⟨h, hall⟩ | ⟨k, c, x, hk, hc, hbx, hx, _, hall⟩
      · rw [h]
        exact hall
      · rw [hbx]
        exact hall
  · obtain ⟨b, hb1, hb2⟩ := randomE_result ce hle de hbe
    refine ⟨b, by unfold SignalvE.findBestParametersRandom; rw [hb1]; rfl, hb1, ?_, ?_⟩
    · rcases hb2 with ⟨h, hall⟩ | ⟨k, c, x, hk, hc, hbx, hx, _, _⟩
      · exact Or.inr ⟨h, hall⟩
      · exact Or.inl ⟨c, List.getElem?_mem hk, x, hc, hx, hbx⟩
    · rcases hb2 with ⟨h, hall⟩ | ⟨k, c, x, hk, hc, hbx, hx, _, hall⟩
      · rw [h]
        exact hall
      · rw [hbx]
        exact hall

/-- Witness for the amended C15: an empty history, a budget of 2 iterations
and the draws `(7, 5, 9)` for `signalv_g`, the same draws for `signalv_e`. -/
theorem C15_random_search_best_amended_witness :
    (∃ r, SignalvG.findBestParameters_Random [] 2 (fun _ => ⟨7, 5, 9⟩) = some r ∧
      ∀ p ∈ (List.range (2 : Int).toNat).map (fun _ => SignalvG.candidate (⟨7, 5, 9⟩ : Draw)),
        ∀ y, SignalvG.simulateBacktest [] p = some y → y ≤ r.performance) ∧
    (∃ r, SignalvE.findBestParametersRandom [] (fun _ => ⟨7, 5, 9⟩) = some r ∧
      ∀ p ∈ (List.range 100).map (fun _ => SignalvE.candidate (⟨7, 5, 9⟩ : Draw)),
        ∀ y, SignalvE.simulateBacktest [] p = some y → y ≤ r.performance) := by
  have hg : SignalvG.drawInBounds ⟨7, 5, 9⟩ := by unfold SignalvG.drawInBounds; decide
  have he : SignalvE.drawInBounds ⟨7, 5, 9⟩ := by unfold SignalvE.drawInBounds; decide
  have h := C15_random_search_best_amended [] 2 (fun _ => ⟨7, 5, 9⟩) [] (fun _ => ⟨7, 5, 9⟩)
    (by simp) (by simp) (fun _ _ => hg) (fun _ _ => he)
  obtain ⟨⟨r1, h1, _, _, h1'⟩, ⟨r2, h2, _, _, h2'⟩⟩ := h
  exact ⟨⟨r1, h1, h1'⟩, ⟨r2, h2, h2'⟩⟩

/-- C16, counterexample: on a history of 21 bars with close 1 and the in-bounds
draws `(5, 30, 14)` in each of 100 iterations, every candidate `(5, 35, 14)`
is infeasible and scores the sentinel, so the search returns the default
`(5, 20, 14)` with performance `-1e9`; but the default is feasible on 21 bars
and `simulateBacktest(history, default)` is 0, not the performance returned. -/
theorem C16_default_performance_is_placeholder :
    SignalvG.drawInBounds ⟨5, 30, 14⟩ ∧
    SignalvG.findBestParameters_Random (List.replicate 21 ⟨"", 1, 1, 1, 1, 0, 0⟩) 100
        (fun _ => ⟨5, 30, 14⟩) =
      some { sma_short := 5, sma_long := 20, rsi_period := 14, performance := -1000000000 } ∧
    SignalvG.simulateBacktest (List.replicate 21 ⟨"", 1, 1, 1, 1, 0, 0⟩)
        { sma_short := 5, sma_long := 20, rsi_period := 14, performance := -1000000000 } =
      some 0 := by
  have hbG : SignalvG.drawInBounds ⟨5, 30, 14⟩ := by unfold SignalvG.drawInBounds; decide
  refine ⟨hbG, ?_, ?_⟩
  · obtain ⟨b, hb1, hb2⟩ := randomG_result (List.replicate 21 ⟨"", 1, 1, 1, 1, 0, 0⟩)
      (by simp) 100 (fun _ => ⟨5, 30, 14⟩) (fun _ _ => hbG)
    have hcands : (List.range (100 : Int).toNat).map
        (fun _ => SignalvG.candidate (⟨5, 30, 14⟩ : Draw)) =
        List.replicate 100
          { sma_short := 5, sma_long := 35, rsi_period := 14, performance := -1000000000 } := rfl
    rw [hcands] at hb2
    have hb : b = {} := by
      rcases hb2 with ⟨h, _⟩ | ⟨k, c, x, hk, hc, _, hx, _⟩
      · exact h
      · have hmem := List.getElem?_mem hk
        rw [List.eq_of_mem_replicate hmem] at hc
        rw [simulateBacktestG_short _ _ (by decide) (by decide) (by simp)] at hc
        cases hc
        exact absurd hx (lt_irrefl _)
    unfold SignalvG.findBestParameters_Random
    rw [hb1, hb]
    rfl
  · rw [simulateBacktestG_eq _ _ 5 20 14 rfl rfl rfl (by simp) (by decide) (by decide)
      (by decide) (by decide) (by simp [replayStart])]
    simp [realizedProfit, roundTrips, replayStart, scanTrips]

/-- C16, amended: for every history and every sequence of draws within the
distributions' bounds, the result `r` of `findBestParameters_Random` satisfies
`r.performance = simulateBacktest(history, r)` whenever some evaluated
candidate scores strictly above `-1e9` (then `r` is a candidate with its
score) or the history has fewer than 21 bars (then the default is infeasible
too); when no candidate scores strictly above `-1e9`, `r` is the default
`StrategyParams` with the placeholder performance `-1e9`. -/
theorem C16_performance_paired_amended (cg : List SignalvG.Candle) (n : Int) (dg : Nat → Draw)
    (hlg : cg.length < 2 ^ 64) (hbg : ∀ i, i < n.toNat → SignalvG.drawInBounds (dg i)) :
    ∃ r, SignalvG.findBestParameters_Random cg n dg = some r ∧
      ((cg.length < 21 ∨
          ∃ p ∈ (List.range n.toNat).map (fun i => SignalvG.candidate (dg i)),
            ∃ x, SignalvG.simulateBacktest cg p = some x ∧ -1000000000 < x) →
        SignalvG.simulateBacktest cg r = some r.performance) ∧
      ((∀ p ∈ (List.range n.toNat).map (fun i => SignalvG.candidate (dg i)),
          ∀ y, SignalvG.simulateBacktest cg p = some y → y ≤ -1000000000) →
        r = { sma_short := 5, sma_long := 20, rsi_period := 14, performance := -1000000000 }) := by
  obtain ⟨b, hb1, hb2⟩ := randomG_result cg hlg n dg hbg
  refine ⟨b, by unfold SignalvG.findBestParameters_Random; rw [hb1]; rfl, ?_, ?_⟩
  · intro hcase
    rcases hb2 with ⟨h, hall⟩ | ⟨k, c, x, hk, hc, hbx, hx, _, _⟩
    · rcases hcase with hshort | ⟨p, hp, x, hpx, hx⟩
      · rw [h]
        exact simulateBacktestG_short cg _ (by decide) (by decide) (by
          show (cg.length : Int) < max 20 14 + 1
          have : max (20 : Int) 14 = 20 := by decide
          rw [this]
          omega)
      · exact absurd (hall p hp x hpx) (not_le.mpr hx)
    · rw [hbx, simulateBacktestG_congr cg cg { c with performance := x } c rfl rfl rfl rfl]
      exact hc
  · intro hall
    rcases hb2 with ⟨h, _⟩ | ⟨k, c, x, hk, hc, _, hx, _, _⟩
    · rw [h]
    · exact absurd (hall c (List.getElem?_mem hk) x hc) (not_le.mpr hx)

/-- Witness for the amended C16: an empty history, a budget of 2 iterations
and the draws `(7, 5, 9)`. -/
theorem C16_performance_paired_amended_witness :
    ∃ r, SignalvG.findBestParameters_Random [] 2 (fun _ => ⟨7, 5, 9⟩) = some r ∧
      SignalvG.simulateBacktest [] r = some r.performance := by
  have hg : SignalvG.drawInBounds ⟨7, 5, 9⟩ := by unfold SignalvG.drawInBounds; decide
  obtain ⟨r, h1, h2, _⟩ := C16_performance_paired_amended [] 2 (fun _ => ⟨7, 5, 9⟩) (by simp)
    (fun _ _ => hg)
  exact ⟨r, h1, h2 (Or.inl (by simp))⟩

namespace Signalv

/-! ## The candidates of the grid -/

theorem length_flatMap_const {α β : Type} (g : α → List β) (m : Nat) :
    ∀ (xs : List α), (∀ a ∈ xs, (g a).length = m) → (xs.flatMap g).length = xs.length * m := by
  intro xs
  induction xs with
  | nil => intro _; simp
  | cons a xs ih =>
    intro h
    rw [List.flatMap_cons, List.length_append, h a (List.mem_cons_self _ _),
      ih (fun b hb => h b (List.mem_cons_of_mem _ hb)), List.length_cons]
    ring

theorem nodup_grid {α β γ δ : Type} (f : α → β → γ → δ)
    (hf : ∀ a b c a' b' c', f a b c = f a' b' c' → a = a' ∧ b = b' ∧ c = c')
    (xs : List α) (ys : List β) (zs : List γ) (hx : xs.Nodup) (hy : ys.Nodup) (hz : zs.Nodup) :
    (xs.flatMap fun a => ys.flatMap fun b => zs.map (f a b)).Nodup := by
  rw [List.nodup_flatMap]
  constructor
  · intro a _
    rw [List.nodup_flatMap]
    constructor
    · intro b _
      exact hz.map (fun c c' h => (hf a b c a b c' h).2.2)
    · refine List.Pairwise.imp ?_ hy
      intro b b' hne p hp hp'
      obtain ⟨c, _, rfl⟩ := List.mem_map.mp hp
      obtain ⟨c', _, h⟩ := List.mem_map.mp hp'
      exact hne (hf _ _ _ _ _ _ h).2.1.symm
  · refine List.Pairwise.imp ?_ hx
    intro a a' hne p hp hp'
    obtain ⟨b, _, hb⟩ := List.mem_flatMap.mp hp
    obtain ⟨c, _, rfl⟩ := List.mem_map.mp hb
    obtain ⟨b', _, hb'⟩ := List.mem_flatMap.mp hp'
    obtain ⟨c', _, h⟩ := List.mem_map.mp hb'
    exact hne (hf _ _ _ _ _ _ h).1.symm

theorem gridCandidates_length : gridCandidates.length = 336 := by
  unfold gridCandidates
  rw [length_flatMap_const _ 56]
  · rfl
  · intro a _
    rw [length_flatMap_const _ 8]
    · rfl
    · intro b _
      rfl

theorem gridCandidates_nodup : gridCandidates.Nodup := by
  unfold gridCandidates
  refine nodup_grid
    (fun a b c =>
      ({ sma_short := a, sma_long := b, rsi_period := c, atr_period := 14 } :
        SignalvE.StrategyParams))
    ?_ _ _ _ (by decide) (by decide) (by decide)
  intro a b c a' b' c' h
  simp only [SignalvE.StrategyParams.mk.injEq] at h
  exact ⟨h.1, h.2.1, h.2.2.1⟩

theorem gridCandidates_short_lt_long : ∀ p ∈ gridCandidates, p.sma_short < p.sma_long := by
  intro p hp
  obtain ⟨⟨_, a2⟩, ⟨b1, _⟩, _⟩ := gridCandidates_bounds p hp
  omega

end Signalv

/-- C17: ties keep the first found.  In the random search of `signalv_g`
(candidates in draw order) and in the grid search of `signalv_c` (candidates
in the order `sma_short` outer, `sma_long` middle, `rsi_period` inner),
whenever some evaluated candidate scores strictly above `-1e9`, the parameter
set returned is the candidate at some position `k` of the search order with
its score `x`, every evaluated candidate scores at most `x`, and every
candidate before position `k` scores strictly less than `x`. -/
theorem C17_ties_keep_first_found
    (cg : List SignalvG.Candle) (n : Int) (dg : Nat → Draw) (ce : List SignalvE.Candle)
    (hlg : cg.length < 2 ^ 64) (hle : ce.length < 2 ^ 64)
    (hbg : ∀ i, i < n.toNat → SignalvG.drawInBounds (dg i)) :
    (∃ r, SignalvG.findBestParameters_RandomTrace cg n dg =
        some (r, (List.range n.toNat).map (fun i => SignalvG.candidate (dg i))) ∧
      ((∃ p ∈ (List.range n.toNat).map (fun i => SignalvG.candidate (dg i)),
          ∃ y, SignalvG.simulateBacktest cg p = some y ∧ -1000000000 < y) →
        ∃ (k : Nat) (c : SignalvG.StrategyParams) (x : ℚ),
          ((List.range n.toNat).map (fun i => SignalvG.candidate (dg i)))[k]? = some c ∧
          SignalvG.simulateBacktest cg c = some x ∧ r = { c with performance := x } ∧
          (∀ (j : Nat) (c' : SignalvG.StrategyParams), j < k →
            ((List.range n.toNat).map (fun i => SignalvG.candidate (dg i)))[j]? = some c' →
            ∀ y, SignalvG.simulateBacktest cg c' = some y → y < x) ∧
          (∀ p ∈ (List.range n.toNat).map (fun i => SignalvG.candidate (dg i)),
            ∀ y, SignalvG.simulateBacktest cg p = some y → y ≤ x))) ∧
    (∃ r, SignalvC.findBestParametersTrace ce = some (r, gridCandidates) ∧
      ((∃ p ∈ gridCandidates, ∃ y, SignalvE.simulateBacktest ce p = some y ∧ -1000000000 < y) →
        ∃ (k : Nat) (c : SignalvE.StrategyParams) (x : ℚ),
          gridCandidates[k]? = some c ∧
          SignalvE.simulateBacktest ce c = some x ∧ r = { c with performance := x } ∧
          (∀ (j : Nat) (c' : SignalvE.StrategyParams), j < k → gridCandidates[j]? = some c' →
            ∀ y, SignalvE.simulateBacktest ce c' = some y → y < x) ∧
          (∀ p ∈ gridCandidates, ∀ y, SignalvE.simulateBacktest ce p = some y → y ≤ x))) := by
  constructor
  · obtain ⟨b, hb1, hb2⟩ := randomG_result cg hlg n dg hbg
    refine ⟨b, hb1, ?_⟩
    rintro ⟨p, hp, y, hpy, hy⟩
    rcases hb2 with ⟨_, hall⟩ | ⟨k, c, x, hk, hc, hbx, _, hbefore, hall⟩
    · exact absurd (hall p hp y hpy) (not_le.mpr hy)
    · exact ⟨k, c, x, hk, hc, hbx, hbefore, hall⟩
  · obtain ⟨b, hb1, hb2⟩ := grid_result (SignalvE.simulateBacktest ce)
      (gridCandidates_total ce hle)
    refine ⟨b, hb1, ?_⟩
    rintro ⟨p, hp, y, hpy, hy⟩
    rcases hb2 with ⟨_, hall⟩ | ⟨k, c, x, hk, hc, hbx, _, hbefore, hall⟩
    · exact absurd (hall p hp y hpy) (not_le.mpr hy)
    · exact ⟨k, c, x, hk, hc, hbx, hbefore, hall⟩

namespace Signalv

/-- On 21 bars with constant closes a parameter set with `sma_long = 20` and
the other periods between 1 and 20 is feasible, its replay loop makes no
iteration, and its score is 0 (`signalv_g.cpp`). -/
theorem simulateBacktestG_flat (p : SignalvG.StrategyParams) (ss rp : Nat)
    (hss : p.sma_short = (ss : Int)) (hsl : p.sma_long = ((20 : Nat) : Int))
    (hrp : p.rsi_period = (rp : Int)) (h1 : 1 ≤ ss) (h2 : ss ≤ 20) (h3 : 1 ≤ rp)
    (h4 : rp ≤ 20) :
    SignalvG.simulateBacktest (List.replicate 21 ⟨"bar", 1, 1, 1, 1, 0, 0⟩) p = some 0 := by
  have hm : max 20 rp = 20 := max_eq_left h4
  rw [simulateBacktestG_eq _ p ss 20 rp hss hsl hrp (by simp) h1 h2 h3 (by rw [hm]; norm_num)
    (by unfold replayStart; rw [hm]; simp)]
  unfold realizedProfit roundTrips replayStart
  rw [hm]
  simp [scanTrips]

/-- The same for `simulateBacktest` of `signalv_e.cpp`. -/
theorem simulateBacktestE_flat (p : SignalvE.StrategyParams) (ss rp : Nat)
    (hss : p.sma_short = (ss : Int)) (hsl : p.sma_long = ((20 : Nat) : Int))
    (hrp : p.rsi_period = (rp : Int)) (h1 : 1 ≤ ss) (h2 : ss ≤ 20) (h3 : 1 ≤ rp)
    (h4 : rp ≤ 20) :
    SignalvE.simulateBacktest (List.replicate 21 ⟨"bar", 1, 1, 1, 1, 0⟩) p = some 0 := by
  have hm : max 20 rp = 20 := max_eq_left h4
  rw [simulateBacktestE_eq _ p ss 20 rp hss hsl hrp (by simp) h1 h2 h3 (by rw [hm]; norm_num)
    (by unfold replayStart; rw [hm]; simp)]
  unfold realizedProfit roundTrips replayStart
  rw [hm]
  simp [scanTrips]

end Signalv

/-- C17 on 21 bars with constant closes.  The random search of `signalv_g`
makes two iterations with the draws `(5, 15, 14)` and `(6, 14, 13)`: the
candidates `(5, 20, 14)` and `(6, 20, 13)` both score 0, above `-1e9`, so the
premise holds, and of the two tied candidates the first one is returned, with
the performance 0.  In the grid search of `signalv_c` the first parameter set
of the grid, `(5, 20, 7)`, scores 0, so the premise holds and the conclusion
about the position of the returned set applies. -/
theorem C17_ties_keep_first_found_witness :
    (∃ r, SignalvG.findBestParameters_RandomTrace
          (List.replicate 21 ⟨"bar", 1, 1, 1, 1, 0, 0⟩) 2
          (fun i => if i = 0 then ⟨5, 15, 14⟩ else ⟨6, 14, 13⟩) =
        some (r, [{ sma_short := 5, sma_long := 20, rsi_period := 14 },
          { sma_short := 6, sma_long := 20, rsi_period := 13 }]) ∧
      r = { sma_short := 5, sma_long := 20, rsi_period := 14, performance := 0 } ∧
      SignalvG.simulateBacktest (List.replicate 21 ⟨"bar", 1, 1, 1, 1, 0, 0⟩)
        { sma_short := 5, sma_long := 20, rsi_period := 14 } = some 0 ∧
      SignalvG.simulateBacktest (List.replicate 21 ⟨"bar", 1, 1, 1, 1, 0, 0⟩)
        { sma_short := 6, sma_long := 20, rsi_period := 13 } = some 0) ∧
    (∃ r, SignalvC.findBestParametersTrace (List.replicate 21 ⟨"bar", 1, 1, 1, 1, 0⟩) =
        some (r, gridCandidates) ∧
      ∃ (k : Nat) (c : SignalvE.StrategyParams) (x : ℚ),
        gridCandidates[k]? = some c ∧
        SignalvE.simulateBacktest (List.replicate 21 ⟨"bar", 1, 1, 1, 1, 0⟩) c = some x ∧
        r = { c with performance := x } ∧
        (∀ (j : Nat) (c' : SignalvE.StrategyParams), j < k → gridCandidates[j]? = some c' →
          ∀ y, SignalvE.simulateBacktest (List.replicate 21 ⟨"bar", 1, 1, 1, 1, 0⟩) c'
            = some y → y < x) ∧
        (∀ p ∈ gridCandidates, ∀ y,
          SignalvE.simulateBacktest (List.replicate 21 ⟨"bar", 1, 1, 1, 1, 0⟩) p = some y →
            y ≤ x)) := by
  have hb : ∀ i, i < (2 : Int).toNat →
      SignalvG.drawInBounds ((fun i => if i = 0 then (⟨5, 15, 14⟩ : Draw) else ⟨6, 14, 13⟩) i) := by
    intro i _
    by_cases h0 : i = 0
    · simp only [h0, if_true]
      unfold SignalvG.drawInBounds
      decide
    · simp only [h0, if_false]
      unfold SignalvG.drawInBounds
      decide
  have hcands : (List.range (2 : Int).toNat).map
      (fun i => SignalvG.candidate
        ((fun i => if i = 0 then (⟨5, 15, 14⟩ : Draw) else ⟨6, 14, 13⟩) i)) =
      [{ sma_short := 5, sma_long := 20, rsi_period := 14 },
        { sma_short := 6, sma_long := 20, rsi_period := 13 }] := rfl
  have s0 : SignalvG.simulateBacktest (List.replicate 21 ⟨"bar", 1, 1, 1, 1, 0, 0⟩)
      { sma_short := 5, sma_long := 20, rsi_period := 14 } = some 0 :=
    simulateBacktestG_flat _ 5 14 rfl rfl rfl (by norm_num) (by norm_num) (by norm_num)
      (by norm_num)
  have s1 : SignalvG.simulateBacktest (List.replicate 21 ⟨"bar", 1, 1, 1, 1, 0, 0⟩)
      { sma_short := 6, sma_long := 20, rsi_period := 13 } = some 0 :=
    simulateBacktestG_flat _ 6 13 rfl rfl rfl (by norm_num) (by norm_num) (by norm_num)
      (by norm_num)
  have g0 : SignalvE.simulateBacktest (List.replicate 21 ⟨"bar", 1, 1, 1, 1, 0⟩)
      { sma_short := 5, sma_long := 20, rsi_period := 7, atr_period := 14 } = some 0 :=
    simulateBacktestE_flat _ 5 7 rfl rfl rfl (by norm_num) (by norm_num) (by norm_num)
      (by norm_num)
  obtain ⟨⟨r1, h1, i1⟩, ⟨r2, h2, i2⟩⟩ := C17_ties_keep_first_found
    (List.replicate 21 ⟨"bar", 1, 1, 1, 1, 0, 0⟩) 2
    (fun i => if i = 0 then ⟨5, 15, 14⟩ else ⟨6, 14, 13⟩)
    (List.replicate 21 ⟨"bar", 1, 1, 1, 1, 0⟩) (by simp) (by simp) hb
  rw [hcands] at h1 i1
  constructor
  · obtain ⟨k, c, x, hk, hc, hr, hbefore, _⟩ := i1
      ⟨_, List.mem_cons_self _ _, 0, s0, by norm_num⟩
    have hx : x = 0 := by
      have hmem := List.getElem?_mem hk
      simp only [List.mem_cons, List.mem_singleton, List.not_mem_nil, or_false] at hmem
      rcases hmem with hm | hm
      · rw [hm, s0] at hc
        exact (Option.some.inj hc).symm
      · rw [hm, s1] at hc
        exact (Option.some.inj hc).symm
    have hk0 : k = 0 := by
      by_contra hne
      have := hbefore 0 _ (Nat.pos_of_ne_zero hne) rfl 0 s0
      rw [hx] at this
      exact lt_irrefl _ this
    rw [hk0] at hk
    have hc0 : c = { sma_short := 5, sma_long := 20, rsi_period := 14 } :=
      (Option.some.inj hk).symm
    refine ⟨r1, h1, ?_, s0, s1⟩
    rw [hr, hc0, hx]
  · exact ⟨r2, h2, i2 ⟨_, gridCandidates_mem _ (by simp) (by simp) (by simp) rfl rfl, 0, g0,
      by norm_num⟩⟩

/-- C18: the grid search passes to the simulator exactly the parameter sets of
the grid, in grid order: `findBestParameters` of `signalv_c` on every history,
and the same loop nest over any simulator that returns a value on the grid (as
in `signalv_8`).  The grid has `6 x 7 x 8 = 336` parameter sets without
repetition, namely those with `sma_short` in `{5, 7, ..., 15}`, `sma_long` in
`{20, 25, ..., 50}` and `rsi_period` in `{7, 9, ..., 21}` (with
`atr_period = 14` and the performance not yet assigned), and each of them has
`sma_short < sma_long`. -/
theorem C18_grid_search_candidates (ce : List SignalvE.Candle) (hle : ce.length < 2 ^ 64)
    (sim : SignalvE.StrategyParams → Option ℚ)
    (hsim : ∀ p ∈ gridCandidates, ∃ x, sim p = some x) :
    (SignalvC.findBestParametersTrace ce).map Prod.snd = some gridCandidates ∧
    (SignalvC.gridSearch sim).map Prod.snd = some gridCandidates ∧
    gridCandidates.length = 336 ∧ gridCandidates.Nodup ∧
    (∀ p, p ∈ gridCandidates ↔
      (p.sma_short ∈ ([5, 7, 9, 11, 13, 15] : List Int) ∧
       p.sma_long ∈ ([20, 25, 30, 35, 40, 45, 50] : List Int) ∧
       p.rsi_period ∈ ([7, 9, 11, 13, 15, 17, 19, 21] : List Int) ∧
       p.atr_period = 14 ∧ p.performance = -1000000000)) ∧
    (∀ p ∈ gridCandidates, p.sma_short < p.sma_long) := by
  obtain ⟨b1, h1, _⟩ := grid_result (SignalvE.simulateBacktest ce) (gridCandidates_total ce hle)
  obtain ⟨b2, h2, _⟩ := grid_result sim hsim
  refine ⟨?_, ?_, gridCandidates_length, gridCandidates_nodup, ?_, gridCandidates_short_lt_long⟩
  · unfold SignalvC.findBestParametersTrace
    rw [h1]
    rfl
  · rw [h2]
    rfl
  · intro p
    constructor
    · exact gridCandidates_periods p
    · rintro ⟨a, b, c, d, e⟩
      exact gridCandidates_mem p a b c d e

/-- Witness for C18: the grid search on an empty history, and over the
simulator that always returns 0. -/
theorem C18_grid_search_candidates_witness :
    (SignalvC.findBestParametersTrace []).map Prod.snd = some gridCandidates ∧
    (SignalvC.gridSearch (fun _ => some 0)).map Prod.snd = some gridCandidates :=
  have h := C18_grid_search_candidates [] (by simp) (fun _ => some 0) (fun _ _ => ⟨0, rfl⟩)
  ⟨h.1, h.2.1⟩

namespace Signalv

theorem candidateG_valid (d : Draw) (h : SignalvG.drawInBounds d) :
    validPeriods (SignalvG.candidate d).sma_short (SignalvG.candidate d).sma_long
      (SignalvG.candidate d).rsi_period := by
  obtain ⟨e1, e2, e3, _⟩ := candidateG_periods d h
  obtain ⟨⟨a1, a2⟩, ⟨b1, b2⟩, c1, c2⟩ := h
  rw [e1, e2, e3]
  unfold validPeriods
  omega

theorem candidateE_valid (d : Draw) (h : SignalvE.drawInBounds d) :
    validPeriods (SignalvE.candidate d).sma_short (SignalvE.candidate d).sma_long
      (SignalvE.candidate d).rsi_period := by
  obtain ⟨e1, e2, e3, _⟩ := candidateE_periods d h
  obtain ⟨⟨a1, a2⟩, ⟨b1, b2⟩, c1, c2⟩ := h
  rw [e1, e2, e3]
  unfold validPeriods
  omega

theorem forLoop_congr {σ : Type} (b1 b2 : Nat → σ → Option σ) :
    ∀ (n i : Nat) (s : σ), (∀ k, i ≤ k → k < i + n → ∀ t, b1 k t = b2 k t) →
      forLoop b1 i n s = forLoop b2 i n s := by
  intro n
  induction n with
  | zero => intro i s _; rfl
  | succ n ih =>
    intro i s h
    rw [forLoop, forLoop, h i (le_refl _) (by omega) s]
    cases b2 i s with
    | none => rfl
    | some s' => exact ih (i + 1) s' (fun k hk1 hk2 t => h k (by omega) (by omega) t)

end Signalv

/-- C19: for every history and every sequence of draws within the
distributions' bounds, every candidate that the random search (both variants)
passes to `simulateBacktest`, and the parameter set it returns (the default
included), satisfies `sma_short < sma_long` and
`sma_short, sma_long, rsi_period ≥ 2`. -/
theorem C19_random_search_valid_parameters
    (cg : List SignalvG.Candle) (n : Int) (dg : Nat → Draw)
    (ce : List SignalvE.Candle) (de : Nat → Draw)
    (hlg : cg.length < 2 ^ 64) (hle : ce.length < 2 ^ 64)
    (hbg : ∀ i, i < n.toNat → SignalvG.drawInBounds (dg i))
    (hbe : ∀ i, i < 100 → SignalvE.drawInBounds (de i)) :
    (∃ r log, SignalvG.findBestParameters_RandomTrace cg n dg = some (r, log) ∧
      SignalvG.findBestParameters_Random cg n dg = some r ∧
      (∀ p ∈ log, validPeriods p.sma_short p.sma_long p.rsi_period) ∧
      validPeriods r.sma_short r.sma_long r.rsi_period) ∧
    (∃ r log, SignalvE.findBestParametersRandomTrace ce de = some (r, log) ∧
      SignalvE.findBestParametersRandom ce de = some r ∧
      (∀ p ∈ log, validPeriods p.sma_short p.sma_long p.rsi_period) ∧
      validPeriods r.sma_short r.sma_long r.rsi_period) := by
  constructor
  · obtain ⟨b, hb1, hb2⟩ := randomG_result cg hlg n dg hbg
    have hlog : ∀ p ∈ (List.range n.toNat).map (fun i => SignalvG.candidate (dg i)),
        validPeriods p.sma_short p.sma_long p.rsi_period := by
      intro p hp
      obtain ⟨i, hi, rfl⟩ := List.mem_map.mp hp
      exact candidateG_valid (dg i) (hbg i (List.mem_range.mp hi))
    refine ⟨b, _, hb1, by unfold SignalvG.findBestParameters_Random; rw [hb1]; rfl, hlog, ?_⟩
    rcases hb2 with ⟨h, _⟩ | ⟨k, c, x, hk, _, hbx, _⟩
    · rw [h]
      unfold validPeriods
      decide
    · rw [hbx]
      exact hlog c (List.getElem?_mem hk)
  · obtain ⟨b, hb1, hb2⟩ := randomE_result ce hle de hbe
    have hlog : ∀ p ∈ (List.range 100).map (fun i => SignalvE.candidate (de i)),
        validPeriods p.sma_short p.sma_long p.rsi_period := by
      intro p hp
      obtain ⟨i, hi, rfl⟩ := List.mem_map.mp hp
      exact candidateE_valid (de i) (hbe i (List.mem_range.mp hi))
    refine ⟨b, _, hb1, by unfold SignalvE.findBestParametersRandom; rw [hb1]; rfl, hlog, ?_⟩
    rcases hb2 with ⟨h, _⟩ | ⟨k, c, x, hk, _, hbx, _⟩
    · rw [h]
      unfold validPeriods
      decide
    · rw [hbx]
      exact hlog c (List.getElem?_mem hk)

/-- Witness for C19: an empty history, two iterations for `signalv_g`, and
the draws `(7, 5, 9)` throughout. -/
theorem C19_random_search_valid_parameters_witness :
    (∃ r log, SignalvG.findBestParameters_RandomTrace [] 2 (fun _ => ⟨7, 5, 9⟩) = some (r, log) ∧
      SignalvG.findBestParameters_Random [] 2 (fun _ => ⟨7, 5, 9⟩) = some r ∧
      (∀ p ∈ log, validPeriods p.sma_short p.sma_long p.rsi_period) ∧
      validPeriods r.sma_short r.sma_long r.rsi_period) ∧
    (∃ r log, SignalvE.findBestParametersRandomTrace [] (fun _ => ⟨7, 5, 9⟩) = some (r, log) ∧
      SignalvE.findBestParametersRandom [] (fun _ => ⟨7, 5, 9⟩) = some r ∧
      (∀ p ∈ log, validPeriods p.sma_short p.sma_long p.rsi_period) ∧
      validPeriods r.sma_short r.sma_long r.rsi_period) := by
  have hg : SignalvG.drawInBounds ⟨7, 5, 9⟩ := by unfold SignalvG.drawInBounds; decide
  have he : SignalvE.drawInBounds ⟨7, 5, 9⟩ := by unfold SignalvE.drawInBounds; decide
  exact C19_random_search_valid_parameters [] 2 (fun _ => ⟨7, 5, 9⟩) [] (fun _ => ⟨7, 5, 9⟩)
    (by simp) (by simp) (fun _ _ => hg) (fun _ _ => he)

/-- C20: with the generator modelled as an explicit sequence of draws, two
runs of `findBestParameters_Random` on the same history with the same
iteration budget and with draw sequences that agree on the iterations of the
budget evaluate the same sequence of candidates and return the same best
parameter set with the same score. -/
theorem C20_random_search_reproducible (h1 h2 : List SignalvG.Candle) (n1 n2 : Int)
    (d1 d2 : Nat → Draw) (hh : h1 = h2) (hn : n1 = n2)
    (hd : ∀ i, i < n1.toNat → d1 i = d2 i) :
    SignalvG.findBestParameters_RandomTrace h1 n1 d1 =
      SignalvG.findBestParameters_RandomTrace h2 n2 d2 ∧
    SignalvG.findBestParameters_Random h1 n1 d1 = SignalvG.findBestParameters_Random h2 n2 d2 := by
  subst hh hn
  have ht : SignalvG.findBestParameters_RandomTrace h1 n1 d1 =
      SignalvG.findBestParameters_RandomTrace h1 n1 d2 := by
    unfold SignalvG.findBestParameters_RandomTrace
    apply forLoop_congr
    intro k _ hk t
    rw [hd k (by omega)]
  refine ⟨ht, ?_⟩
  unfold SignalvG.findBestParameters_Random
  rw [ht]

/-- Witness for C20: a three-bar history, a budget of 2 iterations, and two
draw sequences that agree on the iterations 0 and 1 and differ afterwards. -/
theorem C20_random_search_reproducible_witness :
    SignalvG.findBestParameters_RandomTrace
        [⟨"a", 1, 1, 1, 1, 0, 0⟩, ⟨"b", 2, 2, 2, 2, 0, 0⟩, ⟨"c", 3, 3, 3, 3, 0, 0⟩] 2
        (fun i => if i < 2 then ⟨7, 5, 9⟩ else ⟨8, 6, 10⟩) =
      SignalvG.findBestParameters_RandomTrace
        [⟨"a", 1, 1, 1, 1, 0, 0⟩, ⟨"b", 2, 2, 2, 2, 0, 0⟩, ⟨"c", 3, 3, 3, 3, 0, 0⟩] 2
        (fun _ => ⟨7, 5, 9⟩) ∧
    SignalvG.findBestParameters_Random
        [⟨"a", 1, 1, 1, 1, 0, 0⟩, ⟨"b", 2, 2, 2, 2, 0, 0⟩, ⟨"c", 3, 3, 3, 3, 0, 0⟩] 2
        (fun i => if i < 2 then ⟨7, 5, 9⟩ else ⟨8, 6, 10⟩) =
      SignalvG.findBestParameters_Random
        [⟨"a", 1, 1, 1, 1, 0, 0⟩, ⟨"b", 2, 2, 2, 2, 0, 0⟩, ⟨"c", 3, 3, 3, 3, 0, 0⟩] 2
        (fun _ => ⟨7, 5, 9⟩) :=
  C20_random_search_reproducible _ _ 2 2 _ _ rfl rfl (by
    intro i hi
    have : i < 2 := hi
    simp [this])

namespace Signalv

/-! ## The decision step -/

/-- What a report of the decision step of `signalv_g.cpp` is made of. -/
theorem decisionStepG_inv (ticker : String) (candles : List SignalvG.Candle)
    (p : SignalvG.StrategyParams) (log log' : List String) (r : SignalvG.Report)
    (h : SignalvG.decisionStep ticker candles p log = some (r, log')) :
    ∃ last, candles.getLast? = some last ∧
      SignalvG.atrPercent last.atr last.close = some r.current_atr_percent ∧
      r.is_volatile_enough = decide (r.current_atr_percent > 1 / 10) ∧
      SignalvG.computeSMA (candles.map SignalvG.Candle.close)
        (sizePred (candles.map SignalvG.Candle.close).length) p.sma_short = some r.sma_short ∧
      SignalvG.computeSMA (candles.map SignalvG.Candle.close)
        (sizePred (candles.map SignalvG.Candle.close).length) p.sma_long = some r.sma_long ∧
      SignalvG.computeRSI (candles.map SignalvG.Candle.close)
        (sizePred (candles.map SignalvG.Candle.close).length) p.rsi_period = some r.rsi ∧
      r.use_volume = SignalvG.hasVolumeData candles ∧
      (if r.use_volume then SignalvG.computeOBVDirection candles 14 else some 0)
        = some r.obv_direction ∧
      r.signal = SignalvG.directionalSignal r.use_volume r.sma_short r.sma_long r.rsi
        r.obv_direction ∧
      (r.outcome, log') = SignalvG.settle last.datetime ticker r.signal last.close last.atr
        r.is_volatile_enough log ∧
      r.optimal_params = p := by
  unfold SignalvG.decisionStep at h
  simp only [List.length_map] at h ⊢
  cases hl : candles.getLast? with
  | none => simp [hl] at h
  | some last =>
    simp only [hl] at h
    cases hp : SignalvG.atrPercent last.atr last.close with
    | none => simp [hp] at h
    | some pct =>
      simp only [hp] at h
      cases hs : SignalvG.computeSMA (candles.map SignalvG.Candle.close)
          (sizePred candles.length) p.sma_short with
      | none => simp [hs] at h
      | some s =>
        cases hlg : SignalvG.computeSMA (candles.map SignalvG.Candle.close)
            (sizePred candles.length) p.sma_long with
        | none => simp [hs, hlg] at h
        | some l =>
          cases hr : SignalvG.computeRSI (candles.map SignalvG.Candle.close)
              (sizePred candles.length) p.rsi_period with
          | none => simp [hs, hlg, hr] at h
          | some rsi =>
            simp only [hs, hlg, hr] at h
            cases ho : (if SignalvG.hasVolumeData candles then
                SignalvG.computeOBVDirection candles 14 else some 0) with
            | none => simp [ho] at h
            | some o =>
              simp only [ho, Option.some.injEq, Prod.mk.injEq] at h
              obtain ⟨h1, h2⟩ := h
              subst h1
              refine ⟨last, rfl, hp, rfl, rfl, rfl, rfl, rfl, ho, rfl, ?_, rfl⟩
              rw [← h2]

end Signalv

namespace Signalv

/-- What a report of the decision step of `signalv_e.cpp` is made of. -/
theorem decisionStepE_inv (ticker : String) (candles : List SignalvE.Candle)
    (p : SignalvE.StrategyParams) (log log' : List String) (r : SignalvE.Report)
    (h : SignalvE.decisionStep ticker candles p log = some (r, log')) :
    ∃ last, candles.getLast? = some last ∧
      SignalvE.computeSMA (candles.map SignalvE.Candle.close)
        (sizePred (candles.map SignalvE.Candle.close).length) p.sma_short = some r.sma_short ∧
      SignalvE.computeSMA (candles.map SignalvE.Candle.close)
        (sizePred (candles.map SignalvE.Candle.close).length) p.sma_long = some r.sma_long ∧
      SignalvE.computeRSI (candles.map SignalvE.Candle.close)
        (sizePred (candles.map SignalvE.Candle.close).length) p.rsi_period = some r.rsi ∧
      SignalvE.computeATR candles (sizePred candles.length) p.atr_period = some r.atr ∧
      r.use_volume = SignalvE.hasVolumeData candles ∧
      (if r.use_volume then SignalvE.computeOBVDirection candles 14 else some 0)
        = some r.obv_direction ∧
      r.signal = SignalvE.directionalSignal r.use_volume r.sma_short r.sma_long r.rsi
        r.obv_direction ∧
      r.entry = last.close ∧
      ((r.sl, r.tp), log') = SignalvE.settle last.datetime ticker r.signal last.close r.atr log ∧
      r.optimal_params = p := by
  unfold SignalvE.decisionStep at h
  simp only [List.length_map] at h ⊢
  cases hs : SignalvE.computeSMA (candles.map SignalvE.Candle.close)
      (sizePred candles.length) p.sma_short with
  | none => simp [hs] at h
  | some s =>
    cases hlg : SignalvE.computeSMA (candles.map SignalvE.Candle.close)
        (sizePred candles.length) p.sma_long with
    | none => simp [hs, hlg] at h
    | some l =>
      cases hr : SignalvE.computeRSI (candles.map SignalvE.Candle.close)
          (sizePred candles.length) p.rsi_period with
      | none => simp [hs, hlg, hr] at h
      | some rsi =>
        cases ha : SignalvE.computeATR candles (sizePred candles.length) p.atr_period with
        | none => simp [hs, hlg, hr, ha] at h
        | some atr =>
          simp only [hs, hlg, hr, ha] at h
          cases ho : (if SignalvE.hasVolumeData candles then
              SignalvE.computeOBVDirection candles 14 else some 0) with
          | none => simp [ho] at h
          | some o =>
            simp only [ho] at h
            cases hl : candles.getLast? with
            | none => simp [hl] at h
            | some last =>
              simp only [hl, Option.some.injEq, Prod.mk.injEq] at h
              obtain ⟨h1, h2⟩ := h
              subst h1
              refine ⟨last, rfl, rfl, rfl, rfl, rfl, rfl, ho, rfl, rfl, ?_, rfl⟩
              rw [← h2]

/-- The report of `process_ticker` carries the parameters of the optimizer and
comes from the decision step. -/
theorem process_ticker_report (ticker : String) (candles : List SignalvG.Candle)
    (draws : Nat → Draw) (log log' : List String) (r : SignalvG.Report)
    (h : SignalvG.process_ticker ticker candles draws log = some (some r, log')) :
    1 ≤ candles.length ∧ ∃ p, SignalvG.optimalParams candles draws = some p ∧
      SignalvG.decisionStep ticker candles p log = some (r, log') := by
  unfold SignalvG.process_ticker at h
  split_ifs at h with hlen
  · simp at h
  · refine ⟨by omega, ?_⟩
    cases hp : SignalvG.optimalParams candles draws with
    | none => simp [hp] at h
    | some p =>
      simp only [hp] at h
      cases hd : SignalvG.decisionStep ticker candles p log with
      | none => simp [hd] at h
      | some res =>
        obtain ⟨r0, l0⟩ := res
        simp only [hd, Option.some.injEq, Prod.mk.injEq] at h
        obtain ⟨h1, h2⟩ := h
        subst h1 h2
        exact ⟨p, rfl, hd⟩

/-- The report of `ProcessTicker` carries the parameters of the optimizer and
comes from the decision step. -/
theorem ProcessTicker_report (ticker : String) (candles : List SignalvE.Candle)
    (draws : Nat → Draw) (log log' : List String) (r : SignalvE.Report)
    (h : SignalvE.ProcessTicker ticker candles draws log = some (some r, log')) :
    100 ≤ candles.length ∧ ∃ p, SignalvE.optimalParams candles draws = some p ∧
      SignalvE.decisionStep ticker candles p log = some (r, log') := by
  unfold SignalvE.ProcessTicker at h
  split_ifs at h with hlen
  · simp at h
  · refine ⟨by omega, ?_⟩
    cases hp : SignalvE.optimalParams candles draws with
    | none => simp [hp] at h
    | some p =>
      simp only [hp] at h
      cases hd : SignalvE.decisionStep ticker candles p log with
      | none => simp [hd] at h
      | some res =>
        obtain ⟨r0, l0⟩ := res
        simp only [hd, Option.some.injEq, Prod.mk.injEq] at h
        obtain ⟨h1, h2⟩ := h
        subst h1 h2
        exact ⟨p, rfl, hd⟩

end Signalv

/-- C21 (no look-ahead): `process_ticker` of `signalv_g.cpp` and `ProcessTicker`
of `signalv_e.cpp` optimize on all bars but the most recent one.  For two bar
histories `init ++ [a]` and `init ++ [b]` that agree on every bar except the
last, and the same draws, the optimizer is run on `init` in both cases, so the
optimal parameters are identical, and two reports carry the same parameters. -/
theorem C21_optimizer_ignores_last_bar (draws : Nat → Draw) :
    (∀ (init : List SignalvG.Candle) (a b : SignalvG.Candle),
      SignalvG.optimalParams (init ++ [a]) draws
          = SignalvG.findBestParameters_Random init 100 draws ∧
        SignalvG.optimalParams (init ++ [a]) draws = SignalvG.optimalParams (init ++ [b]) draws ∧
        ∀ (t1 t2 : String) (l1 l2 l1' l2' : List String) (r1 r2 : SignalvG.Report),
          SignalvG.process_ticker t1 (init ++ [a]) draws l1 = some (some r1, l1') →
          SignalvG.process_ticker t2 (init ++ [b]) draws l2 = some (some r2, l2') →
          r1.optimal_params = r2.optimal_params) ∧
    (∀ (init : List SignalvE.Candle) (a b : SignalvE.Candle),
      SignalvE.optimalParams (init ++ [a]) draws = SignalvE.findBestParametersRandom init draws ∧
        SignalvE.optimalParams (init ++ [a]) draws = SignalvE.optimalParams (init ++ [b]) draws ∧
        ∀ (t1 t2 : String) (l1 l2 l1' l2' : List String) (r1 r2 : SignalvE.Report),
          SignalvE.ProcessTicker t1 (init ++ [a]) draws l1 = some (some r1, l1') →
          SignalvE.ProcessTicker t2 (init ++ [b]) draws l2 = some (some r2, l2') →
          r1.optimal_params = r2.optimal_params) := by
  constructor
  · intro init a b
    have e : ∀ x : SignalvG.Candle, SignalvG.optimalParams (init ++ [x]) draws
        = SignalvG.findBestParameters_Random init 100 draws := by
      intro x
      unfold SignalvG.optimalParams
      rw [List.dropLast_concat]
    refine ⟨e a, by rw [e a, e b], ?_⟩
    intro t1 t2 l1 l2 l1' l2' r1 r2 h1 h2
    obtain ⟨_, p1, hp1, hd1⟩ := process_ticker_report _ _ _ _ _ _ h1
    obtain ⟨_, p2, hp2, hd2⟩ := process_ticker_report _ _ _ _ _ _ h2
    obtain ⟨_, _, _, _, _, _, _, _, _, _, _, ho1⟩ := decisionStepG_inv _ _ _ _ _ _ hd1
    obtain ⟨_, _, _, _, _, _, _, _, _, _, _, ho2⟩ := decisionStepG_inv _ _ _ _ _ _ hd2
    rw [e a] at hp1
    rw [e b, hp1] at hp2
    rw [ho1, ho2]
    exact Option.some.inj hp2
  · intro init a b
    have e : ∀ x : SignalvE.Candle, SignalvE.optimalParams (init ++ [x]) draws
        = SignalvE.findBestParametersRandom init draws := by
      intro x
      unfold SignalvE.optimalParams
      rw [List.dropLast_concat]
    refine ⟨e a, by rw [e a, e b], ?_⟩
    intro t1 t2 l1 l2 l1' l2' r1 r2 h1 h2
    obtain ⟨_, p1, hp1, hd1⟩ := ProcessTicker_report _ _ _ _ _ _ h1
    obtain ⟨_, p2, hp2, hd2⟩ := ProcessTicker_report _ _ _ _ _ _ h2
    obtain ⟨_, _, _, _, _, _, _, _, _, _, _, ho1⟩ := decisionStepE_inv _ _ _ _ _ _ hd1
    obtain ⟨_, _, _, _, _, _, _, _, _, _, _, ho2⟩ := decisionStepE_inv _ _ _ _ _ _ hd2
    rw [e a] at hp1
    rw [e b, hp1] at hp2
    rw [ho1, ho2]
    exact Option.some.inj hp2

namespace Signalv

/-- The directional rule of `signalv_g.cpp`, as conditions. -/
theorem directionalSignalG_iff (use_volume : Bool) (s l rsi : ℚ) (o : Int) :
    (SignalvG.directionalSignal use_volume s l rsi o = "BUY" ↔
      s > l ∧ 50 < rsi ∧ rsi < 70 ∧ (use_volume = true → o = 1)) ∧
    (SignalvG.directionalSignal use_volume s l rsi o = "SELL" ↔
      s < l ∧ 30 < rsi ∧ rsi < 50 ∧ (use_volume = true → o = -1)) ∧
    (SignalvG.directionalSignal use_volume s l rsi o = "HOLD" ↔
      ¬ (s > l ∧ 50 < rsi ∧ rsi < 70 ∧ (use_volume = true → o = 1)) ∧
      ¬ (s < l ∧ 30 < rsi ∧ rsi < 50 ∧ (use_volume = true → o = -1))) := by
  have hbs : ("BUY" : String) ≠ "SELL" := by decide
  have hbh : ("BUY" : String) ≠ "HOLD" := by decide
  have hsh : ("SELL" : String) ≠ "HOLD" := by decide
  unfold SignalvG.directionalSignal
  cases use_volume
  · simp only [Bool.false_eq_true, if_false, false_implies, and_true]
    split_ifs with h1 h2
    · refine ⟨⟨fun _ => ⟨h1.1, h1.2.1, h1.2.2⟩, fun _ => rfl⟩, ⟨fun h => absurd h hbs, ?_⟩,
        ⟨fun h => absurd h hbh, ?_⟩⟩
      · rintro ⟨h, _⟩; exact absurd h1.1 (not_lt.mpr h.le)
      · rintro ⟨h, _⟩; exact absurd ⟨h1.1, h1.2.1, h1.2.2⟩ h
    · refine ⟨⟨fun h => absurd h hbs.symm, ?_⟩, ⟨fun _ => ⟨h2.1, h2.2.2, h2.2.1⟩, fun _ => rfl⟩,
        ⟨fun h => absurd h hsh, ?_⟩⟩
      · rintro ⟨h, a, b⟩; exact absurd ⟨h, a, b⟩ h1
      · rintro ⟨_, h⟩; exact absurd ⟨h2.1, h2.2.2, h2.2.1⟩ h
    · refine ⟨⟨fun h => absurd h hbh.symm, ?_⟩, ⟨fun h => absurd h hsh.symm, ?_⟩,
        ⟨fun _ => ⟨?_, ?_⟩, fun _ => rfl⟩⟩
      · rintro ⟨h, a, b⟩; exact absurd ⟨h, a, b⟩ h1
      · rintro ⟨h, a, b⟩; exact absurd ⟨h, b, a⟩ h2
      · rintro ⟨h, a, b⟩; exact absurd ⟨h, a, b⟩ h1
      · rintro ⟨h, a, b⟩; exact absurd ⟨h, b, a⟩ h2
  · simp only [if_true, true_implies]
    split_ifs with h1 h2
    · refine ⟨⟨fun _ => ⟨h1.1, h1.2.1, h1.2.2.2, h1.2.2.1⟩, fun _ => rfl⟩,
        ⟨fun h => absurd h hbs, ?_⟩, ⟨fun h => absurd h hbh, ?_⟩⟩
      · rintro ⟨h, _⟩; exact absurd h1.1 (not_lt.mpr h.le)
      · rintro ⟨h, _⟩; exact absurd ⟨h1.1, h1.2.1, h1.2.2.2, h1.2.2.1⟩ h
    · refine ⟨⟨fun h => absurd h hbs.symm, ?_⟩,
        ⟨fun _ => ⟨h2.1, h2.2.2.2, h2.2.1, h2.2.2.1⟩, fun _ => rfl⟩, ⟨fun h => absurd h hsh, ?_⟩⟩
      · rintro ⟨h, a, b, c⟩; exact absurd ⟨h, a, c, b⟩ h1
      · rintro ⟨_, h⟩; exact absurd ⟨h2.1, h2.2.2.2, h2.2.1, h2.2.2.1⟩ h
    · refine ⟨⟨fun h => absurd h hbh.symm, ?_⟩, ⟨fun h => absurd h hsh.symm, ?_⟩,
        ⟨fun _ => ⟨?_, ?_⟩, fun _ => rfl⟩⟩
      · rintro ⟨h, a, b, c⟩; exact absurd ⟨h, a, c, b⟩ h1
      · rintro ⟨h, a, b, c⟩; exact absurd ⟨h, b, c, a⟩ h2
      · rintro ⟨h, a, b, c⟩; exact absurd ⟨h, a, c, b⟩ h1
      · rintro ⟨h, a, b, c⟩; exact absurd ⟨h, b, c, a⟩ h2

/-- The directional rule of `signalv_e.cpp`, as conditions. -/
theorem directionalSignalE_iff (use_volume : Bool) (s l rsi : ℚ) (o : Int) :
    (SignalvE.directionalSignal use_volume s l rsi o = "BUY" ↔
      s > l ∧ 50 < rsi ∧ (use_volume = true → o = 1)) ∧
    (SignalvE.directionalSignal use_volume s l rsi o = "SELL" ↔
      s < l ∧ rsi < 50 ∧ (use_volume = true → o = -1)) ∧
    (SignalvE.directionalSignal use_volume s l rsi o = "HOLD" ↔
      ¬ (s > l ∧ 50 < rsi ∧ (use_volume = true → o = 1)) ∧
      ¬ (s < l ∧ rsi < 50 ∧ (use_volume = true → o = -1))) := by
  have hbs : ("BUY" : String) ≠ "SELL" := by decide
  have hbh : ("BUY" : String) ≠ "HOLD" := by decide
  have hsh : ("SELL" : String) ≠ "HOLD" := by decide
  unfold SignalvE.directionalSignal
  cases use_volume
  · simp only [Bool.false_eq_true, if_false, false_implies, and_true]
    split_ifs with h1 h2
    · refine ⟨⟨fun _ => h1, fun _ => rfl⟩, ⟨fun h => absurd h hbs, ?_⟩,
        ⟨fun h => absurd h hbh, ?_⟩⟩
      · rintro ⟨h, _⟩; exact absurd h1.1 (not_lt.mpr h.le)
      · rintro ⟨h, _⟩; exact absurd h1 h
    · refine ⟨⟨fun h => absurd h hbs.symm, fun h => absurd h h1⟩, ⟨fun _ => h2, fun _ => rfl⟩,
        ⟨fun h => absurd h hsh, ?_⟩⟩
      rintro ⟨_, h⟩; exact absurd h2 h
    · exact ⟨⟨fun h => absurd h hbh.symm, fun h => absurd h h1⟩,
        ⟨fun h => absurd h hsh.symm, fun h => absurd h h2⟩, ⟨fun _ => ⟨h1, h2⟩, fun _ => rfl⟩⟩
  · simp only [if_true, true_implies]
    split_ifs with h1 h2
    · refine ⟨⟨fun _ => h1, fun _ => rfl⟩, ⟨fun h => absurd h hbs, ?_⟩,
        ⟨fun h => absurd h hbh, ?_⟩⟩
      · rintro ⟨h, _⟩; exact absurd h1.1 (not_lt.mpr h.le)
      · rintro ⟨h, _⟩; exact absurd h1 h
    · refine ⟨⟨fun h => absurd h hbs.symm, fun h => absurd h h1⟩, ⟨fun _ => h2, fun _ => rfl⟩,
        ⟨fun h => absurd h hsh, ?_⟩⟩
      rintro ⟨_, h⟩; exact absurd h2 h
    · exact ⟨⟨fun h => absurd h hbh.symm, fun h => absurd h h1⟩,
        ⟨fun h => absurd h hsh.symm, fun h => absurd h h2⟩, ⟨fun _ => ⟨h1, h2⟩, fun _ => rfl⟩⟩

end Signalv

/-- C22, as stated, fails on `signalv_g.cpp`: with volume available, a short
average 10 above the long average 9, an RSI of 80 (above 50) and an OBV
direction of +1, the three conditions of the claim for BUY hold, and the
directional rule of `process_ticker` gives HOLD. -/
theorem C22_rule_has_rsi_bounds :
    ((10 : ℚ) > 9 ∧ (80 : ℚ) > 50 ∧ (1 : Int) = 1) ∧
      SignalvG.directionalSignal true 10 9 80 1 = "HOLD" ∧
      SignalvG.directionalSignal true 10 9 80 1 ≠ "BUY" := by
  have h : SignalvG.directionalSignal true 10 9 80 1 = "HOLD" := by
    unfold SignalvG.directionalSignal
    norm_num
  refine ⟨⟨by norm_num, by norm_num, rfl⟩, h, ?_⟩
  rw [h]
  decide

/-- C22, amended: the directional rule of `process_ticker` in `signalv_g.cpp`
bounds the RSI on both sides.  With volume available the signal is BUY exactly
when shortSMA > longSMA, 50 < rsi < 70 and obvDirection = +1; SELL exactly when
shortSMA < longSMA, 30 < rsi < 50 and obvDirection = -1; HOLD otherwise.  With
no volume the same rule applies with the OBV conjunct dropped.  The signal of a
report of the decision step is this rule on the values of the report. -/
theorem C22_directional_rule_amended (s l rsi : ℚ) (o : Int) :
    (SignalvG.directionalSignal true s l rsi o = "BUY" ↔ s > l ∧ 50 < rsi ∧ rsi < 70 ∧ o = 1) ∧
    (SignalvG.directionalSignal true s l rsi o = "SELL" ↔ s < l ∧ 30 < rsi ∧ rsi < 50 ∧ o = -1) ∧
    (SignalvG.directionalSignal true s l rsi o = "HOLD" ↔
      ¬ (s > l ∧ 50 < rsi ∧ rsi < 70 ∧ o = 1) ∧ ¬ (s < l ∧ 30 < rsi ∧ rsi < 50 ∧ o = -1)) ∧
    (SignalvG.directionalSignal false s l rsi o = "BUY" ↔ s > l ∧ 50 < rsi ∧ rsi < 70) ∧
    (SignalvG.directionalSignal false s l rsi o = "SELL" ↔ s < l ∧ 30 < rsi ∧ rsi < 50) ∧
    (SignalvG.directionalSignal false s l rsi o = "HOLD" ↔
      ¬ (s > l ∧ 50 < rsi ∧ rsi < 70) ∧ ¬ (s < l ∧ 30 < rsi ∧ rsi < 50)) ∧
    (∀ (ticker : String) (candles : List SignalvG.Candle) (p : SignalvG.StrategyParams)
      (log log' : List String) (r : SignalvG.Report),
      SignalvG.decisionStep ticker candles p log = some (r, log') →
      r.signal = SignalvG.directionalSignal r.use_volume r.sma_short r.sma_long r.rsi
        r.obv_direction) := by
  have ht := directionalSignalG_iff true s l rsi o
  have hf := directionalSignalG_iff false s l rsi o
  simp only [true_implies, Bool.false_eq_true, false_implies, and_true] at ht hf
  refine ⟨ht.1, ht.2.1, ht.2.2, hf.1, hf.2.1, hf.2.2, ?_⟩
  intro ticker candles p log log' r h
  obtain ⟨_, _, _, _, _, _, _, _, _, hs, _, _⟩ := decisionStepG_inv _ _ _ _ _ _ h
  exact hs

namespace Signalv

/-- The directional signal of `signalv_g.cpp` is one of three texts. -/
theorem directionalSignalG_values (use_volume : Bool) (s l rsi : ℚ) (o : Int) :
    SignalvG.directionalSignal use_volume s l rsi o = "BUY" ∨
      SignalvG.directionalSignal use_volume s l rsi o = "SELL" ∨
      SignalvG.directionalSignal use_volume s l rsi o = "HOLD" := by
  unfold SignalvG.directionalSignal
  split_ifs <;> simp

/-- The directional signal of `signalv_e.cpp` is one of three texts. -/
theorem directionalSignalE_values (use_volume : Bool) (s l rsi : ℚ) (o : Int) :
    SignalvE.directionalSignal use_volume s l rsi o = "BUY" ∨
      SignalvE.directionalSignal use_volume s l rsi o = "SELL" ∨
      SignalvE.directionalSignal use_volume s l rsi o = "HOLD" := by
  unfold SignalvE.directionalSignal
  split_ifs <;> simp

/-- The trade branch of the last block of `process_ticker`. -/
theorem settleG_trade (datetime ticker signal : String) (entry atr : ℚ) (log : List String)
    (hs : signal ≠ "HOLD") :
    SignalvG.settle datetime ticker signal entry atr true log =
      ({ final_signal := signal, reason := "",
         levels := some (if signal = "BUY" then entry - 3 / 2 * atr else entry + 3 / 2 * atr,
           if signal = "BUY" then entry + 2 * atr else entry - 2 * atr) },
        logTrade datetime ticker signal entry
          (if signal = "BUY" then entry - 3 / 2 * atr else entry + 3 / 2 * atr)
          (if signal = "BUY" then entry + 2 * atr else entry - 2 * atr) log) := by
  unfold SignalvG.settle
  rw [if_pos ⟨hs, rfl⟩]

/-- The branch of the last block of `process_ticker` that makes no trade. -/
theorem settleG_hold (datetime ticker signal : String) (entry atr : ℚ) (vol : Bool)
    (log : List String) (h : signal = "HOLD" ∨ vol = false) :
    SignalvG.settle datetime ticker signal entry atr vol log =
      ({ final_signal := "HOLD",
         reason := if signal ≠ "HOLD" then " (Ignored: Low Volatility)" else "",
         levels := none }, log) := by
  unfold SignalvG.settle
  have hc : ¬ (signal ≠ "HOLD" ∧ vol = true) := by
    rintro ⟨h1, h2⟩
    rcases h with h | h
    · exact h1 h
    · rw [h] at h2; exact Bool.false_ne_true h2
  rw [if_neg hc]
  rcases h with h | h
  · simp [h]
  · simp [h]

/-- The levels of a trade of `signalv_g.cpp`. -/
theorem decisionStepG_levels (ticker : String) (candles : List SignalvG.Candle)
    (p : SignalvG.StrategyParams) (log log' : List String) (r : SignalvG.Report)
    (h : SignalvG.decisionStep ticker candles p log = some (r, log'))
    (hne : r.outcome.final_signal ≠ "HOLD") :
    ∃ last, candles.getLast? = some last ∧ r.signal = r.outcome.final_signal ∧
      r.is_volatile_enough = true ∧
      ((r.outcome.final_signal = "BUY" ∧
          r.outcome.levels = some (last.close - 3 / 2 * last.atr, last.close + 2 * last.atr) ∧
          log' = logTrade last.datetime ticker "BUY" last.close (last.close - 3 / 2 * last.atr)
            (last.close + 2 * last.atr) log) ∨
        (r.outcome.final_signal = "SELL" ∧
          r.outcome.levels = some (last.close + 3 / 2 * last.atr, last.close - 2 * last.atr) ∧
          log' = logTrade last.datetime ticker "SELL" last.close (last.close + 3 / 2 * last.atr)
            (last.close - 2 * last.atr) log)) := by
  obtain ⟨last, hl, _, _, _, _, _, _, _, hs, hset, _⟩ := decisionStepG_inv _ _ _ _ _ _ h
  have hsb : ("SELL" : String) ≠ "BUY" := by decide
  have hsh : ("SELL" : String) ≠ "HOLD" := by decide
  have hbh : ("BUY" : String) ≠ "HOLD" := by decide
  refine ⟨last, hl, ?_⟩
  by_cases hc : r.signal = "HOLD" ∨ r.is_volatile_enough = false
  · rw [settleG_hold _ _ _ _ _ _ _ hc] at hset
    have := congrArg (fun x => x.1.final_signal) hset
    exact absurd this hne
  · have hc1 : r.signal ≠ "HOLD" := fun h => hc (Or.inl h)
    have hc2 : r.is_volatile_enough = true := by
      cases hv : r.is_volatile_enough
      · exact absurd (Or.inr hv) hc
      · rfl
    rw [hc2, settleG_trade _ _ _ _ _ _ hc1] at hset
    have h1 := congrArg (fun x => x.1.final_signal) hset
    have h2 := congrArg (fun x => x.1.levels) hset
    have h3 := congrArg (fun x => x.2) hset
    simp only at h1 h2 h3
    refine ⟨h1.symm, hc2, ?_⟩
    have hv := directionalSignalG_values r.use_volume r.sma_short r.sma_long r.rsi r.obv_direction
    rw [← hs] at hv
    rcases hv with hv | hv | hv
    · left
      rw [hv] at h1 h2 h3
      simp only [if_true] at h2 h3
      exact ⟨h1, h2, h3⟩
    · right
      rw [hv] at h1 h2 h3
      simp only [if_neg hsb] at h2 h3
      exact ⟨h1, h2, h3⟩
    · exact absurd hv hc1

/-- The levels of a trade of `signalv_e.cpp`. -/
theorem decisionStepE_levels (ticker : String) (candles : List SignalvE.Candle)
    (p : SignalvE.StrategyParams) (log log' : List String) (r : SignalvE.Report)
    (h : SignalvE.decisionStep ticker candles p log = some (r, log'))
    (hne : r.signal ≠ "HOLD") :
    ∃ last, candles.getLast? = some last ∧ r.entry = last.close ∧
      SignalvE.computeATR candles (sizePred candles.length) p.atr_period = some r.atr ∧
      ((r.signal = "BUY" ∧ r.sl = r.entry - 3 / 2 * r.atr ∧ r.tp = r.entry + 2 * r.atr ∧
          log' = logTrade last.datetime ticker "BUY" r.entry (r.entry - 3 / 2 * r.atr)
            (r.entry + 2 * r.atr) log) ∨
        (r.signal = "SELL" ∧ r.sl = r.entry + 3 / 2 * r.atr ∧ r.tp = r.entry - 2 * r.atr ∧
          log' = logTrade last.datetime ticker "SELL" r.entry (r.entry + 3 / 2 * r.atr)
            (r.entry - 2 * r.atr) log)) := by
  obtain ⟨last, hl, _, _, _, ha, _, _, hs, he, hset, _⟩ := decisionStepE_inv _ _ _ _ _ _ h
  have hsb : ("SELL" : String) ≠ "BUY" := by decide
  refine ⟨last, hl, he, ha, ?_⟩
  unfold SignalvE.settle at hset
  rw [if_pos hne, ← he] at hset
  have h1 := congrArg (fun x => x.1.1) hset
  have h2 := congrArg (fun x => x.1.2) hset
  have h3 := congrArg (fun x => x.2) hset
  simp only at h1 h2 h3
  have hv := directionalSignalE_values r.use_volume r.sma_short r.sma_long r.rsi r.obv_direction
  rw [← hs] at hv
  rcases hv with hv | hv | hv
  · left
    rw [hv] at h1 h2 h3
    simp only [if_true] at h1 h2 h3
    exact ⟨hv, h1, h2, h3⟩
  · right
    rw [hv] at h1 h2 h3
    simp only [if_neg hsb] at h1 h2 h3
    exact ⟨hv, h1, h2, h3⟩
  · exact absurd hv hne

/-- The decision step of `signalv_g.cpp` on three bars with the closes 100, 98,
101, no volume, the ATR `atr` on the last bar and the periods 1, 2, 2, up to
the last block. -/
theorem decisionStepG_three_bars (atr pct : ℚ) (log : List String)
    (hp : SignalvG.atrPercent atr 101 = some pct) :
    SignalvG.decisionStep "EURUSD"
      (([100, 98, 101] : List ℚ).map (fun c => ⟨"d", c, c, c, c, 0, atr⟩))
      { sma_short := 1, sma_long := 2, rsi_period := 2 } log =
    some ({ optimal_params := { sma_short := 1, sma_long := 2, rsi_period := 2 },
            current_atr_percent := pct, is_volatile_enough := decide (pct > 1 / 10),
            sma_short := 101, sma_long := 199 / 2, rsi := 60, use_volume := false,
            obv_direction := 0, signal := "BUY",
            outcome := (SignalvG.settle "d" "EURUSD" "BUY" 101 atr (decide (pct > 1 / 10)) log).1,
            high_volatility := decide (pct > 3 / 10 ∧ pct < 1 / 2),
            extreme_volatility := decide (pct > 1 / 2) },
          (SignalvG.settle "d" "EURUSD" "BUY" 101 atr (decide (pct > 1 / 10)) log).2) := by
  simp [SignalvG.decisionStep, hp, SignalvG.computeSMA, SignalvG.computeRSI,
    SignalvG.accumulate, SignalvG.needsPrevious, SignalvG.rsiBody, SignalvG.hasVolumeData,
    SignalvG.directionalSignal, smaInsufficient, sizePred, sizeSucc, toSizeT,
    wrapInt, wrapLL, forLoop, sumBody]
  norm_num

end Signalv

namespace Signalv

/-- The truncation of `process_ticker`: for a non-negative ATR, a positive
close and a scaled value below `2^31`, the result is `k / 1000` for the integer
part `k` of `atr / entry * 100 * 1000`. -/
theorem atrPercent_eq (atr entry : ℚ) (ha : 0 ≤ atr) (he : 0 < entry)
    (hr : atr / entry * 100 * 1000 < 2147483648) :
    0 ≤ ⌊atr / entry * 100 * 1000⌋ ∧
    SignalvG.atrPercent atr entry = some ((⌊atr / entry * 100 * 1000⌋ : ℚ) / 1000) := by
  have h0 : 0 ≤ atr / entry * 100 * 1000 := by positivity
  have hk0 : 0 ≤ ⌊atr / entry * 100 * 1000⌋ := Int.floor_nonneg.mpr h0
  have hk1 : ⌊atr / entry * 100 * 1000⌋ < 2147483648 := by
    rw [Int.floor_lt]
    exact_mod_cast hr
  refine ⟨hk0, ?_⟩
  unfold SignalvG.atrPercent
  rw [if_neg he.ne']
  simp only [if_pos h0]
  rw [if_pos ⟨by omega, by omega⟩]

/-- Two values of the truncation on the close 101. -/
theorem atrPercent_examples :
    SignalvG.atrPercent 1 101 = some (99 / 100) ∧
      SignalvG.atrPercent (1 / 20) 101 = some (49 / 1000) := by
  have e1 : ⌊(1 : ℚ) / 101 * 100 * 1000⌋ = 990 := by norm_num [Int.floor_eq_iff]
  have e2 : ⌊(1 : ℚ) / 20 / 101 * 100 * 1000⌋ = 49 := by norm_num [Int.floor_eq_iff]
  constructor
  · rw [(atrPercent_eq 1 101 (by norm_num) (by norm_num) (by norm_num)).2, e1]
    norm_num
  · rw [(atrPercent_eq (1 / 20) 101 (by norm_num) (by norm_num) (by norm_num)).2, e2]
    norm_num

end Signalv

/-- C23 (stop-loss and take-profit): whenever the final decision is not HOLD,
a BUY has stopLoss = entry - 1.5 * atr and takeProfit = entry + 2.0 * atr, and
a SELL has stopLoss = entry + 1.5 * atr and takeProfit = entry - 2.0 * atr,
where entry is the last close; the trade logged has these values.  In
`signalv_g.cpp` the ATR is the one of the last bar, in `signalv_e.cpp` it is
`computeATR` at the last index.  In particular shortSMA = 10, longSMA = 9,
rsi = 60 and obvDirection = +1, with atrPercent above the threshold, give BUY
with exactly these levels. -/
theorem C23_trade_levels :
    (∀ (ticker : String) (candles : List SignalvG.Candle) (p : SignalvG.StrategyParams)
      (log log' : List String) (r : SignalvG.Report),
      SignalvG.decisionStep ticker candles p log = some (r, log') →
      r.outcome.final_signal ≠ "HOLD" →
      ∃ last, candles.getLast? = some last ∧
        ((r.outcome.final_signal = "BUY" ∧
            r.outcome.levels = some (last.close - 3 / 2 * last.atr, last.close + 2 * last.atr) ∧
            log' = logTrade last.datetime ticker "BUY" last.close
              (last.close - 3 / 2 * last.atr) (last.close + 2 * last.atr) log) ∨
          (r.outcome.final_signal = "SELL" ∧
            r.outcome.levels = some (last.close + 3 / 2 * last.atr, last.close - 2 * last.atr) ∧
            log' = logTrade last.datetime ticker "SELL" last.close
              (last.close + 3 / 2 * last.atr) (last.close - 2 * last.atr) log))) ∧
    (∀ (ticker : String) (candles : List SignalvE.Candle) (p : SignalvE.StrategyParams)
      (log log' : List String) (r : SignalvE.Report),
      SignalvE.decisionStep ticker candles p log = some (r, log') →
      r.signal ≠ "HOLD" →
      ∃ last, candles.getLast? = some last ∧ r.entry = last.close ∧
        SignalvE.computeATR candles (sizePred candles.length) p.atr_period = some r.atr ∧
        ((r.signal = "BUY" ∧ r.sl = r.entry - 3 / 2 * r.atr ∧ r.tp = r.entry + 2 * r.atr ∧
            log' = logTrade last.datetime ticker "BUY" r.entry (r.entry - 3 / 2 * r.atr)
              (r.entry + 2 * r.atr) log) ∨
          (r.signal = "SELL" ∧ r.sl = r.entry + 3 / 2 * r.atr ∧ r.tp = r.entry - 2 * r.atr ∧
            log' = logTrade last.datetime ticker "SELL" r.entry (r.entry + 3 / 2 * r.atr)
              (r.entry - 2 * r.atr) log))) ∧
    (∀ (datetime ticker : String) (entry atr : ℚ) (log : List String),
      SignalvG.directionalSignal true 10 9 60 1 = "BUY" ∧
      SignalvG.settle datetime ticker (SignalvG.directionalSignal true 10 9 60 1) entry atr true
          log =
        ({ final_signal := "BUY", reason := "",
           levels := some (entry - 3 / 2 * atr, entry + 2 * atr) },
          logTrade datetime ticker "BUY" entry (entry - 3 / 2 * atr) (entry + 2 * atr) log) ∧
      SignalvE.directionalSignal true 10 9 60 1 = "BUY" ∧
      SignalvE.settle datetime ticker (SignalvE.directionalSignal true 10 9 60 1) entry atr log =
        ((entry - 3 / 2 * atr, entry + 2 * atr),
          logTrade datetime ticker "BUY" entry (entry - 3 / 2 * atr) (entry + 2 * atr) log)) := by
  refine ⟨?_, ?_, ?_⟩
  · intro ticker candles p log log' r h hne
    obtain ⟨last, hl, _, _, hc⟩ := decisionStepG_levels _ _ _ _ _ _ h hne
    exact ⟨last, hl, hc⟩
  · intro ticker candles p log log' r h hne
    exact decisionStepE_levels _ _ _ _ _ _ h hne
  · intro datetime ticker entry atr log
    have hbh : ("BUY" : String) ≠ "HOLD" := by decide
    have hg : SignalvG.directionalSignal true 10 9 60 1 = "BUY" :=
      (directionalSignalG_iff true 10 9 60 1).1.mpr
        ⟨by norm_num, by norm_num, by norm_num, fun _ => rfl⟩
    have he : SignalvE.directionalSignal true 10 9 60 1 = "BUY" :=
      (directionalSignalE_iff true 10 9 60 1).1.mpr ⟨by norm_num, by norm_num, fun _ => rfl⟩
    refine ⟨hg, ?_, he, ?_⟩
    · rw [hg, settleG_trade _ _ _ _ _ _ hbh]
      simp
    · rw [he]
      unfold SignalvE.settle
      rw [if_pos hbh]
      simp

/-- C23 on three bars with the closes 100, 98, 101 and the ATR 1 on the last
bar: the decision step of `signalv_g.cpp` trades a BUY at 101 with the stop
99.5 and the target 103. -/
theorem C23_trade_levels_witness :
    ∃ last, (([100, 98, 101] : List ℚ).map
        (fun c => (⟨"d", c, c, c, c, 0, 1⟩ : SignalvG.Candle))).getLast? = some last ∧
      ((("BUY" : String) = "BUY" ∧
          some ((199 : ℚ) / 2, (103 : ℚ))
            = some (last.close - 3 / 2 * last.atr, last.close + 2 * last.atr) ∧
          logTrade "d" "EURUSD" "BUY" 101 (199 / 2) 103 []
            = logTrade last.datetime "EURUSD" "BUY" last.close
              (last.close - 3 / 2 * last.atr) (last.close + 2 * last.atr) []) ∨
        (("BUY" : String) = "SELL" ∧
          some ((199 : ℚ) / 2, (103 : ℚ))
            = some (last.close + 3 / 2 * last.atr, last.close - 2 * last.atr) ∧
          logTrade "d" "EURUSD" "BUY" 101 (199 / 2) 103 []
            = logTrade last.datetime "EURUSD" "SELL" last.close
              (last.close + 3 / 2 * last.atr) (last.close - 2 * last.atr) [])) :=
  C23_trade_levels.1 "EURUSD"
    (([100, 98, 101] : List ℚ).map (fun c => ⟨"d", c, c, c, c, 0, 1⟩))
    { sma_short := 1, sma_long := 2, rsi_period := 2 } []
    (logTrade "d" "EURUSD" "BUY" 101 (199 / 2) 103 [])
    { optimal_params := { sma_short := 1, sma_long := 2, rsi_period := 2 },
      current_atr_percent := 99 / 100, is_volatile_enough := true,
      sma_short := 101, sma_long := 199 / 2, rsi := 60, use_volume := false,
      obv_direction := 0, signal := "BUY",
      outcome := { final_signal := "BUY", reason := "", levels := some (199 / 2, 103) },
      high_volatility := false, extreme_volatility := true }
    (by
      rw [decisionStepG_three_bars 1 (99 / 100) [] atrPercent_examples.1,
        show decide ((99 : ℚ) / 100 > 1 / 10) = true by norm_num,
        settleG_trade _ _ _ _ _ _ (by decide)]
      norm_num)
    (by decide)

/-- C21 on a history of one bar: the optimizer is run on the empty history. -/
theorem C21_optimizer_ignores_last_bar_witness :
    SignalvG.optimalParams ([] ++ [(⟨"d", 1, 1, 1, 1, 0, 1⟩ : SignalvG.Candle)])
        (fun _ => ⟨5, 5, 7⟩)
      = SignalvG.optimalParams ([] ++ [(⟨"e", 2, 2, 2, 2, 9, 3⟩ : SignalvG.Candle)])
        (fun _ => ⟨5, 5, 7⟩) :=
  ((C21_optimizer_ignores_last_bar (fun _ => ⟨5, 5, 7⟩)).1 [] ⟨"d", 1, 1, 1, 1, 0, 1⟩
    ⟨"e", 2, 2, 2, 2, 9, 3⟩).2.1

/-- C22, amended, at shortSMA = 10, longSMA = 9, rsi = 60, obvDirection = +1:
the rule gives BUY. -/
theorem C22_directional_rule_amended_witness :
    SignalvG.directionalSignal true 10 9 60 1 = "BUY" :=
  (C22_directional_rule_amended 10 9 60 1).1.mpr ⟨by norm_num, by norm_num, by norm_num, rfl⟩

/-- C24 (volatility gate): whenever the atrPercent of a report of the decision
step of `signalv_g.cpp` is below the minimum threshold 0.10, the final signal
is HOLD whatever the directional rule produced, no levels are computed, the
reason ` (Ignored: Low Volatility)` is recorded exactly when the directional
result was not HOLD, and `logTrade` is not called: the trade log is
unchanged. -/
theorem C24_volatility_gate (ticker : String) (candles : List SignalvG.Candle)
    (p : SignalvG.StrategyParams) (log log' : List String) (r : SignalvG.Report)
    (h : SignalvG.decisionStep ticker candles p log = some (r, log'))
    (hlow : r.current_atr_percent < 1 / 10) :
    r.outcome.final_signal = "HOLD" ∧ r.outcome.levels = none ∧ log' = log ∧
      (r.signal ≠ "HOLD" → r.outcome.reason = " (Ignored: Low Volatility)") ∧
      (r.signal = "HOLD" → r.outcome.reason = "") := by
  obtain ⟨last, _, _, hv, _, _, _, _, _, _, hset, _⟩ := decisionStepG_inv _ _ _ _ _ _ h
  have hv' : r.is_volatile_enough = false := by
    rw [hv, decide_eq_false_iff_not]
    exact not_lt.mpr hlow.le
  rw [settleG_hold _ _ _ _ _ _ _ (Or.inr hv')] at hset
  have h1 := congrArg (fun x => x.1.final_signal) hset
  have h2 := congrArg (fun x => x.1.levels) hset
  have h3 := congrArg (fun x => x.2) hset
  have h4 := congrArg (fun x => x.1.reason) hset
  simp only at h1 h2 h3 h4
  refine ⟨h1, h2, h3, ?_, ?_⟩
  · intro hs
    rw [h4, if_pos hs]
  · intro hs
    rw [h4, if_neg (not_not.mpr hs)]

/-- C24 on three bars with the closes 100, 98, 101 and the ATR 0.05 on the last
bar: the directional rule gives BUY, the atrPercent is 0.049, and the final
signal is HOLD with the trade log unchanged. -/
theorem C24_volatility_gate_witness :
    ("HOLD" : String) = "HOLD" ∧ (none : Option (ℚ × ℚ)) = none ∧
      ["Datetime,Ticker,Signal,Entry,StopLoss,TakeProfit"]
        = ["Datetime,Ticker,Signal,Entry,StopLoss,TakeProfit"] ∧
      (("BUY" : String) ≠ "HOLD" →
        (" (Ignored: Low Volatility)" : String) = " (Ignored: Low Volatility)") ∧
      (("BUY" : String) = "HOLD" → (" (Ignored: Low Volatility)" : String) = "") :=
  C24_volatility_gate "EURUSD"
    (([100, 98, 101] : List ℚ).map (fun c => ⟨"d", c, c, c, c, 0, 1 / 20⟩))
    { sma_short := 1, sma_long := 2, rsi_period := 2 }
    ["Datetime,Ticker,Signal,Entry,StopLoss,TakeProfit"]
    ["Datetime,Ticker,Signal,Entry,StopLoss,TakeProfit"]
    { optimal_params := { sma_short := 1, sma_long := 2, rsi_period := 2 },
      current_atr_percent := 49 / 1000, is_volatile_enough := false,
      sma_short := 101, sma_long := 199 / 2, rsi := 60, use_volume := false,
      obv_direction := 0, signal := "BUY",
      outcome := { final_signal := "HOLD", reason := " (Ignored: Low Volatility)",
                   levels := none },
      high_volatility := false, extreme_volatility := false }
    (by
      rw [decisionStepG_three_bars (1 / 20) (49 / 1000) _ atrPercent_examples.2,
        show decide ((49 : ℚ) / 1000 > 1 / 10) = false by norm_num,
        settleG_hold _ _ _ _ _ _ _ (Or.inr rfl)]
      simp [(by decide : ("BUY" : String) ≠ "HOLD")]
      norm_num)
    (by norm_num)

namespace Signalv

/-! ## Indicators on a strictly increasing series -/

/-- On a strictly increasing series every step inside the vector is a gain. -/
theorem change_pos_of_increasing (closes : List ℚ) (hinc : closes.Pairwise (· < ·)) (i : Nat)
    (hi1 : 1 ≤ i) (hi : i < closes.length) : 0 < change closes i := by
  unfold change
  rw [List.getD_eq_getElem _ _ hi, List.getD_eq_getElem _ _ (by omega : i - 1 < closes.length)]
  have := (List.pairwise_iff_getElem.mp hinc) (i - 1) i (by omega) hi (by omega)
  linarith

/-- On a strictly increasing series the losses of a window sum to zero. -/
theorem lossSum_of_increasing (closes : List ℚ) (hinc : closes.Pairwise (· < ·)) (e p : Nat)
    (hpe : p ≤ e) (he : e < closes.length) : lossSum closes e p = 0 := by
  unfold lossSum
  apply List.sum_eq_zero
  intro x hx
  rw [List.mem_map] at hx
  obtain ⟨i, hi, rfl⟩ := hx
  rw [List.mem_range'_1] at hi
  have hpos := change_pos_of_increasing closes hinc i (by omega) (by omega)
  unfold lossAt
  rw [if_neg (not_le.mpr hpos)]

/-- A non-empty list whose elements are all below `c` sums to less than
`length * c`. -/
theorem sum_lt_length_mul (xs : List ℚ) (c : ℚ) (hne : xs ≠ []) (h : ∀ x ∈ xs, x < c) :
    xs.sum < (xs.length : ℚ) * c := by
  induction xs with
  | nil => exact absurd rfl hne
  | cons x rest ih =>
    have hx := h x (List.mem_cons_self _ _)
    by_cases hr : rest = []
    · subst hr
      simpa using hx
    · have := ih hr (fun y hy => h y (List.mem_cons_of_mem _ hy))
      simp only [List.sum_cons, List.length_cons, Nat.cast_add, Nat.cast_one]
      linarith

/-- A non-empty list whose elements are all above `c` sums to more than
`length * c`. -/
theorem length_mul_lt_sum (xs : List ℚ) (c : ℚ) (hne : xs ≠ []) (h : ∀ x ∈ xs, c < x) :
    (xs.length : ℚ) * c < xs.sum := by
  induction xs with
  | nil => exact absurd rfl hne
  | cons x rest ih =>
    have hx := h x (List.mem_cons_self _ _)
    by_cases hr : rest = []
    · subst hr
      simpa using hx
    · have := ih hr (fun y hy => h y (List.mem_cons_of_mem _ hy))
      simp only [List.sum_cons, List.length_cons, Nat.cast_add, Nat.cast_one]
      linarith

/-- When every element of `older` is below every element of `recent`, both
non-empty, the mean of `recent` exceeds the mean of `older ++ recent`. -/
theorem mean_append_lt (older recent : List ℚ) (ho : older ≠ []) (hr : recent ≠ [])
    (h : ∀ x ∈ older, ∀ y ∈ recent, x < y) : mean (older ++ recent) < mean recent := by
  have hb : (0 : ℚ) < (recent.length : ℚ) := by
    exact_mod_cast List.length_pos.mpr hr
  have ha : (0 : ℚ) < (older.length : ℚ) := by
    exact_mod_cast List.length_pos.mpr ho
  have h1 : ∀ x ∈ older, x < recent.sum / (recent.length : ℚ) := by
    intro x hx
    rw [lt_div_iff₀ hb]
    have := length_mul_lt_sum recent x hr (fun y hy => h x hx y hy)
    linarith
  have h2 := sum_lt_length_mul older _ ho h1
  unfold mean
  rw [List.sum_append, List.length_append, Nat.cast_add, div_lt_div_iff₀ (by linarith) hb]
  have h3 : (older.length : ℚ) * (recent.sum / (recent.length : ℚ)) * (recent.length : ℚ)
      = (older.length : ℚ) * recent.sum := by
    field_simp
  nlinarith

/-- The long window is the short window preceded by the older prices. -/
theorem window_split (prices : List ℚ) (e s l : Nat) (hsl : s ≤ l) (hle : l ≤ e + 1) :
    window prices e l = (prices.drop (e + 1 - l)).take (l - s) ++ window prices e s := by
  unfold window
  have h1 : l = (l - s) + s := by omega
  have h2 : e + 1 - s = (e + 1 - l) + (l - s) := by omega
  conv_lhs => rw [h1, List.take_add]
  rw [List.drop_drop, h2]
  congr 3
  all_goals omega

/-- On a strictly increasing series the mean of a shorter window at the same
end exceeds the mean of a longer one. -/
theorem mean_window_lt (prices : List ℚ) (hinc : prices.Pairwise (· < ·)) (e s l : Nat)
    (hs : 1 ≤ s) (hsl : s < l) (hle : l ≤ e + 1) (he : e < prices.length) :
    mean (window prices e l) < mean (window prices e s) := by
  have hsplit := window_split prices e s l hsl.le hle
  have hsub : (window prices e l).Sublist prices := by
    unfold window
    exact (List.take_sublist _ _).trans (List.drop_sublist _ _)
  have hpw := hinc.sublist hsub
  rw [hsplit, List.pairwise_append] at hpw
  rw [hsplit]
  apply mean_append_lt
  · intro h0
    have := congrArg List.length h0
    rw [List.length_take, List.length_drop] at this
    simp only [List.length_nil] at this
    omega
  · intro h0
    have := congrArg List.length h0
    rw [window_length prices e s he (by omega)] at this
    simp only [List.length_nil] at this
    omega
  · exact hpw.2.2

end Signalv

/-- C26 (on an uptrend RSI is 100): for every strictly increasing close series
and every period with `1 ≤ period ≤ e < closes.size()` (the size below `2^64`,
the period plus one an `int`), `computeRSI(closes, e, period)` of
`signalv_g.cpp` returns 100, as does the one of `signalv_e.cpp`. -/
theorem C26_computeRSI_uptrend (closes : List ℚ) (e period : Nat)
    (hinc : closes.Pairwise (· < ·)) (hlen : closes.length < 2 ^ 64)
    (hpi : period + 1 < 2 ^ 31) (hp : 1 ≤ period) (hpe : period ≤ e) (he : e < closes.length) :
    SignalvG.computeRSI closes e (period : Int) = some 100 ∧
      SignalvE.computeRSI closes e (period : Int) = some 100 := by
  obtain ⟨hE, hG⟩ := computeRSI_eq_rsiSpec closes e period hlen hpi hp hpe he
  rw [hE, hG, rsiSpec_of_lossSum_zero closes e period
    (lossSum_of_increasing closes hinc e period hpe he)]
  exact ⟨rfl, rfl⟩

/-- C26 on the closes 1, 2, 3, 4 with the period 2 at the last index. -/
theorem C26_computeRSI_uptrend_witness :
    SignalvG.computeRSI [1, 2, 3, 4] 3 ((2 : Nat) : Int) = some 100 ∧
      SignalvE.computeRSI [1, 2, 3, 4] 3 ((2 : Nat) : Int) = some 100 :=
  C26_computeRSI_uptrend [1, 2, 3, 4] 3 2 (by norm_num) (by simp) (by norm_num) (by norm_num)
    (by norm_num) (by simp)

namespace Signalv

/-! ## The volume indicators on an uptrend with constant volume -/

/-- On strictly increasing closes with the constant volume `v`, every bar after
the first has the signed volume `v`. -/
theorem signedVolume_uptrend (bars : List (ℚ × Int)) (v : Int)
    (hinc : (bars.map Prod.fst).Pairwise (· < ·)) (hv : ∀ b ∈ bars, b.2 = v) (i : Nat)
    (h1 : 1 ≤ i) (hi : i < bars.length) : signedVolume bars i = v := by
  have hi' : i - 1 < bars.length := by omega
  have hlt := (List.pairwise_iff_getElem.mp hinc) (i - 1) i (by simpa using hi')
    (by simpa using hi) (by omega)
  simp only [List.getElem_map] at hlt
  unfold signedVolume
  rw [List.getElem?_eq_getElem hi, List.getElem?_eq_getElem hi']
  simp only []
  rw [if_pos hlt]
  exact hv _ (List.getElem_mem _)

/-- The running series of the last `p` bars of such a history is `v, 2v, …`. -/
theorem obvSeries_uptrend (bars : List (ℚ × Int)) (v : Int)
    (hinc : (bars.map Prod.fst).Pairwise (· < ·)) (hv : ∀ b ∈ bars, b.2 = v) (p : Nat)
    (hp : p + 1 ≤ bars.length) :
    obvSeries bars p = (List.range p).map (fun (k : Nat) => ((k : Int) + 1) * v) := by
  unfold obvSeries
  apply List.map_congr_left
  intro k hk
  rw [List.mem_range] at hk
  rw [List.sum_eq_card_nsmul _ v]
  · simp
  · intro x hx
    rw [List.mem_map] at hx
    obtain ⟨i, hi, rfl⟩ := hx
    rw [List.mem_range'_1] at hi
    exact signedVolume_uptrend bars v hinc hv i (by omega) (by omega)

/-- The 14-bar OBV direction of such a history is `+1`, and the series stays
inside `long long`. -/
theorem obv_uptrend (bars : List (ℚ × Int)) (v : Int)
    (hinc : (bars.map Prod.fst).Pairwise (· < ·)) (hv : ∀ b ∈ bars, b.2 = v)
    (hpos : 0 < v) (hsmall : 14 * v < 2 ^ 63) (hlen : 15 ≤ bars.length) :
    (∀ x ∈ obvSeries bars 14, -2 ^ 63 ≤ x ∧ x < 2 ^ 63) ∧ obvDirectionSpec bars 14 = 1 := by
  have hs := obvSeries_uptrend bars v hinc hv 14 hlen
  constructor
  · intro x hx
    rw [hs, List.mem_map] at hx
    obtain ⟨k, hk, rfl⟩ := hx
    rw [List.mem_range] at hk
    constructor <;> nlinarith
  · unfold obvDirectionSpec
    rw [if_neg (by omega), hs]
    simp [List.range_succ]
    intro h
    omega

/-- The total volume of a history with the constant volume `v`. -/
theorem sum_const_volume (vols : List Int) (v : Int) (hv : ∀ x ∈ vols, x = v) :
    vols.sum = (vols.length : Int) * v := by
  rw [List.sum_eq_card_nsmul _ v hv]
  simp

end Signalv

namespace Signalv

/-- The decision step of `signalv_g.cpp` on a 120-bar uptrend with constant
positive volume and the periods 5, 20, 14: the short average leads, the RSI is
100, the OBV direction is `+1`, and the directional rule gives HOLD. -/
theorem decisionStepG_uptrend (ticker : String) (candles : List SignalvG.Candle)
    (log : List String) (v : Int) (last : SignalvG.Candle) (pct : ℚ)
    (hlen : candles.length = 120)
    (hinc : (candles.map SignalvG.Candle.close).Pairwise (· < ·))
    (hv : ∀ c ∈ candles, c.volume = v) (hpos : 0 < v) (hsmall : 120 * v < 2 ^ 63)
    (hl : candles.getLast? = some last)
    (hp : SignalvG.atrPercent last.atr last.close = some pct) :
    ∃ r, SignalvG.decisionStep ticker candles
        { sma_short := 5, sma_long := 20, rsi_period := 14 } log = some (r, log) ∧
      r.sma_short > r.sma_long ∧ r.rsi = 100 ∧ r.use_volume = true ∧ r.obv_direction = 1 ∧
      r.current_atr_percent = pct ∧ r.is_volatile_enough = decide (pct > 1 / 10) ∧
      r.signal = "HOLD" ∧
      r.outcome = { final_signal := "HOLD", reason := "", levels := none } := by
  have hcl : (candles.map SignalvG.Candle.close).length = 120 := by
    rw [List.length_map, hlen]
  have hsp : sizePred 120 = 119 := by
    unfold sizePred toSizeT
    omega
  have h5 : SignalvG.computeSMA (candles.map SignalvG.Candle.close) 119 5
      = some (mean (window (candles.map SignalvG.Candle.close) 119 5)) := by
    simpa using computeSMAG_eq_mean (candles.map SignalvG.Candle.close) 119 5
      (by rw [hcl]; norm_num) (by rw [hcl]; norm_num) (by norm_num) (by norm_num)
  have h20 : SignalvG.computeSMA (candles.map SignalvG.Candle.close) 119 20
      = some (mean (window (candles.map SignalvG.Candle.close) 119 20)) := by
    simpa using computeSMAG_eq_mean (candles.map SignalvG.Candle.close) 119 20
      (by rw [hcl]; norm_num) (by rw [hcl]; norm_num) (by norm_num) (by norm_num)
  have hlt := mean_window_lt (candles.map SignalvG.Candle.close) hinc 119 5 20 (by norm_num)
    (by norm_num) (by norm_num) (by rw [hcl]; norm_num)
  have hr : SignalvG.computeRSI (candles.map SignalvG.Candle.close) 119 14 = some 100 := by
    have h := (computeRSI_eq_rsiSpec (candles.map SignalvG.Candle.close) 119 14
      (by rw [hcl]; norm_num) (by norm_num) (by norm_num) (by norm_num)
      (by rw [hcl]; norm_num)).2
    rw [rsiSpec_of_lossSum_zero _ _ _
      (lossSum_of_increasing _ hinc 119 14 (by norm_num) (by rw [hcl]; norm_num))] at h
    simpa using h
  have hvol : SignalvG.hasVolumeData candles = true := by
    rw [hasVolumeDataG_eq, sum_const_volume _ v (by
      intro x hx
      rw [List.mem_map] at hx
      obtain ⟨c, hc, rfl⟩ := hx
      exact hv c hc), List.length_map, hlen, wrapLL_of_range _ (by push_cast; omega)
        (by push_cast; omega)]
    simp only [decide_eq_true_eq]
    push_cast
    omega
  have hbars : ((candles.map barG).map Prod.fst) = candles.map SignalvG.Candle.close := by
    rw [List.map_map]
    rfl
  have hob := obv_uptrend (candles.map barG) v (by rw [hbars]; exact hinc) (by
      intro b hb
      rw [List.mem_map] at hb
      obtain ⟨c, hc, rfl⟩ := hb
      exact hv c hc) hpos (by omega) (by rw [List.length_map, hlen]; norm_num)
  have hobv : SignalvG.computeOBVDirection candles 14 = some 1 := by
    have h := computeOBVDirectionG_eq candles 14 (by rw [hlen]; norm_num) (by norm_num)
      (by norm_num) hob.1
    rw [hob.2] at h
    simpa using h
  have hsig : SignalvG.directionalSignal true
      (mean (window (candles.map SignalvG.Candle.close) 119 5))
      (mean (window (candles.map SignalvG.Candle.close) 119 20)) 100 1 = "HOLD" := by
    rw [(directionalSignalG_iff _ _ _ _ _).2.2]
    constructor
    · rintro ⟨_, _, h, _⟩
      norm_num at h
    · rintro ⟨_, _, h, _⟩
      norm_num at h
  unfold SignalvG.decisionStep
  simp only [hl, hp, hcl, hsp, h5, h20, hr, hvol, if_true, hobv, hsig,
    settleG_hold _ _ _ _ _ _ _ (Or.inl rfl)]
  refine ⟨_, rfl, hlt, rfl, rfl, rfl, rfl, rfl, rfl, ?_⟩
  simp

end Signalv

namespace Signalv

/-- `computeATR` on a full window is the mean of the true ranges. -/
theorem computeATR_eq_mean (candles : List SignalvE.Candle) (e p : Nat)
    (hlen : candles.length < 2 ^ 64) (hpi : p + 1 < 2 ^ 31) (hp : 1 ≤ p) (hpe : p ≤ e)
    (he : e < candles.length) :
    SignalvE.computeATR candles e (p : Int) = some (mean (trueRangeWindow candles e p)) := by
  have he1 : e + 1 < 2 ^ 64 := by omega
  have hstart := toSizeT_window_start e p he1 (by omega)
  have hcnt : e + 1 - (e + 1 - p) = p := by omega
  have hloop := forLoop_atrBody candles hlen p (e + 1 - p) 0 (by omega) (by omega)
  have hwl : (trueRangeWindow candles e p).length = p := by
    unfold trueRangeWindow
    rw [List.length_map, List.length_range']
  unfold SignalvE.computeATR
  rw [if_neg (not_needsPreviousE e p he1 hpi hpe)]
  simp only [hstart, hcnt, hloop, zero_add, Int.cast_natCast, mean]
  rw [hwl]
  rfl

/-- The decision step of `signalv_e.cpp` on a 120-bar uptrend with constant
positive volume and the periods 5, 20, 14, 14: the short average leads, the RSI
is 100, the OBV direction is `+1`, and the signal is BUY. -/
theorem decisionStepE_uptrend (ticker : String) (candles : List SignalvE.Candle)
    (log : List String) (v : Int) (last : SignalvE.Candle)
    (hlen : candles.length = 120)
    (hinc : (candles.map SignalvE.Candle.close).Pairwise (· < ·))
    (hv : ∀ c ∈ candles, c.volume = v) (hpos : 0 < v) (hsmall : 120 * v < 2 ^ 63)
    (hl : candles.getLast? = some last) :
    ∃ r, SignalvE.decisionStep ticker candles
        { sma_short := 5, sma_long := 20, rsi_period := 14, atr_period := 14 } log =
        some (r, logTrade last.datetime ticker "BUY" last.close (last.close - 3 / 2 * r.atr)
          (last.close + 2 * r.atr) log) ∧
      r.sma_short > r.sma_long ∧ r.rsi = 100 ∧ r.use_volume = true ∧ r.obv_direction = 1 ∧
      r.signal = "BUY" ∧ r.entry = last.close ∧ r.sl = last.close - 3 / 2 * r.atr ∧
      r.tp = last.close + 2 * r.atr := by
  have hcl : (candles.map SignalvE.Candle.close).length = 120 := by
    rw [List.length_map, hlen]
  have hsp : sizePred 120 = 119 := by
    unfold sizePred toSizeT
    omega
  have h5 : SignalvE.computeSMA (candles.map SignalvE.Candle.close) 119 5
      = some (mean (window (candles.map SignalvE.Candle.close) 119 5)) := by
    simpa using computeSMAE_eq_mean (candles.map SignalvE.Candle.close) 119 5
      (by rw [hcl]; norm_num) (by rw [hcl]; norm_num) (by norm_num) (by norm_num)
  have h20 : SignalvE.computeSMA (candles.map SignalvE.Candle.close) 119 20
      = some (mean (window (candles.map SignalvE.Candle.close) 119 20)) := by
    simpa using computeSMAE_eq_mean (candles.map SignalvE.Candle.close) 119 20
      (by rw [hcl]; norm_num) (by rw [hcl]; norm_num) (by norm_num) (by norm_num)
  have hlt := mean_window_lt (candles.map SignalvE.Candle.close) hinc 119 5 20 (by norm_num)
    (by norm_num) (by norm_num) (by rw [hcl]; norm_num)
  have hr : SignalvE.computeRSI (candles.map SignalvE.Candle.close) 119 14 = some 100 := by
    have h := (computeRSI_eq_rsiSpec (candles.map SignalvE.Candle.close) 119 14
      (by rw [hcl]; norm_num) (by norm_num) (by norm_num) (by norm_num)
      (by rw [hcl]; norm_num)).1
    rw [rsiSpec_of_lossSum_zero _ _ _
      (lossSum_of_increasing _ hinc 119 14 (by norm_num) (by rw [hcl]; norm_num))] at h
    simpa using h
  have ha : SignalvE.computeATR candles 119 14
      = some (mean (trueRangeWindow candles 119 14)) := by
    simpa using computeATR_eq_mean candles 119 14 (by rw [hlen]; norm_num) (by norm_num)
      (by norm_num) (by norm_num) (by rw [hlen]; norm_num)
  have hvol : SignalvE.hasVolumeData candles = true := by
    rw [hasVolumeDataE_eq, sum_const_volume _ v (by
      intro x hx
      rw [List.mem_map] at hx
      obtain ⟨c, hc, rfl⟩ := hx
      exact hv c hc), List.length_map, hlen, wrapLL_of_range _ (by push_cast; omega)
        (by push_cast; omega)]
    simp only [decide_eq_true_eq]
    push_cast
    omega
  have hbars : ((candles.map barE).map Prod.fst) = candles.map SignalvE.Candle.close := by
    rw [List.map_map]
    rfl
  have hob := obv_uptrend (candles.map barE) v (by rw [hbars]; exact hinc) (by
      intro b hb
      rw [List.mem_map] at hb
      obtain ⟨c, hc, rfl⟩ := hb
      exact hv c hc) hpos (by omega) (by rw [List.length_map, hlen]; norm_num)
  have hobv : SignalvE.computeOBVDirection candles 14 = some 1 := by
    have h := computeOBVDirectionE_eq candles 14 (by rw [hlen]; norm_num) (by norm_num)
      (by norm_num) hob.1
    rw [hob.2] at h
    simpa using h
  have hsig : SignalvE.directionalSignal true
      (mean (window (candles.map SignalvE.Candle.close) 119 5))
      (mean (window (candles.map SignalvE.Candle.close) 119 20)) 100 1 = "BUY" := by
    rw [(directionalSignalE_iff _ _ _ _ _).1]
    exact ⟨hlt, by norm_num, fun _ => rfl⟩
  have hbh : ("BUY" : String) ≠ "HOLD" := by decide
  unfold SignalvE.decisionStep
  simp only [hl, hcl, hlen, hsp, h5, h20, hr, ha, hvol, if_true, hobv, hsig, SignalvE.settle,
    if_pos hbh]
  exact ⟨_, rfl, hlt, rfl, rfl, rfl, rfl, rfl, rfl, rfl⟩

end Signalv

namespace Signalv

/-- The example uptrend of `signalv_g.cpp`: its size, its closes, its volumes
and its last bar. -/
theorem uptrendG_facts :
    uptrendG.length = 120 ∧ (uptrendG.map SignalvG.Candle.close).Pairwise (· < ·) ∧
      (∀ c ∈ uptrendG, c.volume = 1) ∧
      uptrendG.getLast? = some ⟨"bar", 120, 120, 120, 120, 1, 1⟩ ∧
      SignalvG.atrPercent 1 120 = some (833 / 1000) := by
  refine ⟨by simp [uptrendG], ?_, ?_, ?_, ?_⟩
  · unfold uptrendG
    rw [List.map_map, List.pairwise_map]
    refine (List.pairwise_lt_range 120).imp ?_
    intro a b h
    simp only [Function.comp_apply]
    have : (a : ℚ) < (b : ℚ) := by exact_mod_cast h
    linarith
  · intro c hc
    unfold uptrendG at hc
    rw [List.mem_map] at hc
    obtain ⟨i, _, rfl⟩ := hc
    rfl
  · unfold uptrendG
    rw [show (120 : Nat) = 119 + 1 from rfl, List.range_succ, List.map_append,
      List.map_singleton, List.getLast?_concat]
    norm_num
  · have e : ⌊(1 : ℚ) / 120 * 100 * 1000⌋ = 833 := by norm_num [Int.floor_eq_iff]
    rw [(atrPercent_eq 1 120 (by norm_num) (by norm_num) (by norm_num)).2, e]
    norm_num

/-- The example uptrend of `signalv_e.cpp`: its size, its closes, its volumes
and its last bar. -/
theorem uptrendE_facts :
    uptrendE.length = 120 ∧ (uptrendE.map SignalvE.Candle.close).Pairwise (· < ·) ∧
      (∀ c ∈ uptrendE, c.volume = 1) ∧
      uptrendE.getLast? = some ⟨"bar", 120, 120, 120, 120, 1⟩ := by
  refine ⟨by simp [uptrendE], ?_, ?_, ?_⟩
  · unfold uptrendE
    rw [List.map_map, List.pairwise_map]
    refine (List.pairwise_lt_range 120).imp ?_
    intro a b h
    simp only [Function.comp_apply]
    have : (a : ℚ) < (b : ℚ) := by exact_mod_cast h
    linarith
  · intro c hc
    unfold uptrendE at hc
    rw [List.mem_map] at hc
    obtain ⟨i, _, rfl⟩ := hc
    rfl
  · unfold uptrendE
    rw [show (120 : Nat) = 119 + 1 from rfl, List.range_succ, List.map_append,
      List.map_singleton, List.getLast?_concat]
    norm_num

end Signalv

/-- C28, as stated, fails on `signalv_g.cpp`: on the 120-bar uptrend with the
closes 1, …, 120, the constant volume 1 and the ATR 1 on the last bar (an
atrPercent of 0.833, above the threshold 0.10), with the parameters 5, 20, 14,
the decision step of `process_ticker` produces the final signal HOLD, not BUY,
and leaves the trade log empty. -/
theorem C28_uptrend_gives_hold :
    uptrendG.length = 120 ∧ (uptrendG.map SignalvG.Candle.close).Pairwise (· < ·) ∧
      (∀ c ∈ uptrendG, c.volume = 1) ∧
      ∃ r, SignalvG.decisionStep "EURUSD" uptrendG
          { sma_short := 5, sma_long := 20, rsi_period := 14 } [] = some (r, []) ∧
        r.current_atr_percent = 833 / 1000 ∧ r.is_volatile_enough = true ∧
        r.outcome.final_signal = "HOLD" ∧ r.outcome.final_signal ≠ "BUY" := by
  obtain ⟨h1, h2, h3, h4, h5⟩ := uptrendG_facts
  refine ⟨h1, h2, h3, ?_⟩
  obtain ⟨r, hr, _, _, _, _, hp, hv, _, ho⟩ := decisionStepG_uptrend "EURUSD" uptrendG [] 1
    ⟨"bar", 120, 120, 120, 120, 1, 1⟩ (833 / 1000) h1 h2 h3 (by norm_num) (by norm_num) h4 h5
  refine ⟨r, hr, hp, ?_, ?_, ?_⟩
  · rw [hv]
    norm_num
  · rw [ho]
  · rw [ho]
    decide

/-- C28, amended: for a 120-bar history with strictly increasing closes and a
constant positive volume `v` with `120 * v` inside `long long`, the parameters
sma_short = 5, sma_long = 20, rsi_period = 14, and a last-bar atrPercent above
the minimum threshold, the decision step of `process_ticker` in `signalv_g.cpp`
returns with the short average above the long one, the RSI 100 and the OBV
direction `+1`, and produces the final signal HOLD with the trade log
unchanged: its rule takes BUY only for an RSI below 70.  The decision step of
`ProcessTicker` in `signalv_e.cpp`, whose rule has no such bound (and no
volatility gate), produces BUY on such a history and logs the trade. -/
theorem C28_uptrend_amended :
    (∀ (ticker : String) (candles : List SignalvG.Candle) (log : List String) (v : Int)
      (last : SignalvG.Candle) (pct : ℚ),
      candles.length = 120 → (candles.map SignalvG.Candle.close).Pairwise (· < ·) →
      (∀ c ∈ candles, c.volume = v) → 0 < v → 120 * v < 2 ^ 63 →
      candles.getLast? = some last →
      SignalvG.atrPercent last.atr last.close = some pct → pct > 1 / 10 →
      ∃ r, SignalvG.decisionStep ticker candles
          { sma_short := 5, sma_long := 20, rsi_period := 14 } log = some (r, log) ∧
        r.sma_short > r.sma_long ∧ r.rsi = 100 ∧ r.use_volume = true ∧ r.obv_direction = 1 ∧
        r.is_volatile_enough = true ∧ r.signal = "HOLD" ∧
        r.outcome = { final_signal := "HOLD", reason := "", levels := none }) ∧
    (∀ (ticker : String) (candles : List SignalvE.Candle) (log : List String) (v : Int)
      (last : SignalvE.Candle),
      candles.length = 120 → (candles.map SignalvE.Candle.close).Pairwise (· < ·) →
      (∀ c ∈ candles, c.volume = v) → 0 < v → 120 * v < 2 ^ 63 →
      candles.getLast? = some last →
      ∃ r, SignalvE.decisionStep ticker candles
          { sma_short := 5, sma_long := 20, rsi_period := 14, atr_period := 14 } log =
          some (r, logTrade last.datetime ticker "BUY" last.close
            (last.close - 3 / 2 * r.atr) (last.close + 2 * r.atr) log) ∧
        r.sma_short > r.sma_long ∧ r.rsi = 100 ∧ r.use_volume = true ∧ r.obv_direction = 1 ∧
        r.signal = "BUY") := by
  constructor
  · intro ticker candles log v last pct hlen hinc hv hpos hsmall hl hp hgt
    obtain ⟨r, hr, h1, h2, h3, h4, _, h6, h7, h8⟩ :=
      decisionStepG_uptrend ticker candles log v last pct hlen hinc hv hpos hsmall hl hp
    refine ⟨r, hr, h1, h2, h3, h4, ?_, h7, h8⟩
    rw [h6, decide_eq_true_eq]
    exact hgt
  · intro ticker candles log v last hlen hinc hv hpos hsmall hl
    obtain ⟨r, hr, h1, h2, h3, h4, h5, _⟩ :=
      decisionStepE_uptrend ticker candles log v last hlen hinc hv hpos hsmall hl
    exact ⟨r, hr, h1, h2, h3, h4, h5⟩

/-- C28, amended, on the example uptrend of `signalv_g.cpp`. -/
theorem C28_uptrend_amended_witness :
    ∃ r, SignalvG.decisionStep "EURUSD" uptrendG
        { sma_short := 5, sma_long := 20, rsi_period := 14 } [] = some (r, []) ∧
      r.sma_short > r.sma_long ∧ r.rsi = 100 ∧ r.use_volume = true ∧ r.obv_direction = 1 ∧
      r.is_volatile_enough = true ∧ r.signal = "HOLD" ∧
      r.outcome = { final_signal := "HOLD", reason := "", levels := none } :=
  C28_uptrend_amended.1 "EURUSD" uptrendG [] 1 ⟨"bar", 120, 120, 120, 120, 1, 1⟩ (833 / 1000)
    uptrendG_facts.1 uptrendG_facts.2.1 uptrendG_facts.2.2.1 (by norm_num) (by norm_num)
    uptrendG_facts.2.2.2.1 uptrendG_facts.2.2.2.2 (by norm_num)

namespace Signalv

/-- The optimizer of `process_ticker` on the 16-bar example history, every
iteration drawing `(15, 30, 21)`: each candidate `(15, 45, 21)` needs 46 bars,
scores the sentinel on the 15 bars it is given, and the default parameters are
returned. -/
theorem optimalParams_shortHistory :
    SignalvG.optimalParams shortHistory (fun _ => ⟨15, 30, 21⟩) = some {} := by
  have hbG : SignalvG.drawInBounds ⟨15, 30, 21⟩ := by unfold SignalvG.drawInBounds; decide
  have hlen : shortHistory.dropLast.length = 15 := by simp [shortHistory]
  obtain ⟨b, hb1, hb2⟩ := randomG_result shortHistory.dropLast (by rw [hlen]; norm_num) 100
    (fun _ => ⟨15, 30, 21⟩) (fun _ _ => hbG)
  have hcands : (List.range (100 : Int).toNat).map
      (fun _ => SignalvG.candidate (⟨15, 30, 21⟩ : Draw)) =
      List.replicate 100
        { sma_short := 15, sma_long := 45, rsi_period := 21, performance := -1000000000 } := rfl
  rw [hcands] at hb1 hb2
  have hb : b = {} := by
    rcases hb2 with ⟨h, _⟩ | ⟨k, c, x, hk, hc, _, hx, _⟩
    · exact h
    · have hmem := List.getElem?_mem hk
      rw [List.eq_of_mem_replicate hmem] at hc
      rw [simulateBacktestG_short shortHistory.dropLast _ (by decide) (by decide)
        (by rw [hlen]; decide)] at hc
      cases hc
      exact absurd hx (lt_irrefl _)
  unfold SignalvG.optimalParams SignalvG.findBestParameters_Random
  rw [hb1, hb]
  rfl

/-- The decision step of `process_ticker` on the 16-bar example history with
the default parameters `(5, 20, 14)`. -/
theorem decisionStep_shortHistory :
    SignalvG.decisionStep "EURUSD" shortHistory {} [] =
      some ({ optimal_params := {}, current_atr_percent := 467 / 500,
              is_volatile_enough := true, sma_short := 107, sma_long := 0, rsi := 60,
              use_volume := false, obv_direction := 0, signal := "BUY",
              outcome := { final_signal := "BUY", reason := "",
                           levels := some (211 / 2, 109) },
              high_volatility := false, extreme_volatility := true },
        logTrade "bar" "EURUSD" "BUY" 107 (211 / 2) 109 []) := by
  have hp : SignalvG.atrPercent 1 107 = some (467 / 500) := by
    have e : ⌊(1 : ℚ) / 107 * 100 * 1000⌋ = 934 := by norm_num [Int.floor_eq_iff]
    rw [(atrPercent_eq 1 107 (by norm_num) (by norm_num) (by norm_num)).2, e]
    norm_num
  have hbh : ("BUY" : String) ≠ "HOLD" := by decide
  simp [SignalvG.decisionStep, shortHistory, hp, SignalvG.computeSMA, SignalvG.computeRSI,
    SignalvG.accumulate, SignalvG.needsPrevious, SignalvG.rsiBody, SignalvG.hasVolumeData,
    SignalvG.directionalSignal, smaInsufficient, sizePred, sizeSucc, toSizeT,
    wrapInt, wrapLL, forLoop, sumBody]
  norm_num
  rw [settleG_trade _ _ _ _ _ _ hbh]
  norm_num

end Signalv

/-- C29 fails on `signalv_g.cpp`: `process_ticker` skips an instrument only
when its history is empty.  On the 16-bar example history, with every draw of
the optimizer `(15, 30, 21)`, the optimizer returns the default parameters
`(5, 20, 14)` and the decision rule runs although `computeSMA` for
`sma_long = 20` has no full window at the last index and returns the sentinel
0: the short average 107 is compared with that 0, the RSI is 60, and a BUY at
107 with the stop 105.5 and the target 109 is written to the trade log. -/
theorem C29_short_history_not_rejected :
    shortHistory.length = 16 ∧
    smaInsufficient (sizePred shortHistory.length) 20 ∧
    SignalvG.computeSMA (shortHistory.map SignalvG.Candle.close)
      (sizePred (shortHistory.map SignalvG.Candle.close).length) 20 = some 0 ∧
    SignalvG.process_ticker "EURUSD" shortHistory (fun _ => ⟨15, 30, 21⟩) [] =
      some (some { optimal_params := {}, current_atr_percent := 467 / 500,
                   is_volatile_enough := true, sma_short := 107, sma_long := 0, rsi := 60,
                   use_volume := false, obv_direction := 0, signal := "BUY",
                   outcome := { final_signal := "BUY", reason := "",
                                levels := some (211 / 2, 109) },
                   high_volatility := false, extreme_volatility := true },
        logTrade "bar" "EURUSD" "BUY" 107 (211 / 2) 109 []) ∧
    (∀ (ticker : String) (candles : List SignalvG.Candle) (draws : Nat → Draw)
      (log log' : List String),
      SignalvG.process_ticker ticker candles draws log = some (none, log') → candles = []) := by
  have hlen : shortHistory.length = 16 := by simp [shortHistory]
  have hins : smaInsufficient (sizePred 16) 20 := by
    unfold smaInsufficient sizePred sizeSucc toSizeT
    left
    omega
  refine ⟨hlen, by rw [hlen]; exact hins, ?_, ?_, ?_⟩
  · rw [List.length_map, hlen]
    unfold SignalvG.computeSMA
    rw [if_pos hins]
  · unfold SignalvG.process_ticker
    rw [if_neg (by rw [hlen]; norm_num), optimalParams_shortHistory]
    simp only [decisionStep_shortHistory]
  · intro ticker candles draws log log' h
    unfold SignalvG.process_ticker at h
    split_ifs at h with hl
    · exact List.length_eq_zero.mp (by omega)
    · cases ho : SignalvG.optimalParams candles draws with
      | none => simp [ho] at h
      | some p =>
        simp only [ho] at h
        cases hd : SignalvG.decisionStep ticker candles p log with
        | none => simp [hd] at h
        | some res =>
          obtain ⟨r0, l0⟩ := res
          simp [hd] at h

namespace Signalv

/-! ## The trade log -/

/-- A digit character is a decimal digit with the value of the digit. -/
theorem digit_spec (n : Nat) :
    (digit n).isDigit = true ∧ digitValue (digit n) = n % 10 ∧ digit n ≠ 't' := by
  unfold digit digitValue
  have h := Nat.mod_lt n (by norm_num : 10 > 0)
  generalize n % 10 = k at h
  interval_cases k <;> decide

/-- The rendering of a number ends with its last decimal. -/
theorem fixed5_data (x : ℚ) :
    ∃ l, (fixed5 x).data = l ++ [digit (fixed5Units x)] := by
  unfold fixed5
  refine ⟨((if x < 0 then "-" else "") ++ toString (fixed5Units x / 100000) ++ ".").data ++
    [digit (fixed5Units x / 10000), digit (fixed5Units x / 1000),
      digit (fixed5Units x / 100), digit (fixed5Units x / 10)], ?_⟩
  rw [String.data_append]
  simp

/-- A row of the trade log is not the header line. -/
theorem logRow_ne_logHeader (datetime ticker signal : String) (entry sl tp : ℚ) :
    logRow datetime ticker signal entry sl tp ≠ logHeader := by
  intro h
  obtain ⟨l, hl⟩ := fixed5_data tp
  have h1 : (logRow datetime ticker signal entry sl tp).data.getLast?
      = some (digit (fixed5Units tp)) := by
    unfold logRow
    rw [String.data_append, hl, ← List.append_assoc, List.getLast?_concat]
  have h2 : logHeader.data.getLast? = some 't' := by decide
  rw [h, h2] at h1
  exact (digit_spec (fixed5Units tp)).2.2 (Option.some.inj h1).symm

/-- A call of `logTrade` on a log that is not empty appends its row. -/
theorem logTrade_append (datetime ticker signal : String) (entry sl tp : ℚ)
    (log : List String) (hne : log ≠ []) :
    logTrade datetime ticker signal entry sl tp log
      = log ++ [logRow datetime ticker signal entry sl tp] := by
  unfold logTrade
  cases log with
  | nil => exact absurd rfl hne
  | cons a t => rfl

/-- Calls of `logTrade` on a log that is not empty append their rows in order. -/
theorem logTrades_append (calls : List TradeCall) :
    ∀ log : List String, log ≠ [] → logTrades calls log = log ++ calls.map rowOf := by
  induction calls with
  | nil => intro log _; simp [logTrades]
  | cons c rest ih =>
    intro log hne
    have hstep : logTrades (c :: rest) log
        = logTrades rest (logTrade c.datetime c.ticker c.signal c.entry c.sl c.tp log) := rfl
    rw [hstep, logTrade_append _ _ _ _ _ _ log hne, ih _ (by simp)]
    simp [rowOf]

/-- Calls of `logTrade` on the empty log write the header and then their rows. -/
theorem logTrades_nil (calls : List TradeCall) (hne : calls ≠ []) :
    logTrades calls [] = logHeader :: calls.map rowOf := by
  cases calls with
  | nil => exact absurd rfl hne
  | cons c rest =>
    have hstep : logTrades (c :: rest) []
        = logTrades rest (logTrade c.datetime c.ticker c.signal c.entry c.sl c.tp []) := rfl
    rw [hstep, logTrades_append rest _ (by simp [logTrade])]
    simp [logTrade, rowOf]

/-- The number of units rendered is the nearest to `|x| * 100000`. -/
theorem fixed5Units_spec (x : ℚ) :
    |((fixed5Units x : Nat) : ℚ) - |x| * 100000| ≤ 1 / 2 := by
  unfold fixed5Units
  have h0 : 0 ≤ |x| * 100000 + 1 / 2 := by positivity
  have hf0 : 0 ≤ ⌊|x| * 100000 + 1 / 2⌋ := Int.floor_nonneg.mpr h0
  have hc : ((⌊|x| * 100000 + 1 / 2⌋.toNat : Nat) : ℚ) = ((⌊|x| * 100000 + 1 / 2⌋ : Int) : ℚ) := by
    have := Int.toNat_of_nonneg hf0
    exact_mod_cast congrArg (fun z : Int => (z : ℚ)) this
  rw [hc, abs_le]
  have h1 := Int.floor_le (|x| * 100000 + 1 / 2)
  have h2 := Int.lt_floor_add_one (|x| * 100000 + 1 / 2)
  constructor <;> linarith

end Signalv

namespace Signalv

/-- Two renderings: `99.5` is written `99.50000` and `-1/3` is written
`-0.33333`. -/
theorem fixed5_examples : fixed5 (199 / 2) = "99.50000" ∧ fixed5 (-1 / 3) = "-0.33333" := by
  have e1 : fixed5Units (199 / 2) = 9950000 := by
    unfold fixed5Units
    have : ⌊|(199 : ℚ) / 2| * 100000 + 1 / 2⌋ = 9950000 := by
      rw [abs_of_nonneg (by norm_num)]
      norm_num [Int.floor_eq_iff]
    rw [this]
    rfl
  have e2 : fixed5Units (-1 / 3) = 33333 := by
    unfold fixed5Units
    have : ⌊|(-1 : ℚ) / 3| * 100000 + 1 / 2⌋ = 33333 := by
      rw [abs_of_neg (by norm_num)]
      norm_num [Int.floor_eq_iff]
    rw [this]
    rfl
  constructor
  · unfold fixed5
    rw [e1, if_neg (by norm_num)]
    decide
  · unfold fixed5
    rw [e2, if_pos (by norm_num)]
    decide

end Signalv

/-- C30 (the trade log as a list of lines): for every sequence of at least one
call of `logTrade` starting from an empty (or absent) log, the resulting log is
the header line `Datetime,Ticker,Signal,Entry,StopLoss,TakeProfit`, as its first
line and nowhere else, followed by exactly one row per call, in call order.  A
row is the datetime, the ticker, the signal and the entry, stop-loss and
take-profit, separated by commas, each number rendered with five decimals: a
sign, the integer part, a point and five decimal digits of the nearest multiple
of `0.00001`.  A call on a log that is not empty appends its row and leaves
the existing lines unchanged, and so do further calls. -/
theorem C30_trade_log (calls : List TradeCall) (hne : calls ≠ []) :
    logHeader = "Datetime,Ticker,Signal,Entry,StopLoss,TakeProfit" ∧
    logTrades calls [] = logHeader :: calls.map rowOf ∧
    (logTrades calls []).head? = some logHeader ∧
    (logTrades calls []).count logHeader = 1 ∧
    (logTrades calls []).length = calls.length + 1 ∧
    (∀ c : TradeCall, rowOf c = c.datetime ++ "," ++ c.ticker ++ "," ++ c.signal ++ "," ++
      fixed5 c.entry ++ "," ++ fixed5 c.sl ++ "," ++ fixed5 c.tp) ∧
    (∀ x : ℚ,
      fixed5 x = (if x < 0 then "-" else "") ++ toString (fixed5Units x / 100000) ++ "." ++
        String.mk [digit (fixed5Units x / 10000), digit (fixed5Units x / 1000),
          digit (fixed5Units x / 100), digit (fixed5Units x / 10), digit (fixed5Units x)] ∧
      |((fixed5Units x : Nat) : ℚ) - |x| * 100000| ≤ 1 / 2) ∧
    (∀ n : Nat, (digit n).isDigit = true ∧ digitValue (digit n) = n % 10) ∧
    (∀ (c : TradeCall) (log : List String), log ≠ [] →
      logTrade c.datetime c.ticker c.signal c.entry c.sl c.tp log = log ++ [rowOf c]) ∧
    (∀ more : List TradeCall,
      logTrades more (logTrades calls []) = logTrades calls [] ++ more.map rowOf) := by
  have hlog := logTrades_nil calls hne
  refine ⟨rfl, hlog, ?_, ?_, ?_, fun _ => rfl, fun x => ⟨rfl, fixed5Units_spec x⟩,
    fun n => ⟨(digit_spec n).1, (digit_spec n).2.1⟩, ?_, ?_⟩
  · rw [hlog]
    rfl
  · rw [hlog, List.count_cons_self, List.count_eq_zero.mpr]
    intro h
    rw [List.mem_map] at h
    obtain ⟨c, _, hc⟩ := h
    exact logRow_ne_logHeader _ _ _ _ _ _ hc
  · rw [hlog, List.length_cons, List.length_map]
  · intro c log hl
    exact logTrade_append _ _ _ _ _ _ log hl
  · intro more
    exact logTrades_append more _ (by rw [hlog]; simp)

/-- C30 on a single call: a BUY of EURUSD at 101 with the stop 99.5 and the
target 103 on the empty log gives the header and one row. -/
theorem C30_trade_log_witness :
    logTrades [⟨"2024-01-02 10:00", "EURUSD", "BUY", 101, 199 / 2, 103⟩] [] =
      logHeader :: [(⟨"2024-01-02 10:00", "EURUSD", "BUY", 101, 199 / 2, 103⟩ : TradeCall)].map
        rowOf :=
  (C30_trade_log [⟨"2024-01-02 10:00", "EURUSD", "BUY", 101, 199 / 2, 103⟩] (by simp)).2.1

/-- C32 (inside `simulateBacktest` every indicator has a full window): for
every history of length at least `max(sma_long, rsi_period) + 1` (below `2^64`)
and parameters with `1 ≤ sma_short ≤ sma_long` and `rsi_period ≥ 1` (the
maximum plus one an `int`), `simulateBacktest` does not take its own
insufficient-data branch, its loop starts at `max(sma_long, rsi_period) + 1`,
and at every index `i` of the loop no `computeSMA` or `computeRSI` call takes
its insufficient-data branch, the lowest indices read (`i - period + 1` by
`computeSMA`, `i - period` by `computeRSI`) are not negative, `closes[i]` is
inside the history, and the three calls return the mean of a full window and
the RSI of a full window without an out-of-bounds read; `simulateBacktest`
returns a value.  Both variants. -/
theorem C32_full_windows (cg : List SignalvG.Candle) (ce : List SignalvE.Candle)
    (pg : SignalvG.StrategyParams) (pe : SignalvE.StrategyParams) (ss sl rp : Nat)
    (hssg : pg.sma_short = (ss : Int)) (hslg : pg.sma_long = (sl : Int))
    (hrpg : pg.rsi_period = (rp : Int))
    (hsse : pe.sma_short = (ss : Int)) (hsle : pe.sma_long = (sl : Int))
    (hrpe : pe.rsi_period = (rp : Int))
    (hcl : ce.map SignalvE.Candle.close = cg.map SignalvG.Candle.close)
    (hlen : cg.length < 2 ^ 64) (h1 : 1 ≤ ss) (h2 : ss ≤ sl) (h3 : 1 ≤ rp)
    (hpi : max sl rp + 1 < 2 ^ 31) (hfeas : max sl rp + 1 ≤ cg.length) :
    ¬ (cg.length < toSizeT (wrapInt (max pg.sma_long pg.rsi_period + 1))) ∧
    toSizeT (wrapInt (max pg.sma_long pg.rsi_period + 1)) = max sl rp + 1 ∧
    (∀ i, max sl rp + 1 ≤ i → i < cg.length →
      (¬ smaInsufficient i pg.sma_short ∧ ¬ smaInsufficient i pg.sma_long ∧
        ¬ SignalvG.needsPrevious i pg.rsi_period ∧ ¬ SignalvE.needsPrevious i pe.rsi_period) ∧
      (0 ≤ (i : Int) - pg.sma_short + 1 ∧ 0 ≤ (i : Int) - pg.sma_long + 1 ∧
        0 ≤ (i : Int) - pg.rsi_period) ∧
      (∃ c, (cg.map SignalvG.Candle.close)[i]? = some c) ∧
      SignalvG.computeSMA (cg.map SignalvG.Candle.close) i pg.sma_short
        = some (mean (window (cg.map SignalvG.Candle.close) i ss)) ∧
      SignalvG.computeSMA (cg.map SignalvG.Candle.close) i pg.sma_long
        = some (mean (window (cg.map SignalvG.Candle.close) i sl)) ∧
      SignalvG.computeRSI (cg.map SignalvG.Candle.close) i pg.rsi_period
        = some (rsiSpec (cg.map SignalvG.Candle.close) i rp) ∧
      SignalvE.computeSMA (ce.map SignalvE.Candle.close) i pe.sma_short
        = some (mean (window (ce.map SignalvE.Candle.close) i ss)) ∧
      SignalvE.computeSMA (ce.map SignalvE.Candle.close) i pe.sma_long
        = some (mean (window (ce.map SignalvE.Candle.close) i sl)) ∧
      SignalvE.computeRSI (ce.map SignalvE.Candle.close) i pe.rsi_period
        = some (rsiSpec (ce.map SignalvE.Candle.close) i rp)) ∧
    (∃ x, SignalvG.simulateBacktest cg pg = some x ∧ SignalvE.simulateBacktest ce pe = some x) := by
  have hstart := replay_start_eq sl rp hpi
  have hmax : max sl rp + 1 = replayStart sl rp := rfl
  have hsl_le : sl ≤ max sl rp := le_max_left _ _
  have hrp_le : rp ≤ max sl rp := le_max_right _ _
  have hlce : ce.length = cg.length := by
    have := congrArg List.length hcl
    simpa using this
  have hclg : (cg.map SignalvG.Candle.close).length = cg.length := List.length_map _ _
  refine ⟨?_, ?_, ?_, ?_⟩
  · rw [hslg, hrpg, hstart, ← hmax]
    omega
  · rw [hslg, hrpg, hstart, hmax]
  · intro i hi hil
    have hi64 : i + 1 < 2 ^ 64 := by omega
    have hrsi := computeRSI_eq_rsiSpec (cg.map SignalvG.Candle.close) i rp (by rw [hclg]; exact hlen)
      (by omega) h3 (by omega) (by rw [hclg]; exact hil)
    refine ⟨⟨?_, ?_, ?_, ?_⟩, ⟨?_, ?_, ?_⟩, ?_, ?_, ?_, ?_, ?_, ?_, ?_⟩
    · rw [hssg]; exact not_smaInsufficient i ss hi64 h1 (by omega)
    · rw [hslg]; exact not_smaInsufficient i sl hi64 (by omega) (by omega)
    · rw [hrpg]; exact not_needsPreviousG i rp hi64 (by omega) (by omega)
    · rw [hrpe]; exact not_needsPreviousE i rp hi64 (by omega) (by omega)
    · rw [hssg]; omega
    · rw [hslg]; omega
    · rw [hrpg]; omega
    · exact ⟨_, List.getElem?_eq_getElem (by rw [hclg]; exact hil)⟩
    · rw [hssg]
      exact computeSMAG_eq_mean _ i ss (by rw [hclg]; exact hlen) (by rw [hclg]; exact hil) h1
        (by omega)
    · rw [hslg]
      exact computeSMAG_eq_mean _ i sl (by rw [hclg]; exact hlen) (by rw [hclg]; exact hil)
        (by omega) (by omega)
    · rw [hrpg]; exact hrsi.2
    · rw [hsse, hcl]
      exact computeSMAE_eq_mean _ i ss (by rw [hclg]; exact hlen) (by rw [hclg]; exact hil) h1
        (by omega)
    · rw [hsle, hcl]
      exact computeSMAE_eq_mean _ i sl (by rw [hclg]; exact hlen) (by rw [hclg]; exact hil)
        (by omega) (by omega)
    · rw [hrpe, hcl]; exact hrsi.1
  · refine ⟨_, simulateBacktestG_eq cg pg ss sl rp hssg hslg hrpg hlen h1 h2 h3 hpi
      (by rw [← hmax]; exact hfeas), ?_⟩
    rw [simulateBacktestE_eq ce pe ss sl rp hsse hsle hrpe (by rw [hlce]; exact hlen) h1 h2 h3 hpi
      (by rw [← hmax, hlce]; exact hfeas), hcl]

/-- C32 on six bars with the periods 1, 2, 2 (the loop runs over the bars 3, 4
and 5). -/
theorem C32_full_windows_witness :
    ∃ x, SignalvG.simulateBacktest
        (([1, 2, 3, 4, 5, 6] : List ℚ).map (fun c => ⟨"", c, c, c, c, 0, 0⟩))
        { sma_short := 1, sma_long := 2, rsi_period := 2 } = some x ∧
      SignalvE.simulateBacktest
        (([1, 2, 3, 4, 5, 6] : List ℚ).map (fun c => ⟨"", c, c, c, c, 0⟩))
        { sma_short := 1, sma_long := 2, rsi_period := 2 } = some x :=
  (C32_full_windows
    (([1, 2, 3, 4, 5, 6] : List ℚ).map (fun c => ⟨"", c, c, c, c, 0, 0⟩))
    (([1, 2, 3, 4, 5, 6] : List ℚ).map (fun c => ⟨"", c, c, c, c, 0⟩))
    { sma_short := 1, sma_long := 2, rsi_period := 2 }
    { sma_short := 1, sma_long := 2, rsi_period := 2 } 1 2 2 rfl rfl rfl rfl rfl rfl
    (by simp) (by simp) (by decide) (by decide) (by decide) (by decide) (by simp)).2.2.2

namespace Signalv

/-- A call of `logTrade` changes the trade log. -/
theorem logTrade_ne (datetime ticker signal : String) (entry sl tp : ℚ) (log : List String) :
    logTrade datetime ticker signal entry sl tp log ≠ log := by
  intro h
  have hl := congrArg List.length h
  cases log with
  | nil => simp [logTrade] at hl
  | cons a t => simp [logTrade] at hl

/-- The last block of `process_ticker` on a report of the decision step: a
trade when the directional signal is not HOLD and the atrPercent is above
`0.10`, and no trade otherwise. -/
theorem decisionStepG_gate (ticker : String) (candles : List SignalvG.Candle)
    (p : SignalvG.StrategyParams) (log log' : List String) (r : SignalvG.Report)
    (h : SignalvG.decisionStep ticker candles p log = some (r, log')) :
    ∃ last, candles.getLast? = some last ∧
      SignalvG.atrPercent last.atr last.close = some r.current_atr_percent ∧
      ((r.signal ≠ "HOLD" ∧ r.current_atr_percent > 1 / 10 ∧
          r.outcome.final_signal = r.signal ∧
          ∃ sl tp, r.outcome.levels = some (sl, tp) ∧
            log' = logTrade last.datetime ticker r.signal last.close sl tp log) ∨
        (¬ (r.signal ≠ "HOLD" ∧ r.current_atr_percent > 1 / 10) ∧
          r.outcome.final_signal = "HOLD" ∧ r.outcome.levels = none ∧ log' = log ∧
          r.outcome.reason = if r.signal ≠ "HOLD" then " (Ignored: Low Volatility)" else "")) := by
  obtain ⟨last, hl, hp, hv, _, _, _, _, _, _, hset, _⟩ := decisionStepG_inv _ _ _ _ _ _ h
  refine ⟨last, hl, hp, ?_⟩
  by_cases hc : r.signal ≠ "HOLD" ∧ r.current_atr_percent > 1 / 10
  · left
    have hv' : r.is_volatile_enough = true := by
      rw [hv, decide_eq_true_eq]
      exact hc.2
    rw [hv', settleG_trade _ _ _ _ _ _ hc.1] at hset
    have h1 := congrArg (fun x => x.1.final_signal) hset
    have h2 := congrArg (fun x => x.1.levels) hset
    have h3 := congrArg (fun x => x.2) hset
    simp only at h1 h2 h3
    exact ⟨hc.1, hc.2, h1, _, _, h2, h3⟩
  · right
    have hc' : r.signal = "HOLD" ∨ r.is_volatile_enough = false := by
      by_cases hs : r.signal = "HOLD"
      · exact Or.inl hs
      · right
        rw [hv, decide_eq_false_iff_not]
        exact fun hgt => hc ⟨hs, hgt⟩
    rw [settleG_hold _ _ _ _ _ _ _ hc'] at hset
    have h1 := congrArg (fun x => x.1.final_signal) hset
    have h2 := congrArg (fun x => x.1.levels) hset
    have h3 := congrArg (fun x => x.2) hset
    have h4 := congrArg (fun x => x.1.reason) hset
    simp only at h1 h2 h3 h4
    exact ⟨hc, h1, h2, h3, h4⟩

end Signalv

/-- C33 (the gate is strict): a report of the decision step of `process_ticker`
in `signalv_g.cpp` has a final signal other than HOLD if and only if the
directional signal is not HOLD and the truncated atrPercent is strictly greater
than `0.10`, and exactly then `logTrade` is called (the trade log changes, by
one call of `logTrade` with the directional signal and the last close).  With a
truncated atrPercent of exactly `0.10` the final signal is HOLD, the trade log
is unchanged, and a directional signal other than HOLD gets the reason
` (Ignored: Low Volatility)`. -/
theorem C33_gate_is_strict (ticker : String) (candles : List SignalvG.Candle)
    (p : SignalvG.StrategyParams) (log log' : List String) (r : SignalvG.Report)
    (h : SignalvG.decisionStep ticker candles p log = some (r, log')) :
    (r.outcome.final_signal ≠ "HOLD" ↔ r.signal ≠ "HOLD" ∧ r.current_atr_percent > 1 / 10) ∧
    (log' ≠ log ↔ r.signal ≠ "HOLD" ∧ r.current_atr_percent > 1 / 10) ∧
    (r.signal ≠ "HOLD" ∧ r.current_atr_percent > 1 / 10 →
      r.outcome.final_signal = r.signal ∧
      ∃ last sl tp, candles.getLast? = some last ∧ r.outcome.levels = some (sl, tp) ∧
        log' = logTrade last.datetime ticker r.signal last.close sl tp log) ∧
    (r.current_atr_percent = 1 / 10 →
      r.outcome.final_signal = "HOLD" ∧ log' = log ∧
      (r.signal ≠ "HOLD" → r.outcome.reason = " (Ignored: Low Volatility)")) := by
  obtain ⟨last, hl, _, hc⟩ := decisionStepG_gate _ _ _ _ _ _ h
  rcases hc with ⟨hs, hgt, hf, sl, tp, hlv, hlog⟩ | ⟨hn, hf, hlv, hlog, hreason⟩
  · refine ⟨⟨fun _ => ⟨hs, hgt⟩, fun _ => by rw [hf]; exact hs⟩,
      ⟨fun _ => ⟨hs, hgt⟩, fun _ => by rw [hlog]; exact logTrade_ne _ _ _ _ _ _ _⟩,
      fun _ => ⟨hf, last, sl, tp, hl, hlv, hlog⟩, ?_⟩
    intro he
    rw [he] at hgt
    exact absurd hgt (lt_irrefl _)
  · refine ⟨⟨fun hne => absurd hf hne, fun hc => absurd hc hn⟩,
      ⟨fun hne => absurd hlog hne, fun hc => absurd hc hn⟩, fun hc => absurd hc hn, ?_⟩
    intro _
    refine ⟨hf, hlog, ?_⟩
    intro hs
    rw [hreason, if_pos hs]

/-- C33 on three bars with the closes 100, 98, 101 and the ATR 0.1015 on the
last bar: the directional signal is BUY, the truncated atrPercent is exactly
0.10, and the final signal is HOLD with the low-volatility reason. -/
theorem C33_gate_is_strict_witness :
    ("HOLD" : String) = "HOLD" ∧ ([] : List String) = [] ∧
      (("BUY" : String) ≠ "HOLD" →
        (" (Ignored: Low Volatility)" : String) = " (Ignored: Low Volatility)") :=
  (C33_gate_is_strict "EURUSD"
    (([100, 98, 101] : List ℚ).map (fun c => ⟨"d", c, c, c, c, 0, 203 / 2000⟩))
    { sma_short := 1, sma_long := 2, rsi_period := 2 } [] []
    { optimal_params := { sma_short := 1, sma_long := 2, rsi_period := 2 },
      current_atr_percent := 1 / 10, is_volatile_enough := false,
      sma_short := 101, sma_long := 199 / 2, rsi := 60, use_volume := false,
      obv_direction := 0, signal := "BUY",
      outcome := { final_signal := "HOLD", reason := " (Ignored: Low Volatility)",
                   levels := none },
      high_volatility := false, extreme_volatility := false }
    (by
      have hp : SignalvG.atrPercent (203 / 2000) 101 = some (1 / 10) := by
        have e : ⌊(203 : ℚ) / 2000 / 101 * 100 * 1000⌋ = 100 := by
          norm_num [Int.floor_eq_iff]
        rw [(atrPercent_eq (203 / 2000) 101 (by norm_num) (by norm_num) (by norm_num)).2, e]
        norm_num
      rw [decisionStepG_three_bars (203 / 2000) (1 / 10) _ hp,
        show decide ((1 : ℚ) / 10 > 1 / 10) = false by norm_num,
        settleG_hold _ _ _ _ _ _ _ (Or.inr rfl)]
      simp [(by decide : ("BUY" : String) ≠ "HOLD")]
      norm_num)).2.2.2 rfl

namespace Signalv

/-- A candidate of `findBestParameters_Random` with in-bounds draws is the
default parameter set exactly when the draws are `(5, 15, 14)`. -/
theorem candidateG_eq_default (d : Draw) (h : SignalvG.drawInBounds d) :
    SignalvG.candidate d = {} ↔ d = ⟨5, 15, 14⟩ := by
  obtain ⟨⟨h1, h2⟩, ⟨h3, h4⟩, h5, h6⟩ := h
  have hw : wrapInt (d.short + d.long_diff) = d.short + d.long_diff := by
    unfold wrapInt
    omega
  constructor
  · intro he
    have e1 := congrArg SignalvG.StrategyParams.sma_short he
    have e2 := congrArg SignalvG.StrategyParams.sma_long he
    have e3 := congrArg SignalvG.StrategyParams.rsi_period he
    simp only [SignalvG.candidate, hw] at e1 e2 e3
    cases d with
    | mk s l r =>
      simp only at e1 e2 e3
      simp only [Draw.mk.injEq]
      omega
  · intro he
    rw [he]
    rfl

/-- On a history of fewer than 11 bars every candidate of
`findBestParameters_Random` with in-bounds draws scores the sentinel. -/
theorem candidateG_sentinel (candles : List SignalvG.Candle) (hlen : candles.length < 11)
    (d : Draw) (h : SignalvG.drawInBounds d) :
    SignalvG.simulateBacktest candles (SignalvG.candidate d) = some (-1000000000) := by
  obtain ⟨e1, e2, e3, _⟩ := candidateG_periods d h
  obtain ⟨⟨h1, h2⟩, ⟨h3, h4⟩, h5, h6⟩ := h
  apply simulateBacktestG_short
  · rw [e2]; omega
  · rw [e3]; omega
  · rw [e2, e3]
    have : d.short + d.long_diff ≤ max (d.short + d.long_diff) d.rsi := le_max_left _ _
    omega

/-- When every candidate scores the sentinel, `findBestParameters_Random`
returns the default parameter set. -/
theorem randomG_default (candles : List SignalvG.Candle) (hlen : candles.length < 2 ^ 64)
    (n : Int) (draws : Nat → Draw) (hb : ∀ i, i < n.toNat → SignalvG.drawInBounds (draws i))
    (hs : ∀ p ∈ (List.range n.toNat).map (fun i => SignalvG.candidate (draws i)),
      SignalvG.simulateBacktest candles p = some (-1000000000)) :
    SignalvG.findBestParameters_RandomTrace candles n draws =
      some ({}, (List.range n.toNat).map (fun i => SignalvG.candidate (draws i))) := by
  obtain ⟨b, hb1, hb2⟩ := randomG_result candles hlen n draws hb
  have hbd : b = {} := by
    rcases hb2 with ⟨h, _⟩ | ⟨k, c, x, hk, hc, _, hx, _⟩
    · exact h
    · rw [hs c (List.getElem?_mem hk)] at hc
      cases hc
      exact absurd hx (lt_irrefl _)
  rw [hb1, hbd]

end Signalv

/-- C34, as stated, fails: on the empty history, with every iteration drawing
the in-bounds values `(5, 15, 14)`, every candidate scores the sentinel and
`findBestParameters_Random` returns the default `(5, 20, 14)` with performance
`-1e9`, yet this parameter set is the candidate `(5, 5 + 15, 14)` that every
one of the 100 iterations passed to `simulateBacktest`. -/
theorem C34_default_can_be_a_candidate :
    SignalvG.drawInBounds ⟨5, 15, 14⟩ ∧
    SignalvG.findBestParameters_RandomTrace [] 100 (fun _ => ⟨5, 15, 14⟩) =
      some ({ sma_short := 5, sma_long := 20, rsi_period := 14, performance := -1000000000 },
        List.replicate 100
          { sma_short := 5, sma_long := 20, rsi_period := 14, performance := -1000000000 }) ∧
    ({ sma_short := 5, sma_long := 20, rsi_period := 14, performance := -1000000000 } :
        SignalvG.StrategyParams) ∈
      List.replicate 100
        ({ sma_short := 5, sma_long := 20, rsi_period := 14, performance := -1000000000 } :
          SignalvG.StrategyParams) := by
  have hbG : SignalvG.drawInBounds ⟨5, 15, 14⟩ := by unfold SignalvG.drawInBounds; decide
  refine ⟨hbG, ?_, ?_⟩
  · have h := randomG_default [] (by simp) 100 (fun _ => ⟨5, 15, 14⟩) (fun _ _ => hbG) (by
      intro p hp
      rw [List.mem_map] at hp
      obtain ⟨i, _, rfl⟩ := hp
      exact candidateG_sentinel [] (by simp) _ hbG)
    rw [h]
    rfl
  · rw [List.mem_replicate]
    exact ⟨by norm_num, rfl⟩

/-- C34, amended: if every candidate of `findBestParameters_Random` scores the
sentinel (in particular on every history shorter than 11 bars, whatever the
in-bounds draws), the function returns the default `StrategyParams`
`sma_short = 5, sma_long = 20, rsi_period = 14` with performance `-1e9`: the
initial value of `best_params`, which no evaluated candidate replaced.  The
parameter sets passed to `simulateBacktest` are the drawn candidates, and the
default is one of them exactly when some iteration draws `(5, 15, 14)`. -/
theorem C34_default_amended (candles : List SignalvG.Candle) (n : Int) (draws : Nat → Draw)
    (hlen : candles.length < 2 ^ 64)
    (hb : ∀ i, i < n.toNat → SignalvG.drawInBounds (draws i)) :
    ((∀ p ∈ (List.range n.toNat).map (fun i => SignalvG.candidate (draws i)),
        SignalvG.simulateBacktest candles p = some (-1000000000)) →
      SignalvG.findBestParameters_RandomTrace candles n draws =
        some ({ sma_short := 5, sma_long := 20, rsi_period := 14, performance := -1000000000 },
          (List.range n.toNat).map (fun i => SignalvG.candidate (draws i))) ∧
      SignalvG.findBestParameters_Random candles n draws =
        some { sma_short := 5, sma_long := 20, rsi_period := 14, performance := -1000000000 }) ∧
    (candles.length < 11 →
      (∀ p ∈ (List.range n.toNat).map (fun i => SignalvG.candidate (draws i)),
        SignalvG.simulateBacktest candles p = some (-1000000000)) ∧
      SignalvG.findBestParameters_Random candles n draws =
        some { sma_short := 5, sma_long := 20, rsi_period := 14, performance := -1000000000 }) ∧
    (({ sma_short := 5, sma_long := 20, rsi_period := 14, performance := -1000000000 } :
        SignalvG.StrategyParams) ∈
        (List.range n.toNat).map (fun i => SignalvG.candidate (draws i)) ↔
      ∃ i, i < n.toNat ∧ draws i = ⟨5, 15, 14⟩) := by
  have hmain : (∀ p ∈ (List.range n.toNat).map (fun i => SignalvG.candidate (draws i)),
        SignalvG.simulateBacktest candles p = some (-1000000000)) →
      SignalvG.findBestParameters_RandomTrace candles n draws =
        some ({ sma_short := 5, sma_long := 20, rsi_period := 14, performance := -1000000000 },
          (List.range n.toNat).map (fun i => SignalvG.candidate (draws i))) ∧
      SignalvG.findBestParameters_Random candles n draws =
        some { sma_short := 5, sma_long := 20, rsi_period := 14,
               performance := -1000000000 } := by
    intro hs
    have h := randomG_default candles hlen n draws hb hs
    refine ⟨h, ?_⟩
    unfold SignalvG.findBestParameters_Random
    rw [h]
    rfl
  have hshort : candles.length < 11 →
      ∀ p ∈ (List.range n.toNat).map (fun i => SignalvG.candidate (draws i)),
        SignalvG.simulateBacktest candles p = some (-1000000000) := by
    intro h11 p hp
    rw [List.mem_map] at hp
    obtain ⟨i, hi, rfl⟩ := hp
    exact candidateG_sentinel candles h11 _ (hb i (List.mem_range.mp hi))
  refine ⟨hmain, fun h11 => ⟨hshort h11, (hmain (hshort h11)).2⟩, ?_⟩
  rw [List.mem_map]
  constructor
  · rintro ⟨i, hi, he⟩
    rw [List.mem_range] at hi
    exact ⟨i, hi, (candidateG_eq_default _ (hb i hi)).mp he⟩
  · rintro ⟨i, hi, he⟩
    exact ⟨i, List.mem_range.mpr hi, (candidateG_eq_default _ (hb i hi)).mpr he⟩

/-- C34, amended, on the empty history with every iteration drawing
`(7, 5, 9)`: the default is returned and is none of the candidates. -/
theorem C34_default_amended_witness :
    SignalvG.findBestParameters_Random [] 100 (fun _ => ⟨7, 5, 9⟩) =
      some { sma_short := 5, sma_long := 20, rsi_period := 14, performance := -1000000000 } :=
  ((C34_default_amended [] 100 (fun _ => ⟨7, 5, 9⟩) (by simp)
    (fun _ _ => (by unfold SignalvG.drawInBounds; decide : SignalvG.drawInBounds ⟨7, 5, 9⟩))).2.1 (by simp)).2

namespace Signalv

/-- The periods of a candidate of `findBestParametersRandom` (`signalv_e.cpp`)
with in-bounds draws: `sma_short` in `[5, 30]`, `sma_long` in `[8, 70]` and
above `sma_short`, `rsi_period` in `[7, 21]`, `atr_period = 14`. -/
theorem candidateE_bounds (d : Draw) (h : SignalvE.drawInBounds d) :
    (5 ≤ (SignalvE.candidate d).sma_short ∧ (SignalvE.candidate d).sma_short ≤ 30) ∧
    ((SignalvE.candidate d).sma_short < (SignalvE.candidate d).sma_long ∧
      (SignalvE.candidate d).sma_long ≤ 70) ∧
    (7 ≤ (SignalvE.candidate d).rsi_period ∧ (SignalvE.candidate d).rsi_period ≤ 21) ∧
    (SignalvE.candidate d).atr_period = 14 := by
  obtain ⟨e1, e2, e3, e4, _⟩ := candidateE_periods d h
  obtain ⟨⟨h1, h2⟩, ⟨h3, h4⟩, h5, h6⟩ := h
  rw [e1, e2, e3, e4]
  omega

/-- The parameters returned by `findBestParametersRandom` with in-bounds draws
are the default ones or those of a candidate. -/
theorem randomE_periods (candles : List SignalvE.Candle) (hlen : candles.length < 2 ^ 64)
    (draws : Nat → Draw) (hb : ∀ i, i < 100 → SignalvE.drawInBounds (draws i)) :
    ∃ b, SignalvE.findBestParametersRandom candles draws = some b ∧
      (1 ≤ b.sma_short ∧ b.sma_short ≤ 30) ∧ (1 ≤ b.sma_long ∧ b.sma_long ≤ 70) ∧
      (1 ≤ b.rsi_period ∧ b.rsi_period ≤ 21) ∧ b.atr_period = 14 := by
  obtain ⟨b, hb1, hb2⟩ := randomE_result candles hlen draws hb
  refine ⟨b, ?_, ?_⟩
  · unfold SignalvE.findBestParametersRandom
    rw [hb1]
    rfl
  · rcases hb2 with ⟨h, _⟩ | ⟨k, c, x, hk, _, hbc, _⟩
    · rw [h]
      decide
    · have hmem := List.getElem?_mem hk
      rw [List.mem_map] at hmem
      obtain ⟨i, hi, rfl⟩ := hmem
      obtain ⟨h1, h2, h3, h4⟩ := candidateE_bounds (draws i) (hb i (List.mem_range.mp hi))
      rw [hbc]
      simp only
      omega

end Signalv

/-- C35 (signalv_e): whenever `ProcessTicker` reaches the optimizer (a history
of at least 100 bars, hence at least 99 optimization bars), every candidate of
`findBestParametersRandom` with in-bounds draws has
`max(sma_long, rsi_period) + 1 ≤ 71 ≤ 99`, so `simulateBacktest` never takes
its insufficient-data branch on the optimization bars; the optimizer returns
parameters, and for these `computeSMA` for `sma_short` and `sma_long`,
`computeRSI` for `rsi_period` and `computeATR` for `atr_period` at the last
index of the history do not take their insufficient-data branches. -/
theorem C35_optimizer_windows (candles : List SignalvE.Candle) (draws : Nat → Draw)
    (h100 : 100 ≤ candles.length) (hlen : candles.length < 2 ^ 64)
    (hb : ∀ i, i < 100 → SignalvE.drawInBounds (draws i)) :
    99 ≤ candles.dropLast.length ∧
    (∀ i, i < 100 →
      max (SignalvE.candidate (draws i)).sma_long (SignalvE.candidate (draws i)).rsi_period + 1
          ≤ 71 ∧
        ¬ (candles.dropLast.length < toSizeT (wrapInt
          (max (SignalvE.candidate (draws i)).sma_long
            (SignalvE.candidate (draws i)).rsi_period + 1)))) ∧
    ∃ p, SignalvE.optimalParams candles draws = some p ∧
      ¬ smaInsufficient (sizePred candles.length) p.sma_short ∧
      ¬ smaInsufficient (sizePred candles.length) p.sma_long ∧
      ¬ SignalvE.needsPrevious (sizePred candles.length) p.rsi_period ∧
      ¬ SignalvE.needsPrevious (sizePred candles.length) p.atr_period := by
  have hdl : candles.dropLast.length = candles.length - 1 := List.length_dropLast _
  refine ⟨by omega, ?_, ?_⟩
  · intro i hi
    obtain ⟨h1, h2, h3, _⟩ := candidateE_bounds (draws i) (hb i hi)
    have hm : max (SignalvE.candidate (draws i)).sma_long
        (SignalvE.candidate (draws i)).rsi_period ≤ 70 := max_le h2.2 (by omega)
    have hm0 : 0 ≤ max (SignalvE.candidate (draws i)).sma_long
        (SignalvE.candidate (draws i)).rsi_period := le_trans (by omega) (le_max_right _ _)
    refine ⟨by omega, ?_⟩
    unfold toSizeT wrapInt
    omega
  · obtain ⟨p, hp, ⟨a1, a2⟩, ⟨b1, b2⟩, ⟨c1, c2⟩, d⟩ :=
      randomE_periods candles.dropLast (by omega) draws hb
    have hsp : sizePred candles.length = candles.length - 1 :=
      sizePred_eq _ (by omega) hlen
    refine ⟨p, hp, ?_, ?_, ?_, ?_⟩
    · rw [hsp]
      unfold smaInsufficient sizeSucc toSizeT
      omega
    · rw [hsp]
      unfold smaInsufficient sizeSucc toSizeT
      omega
    · rw [hsp]
      unfold SignalvE.needsPrevious sizeSucc toSizeT wrapInt
      omega
    · rw [hsp, d]
      unfold SignalvE.needsPrevious sizeSucc toSizeT wrapInt
      omega

/-- C35 on a history of 100 bars, every iteration drawing `(30, 40, 21)`: the
candidate `(30, 70, 21)` needs 71 bars, fewer than the 99 optimization bars. -/
theorem C35_optimizer_windows_witness :
    ∃ p, SignalvE.optimalParams (List.replicate 100 ⟨"bar", 1, 1, 1, 1, 0⟩)
        (fun _ => ⟨30, 40, 21⟩) = some p ∧
      ¬ smaInsufficient (sizePred (List.replicate 100
        (⟨"bar", 1, 1, 1, 1, 0⟩ : SignalvE.Candle)).length) p.sma_short ∧
      ¬ smaInsufficient (sizePred (List.replicate 100
        (⟨"bar", 1, 1, 1, 1, 0⟩ : SignalvE.Candle)).length) p.sma_long ∧
      ¬ SignalvE.needsPrevious (sizePred (List.replicate 100
        (⟨"bar", 1, 1, 1, 1, 0⟩ : SignalvE.Candle)).length) p.rsi_period ∧
      ¬ SignalvE.needsPrevious (sizePred (List.replicate 100
        (⟨"bar", 1, 1, 1, 1, 0⟩ : SignalvE.Candle)).length) p.atr_period :=
  (C35_optimizer_windows (List.replicate 100 ⟨"bar", 1, 1, 1, 1, 0⟩) (fun _ => ⟨30, 40, 21⟩)
    (by simp) (by simp)
    (fun _ _ => (by unfold SignalvE.drawInBounds; decide :
      SignalvE.drawInBounds ⟨30, 40, 21⟩))).2.2

namespace Signalv

/-- On a positive close, a truncated atrPercent above `0.10` comes from a
positive ATR. -/
theorem atrPercent_pos (atr entry pct : ℚ) (h : SignalvG.atrPercent atr entry = some pct)
    (he : 0 < entry) (hgt : 1 / 10 < pct) : 0 < atr := by
  by_contra hna
  have hatr : atr ≤ 0 := not_lt.mp hna
  have hsc : atr / entry * 100 * 1000 ≤ 0 := by
    have : atr / entry ≤ 0 := div_nonpos_of_nonpos_of_nonneg hatr he.le
    linarith
  have htr : (if 0 ≤ atr / entry * 100 * 1000 then ⌊atr / entry * 100 * 1000⌋
      else ⌈atr / entry * 100 * 1000⌉) ≤ 0 := by
    split_ifs with h0
    · have : atr / entry * 100 * 1000 = 0 := le_antisymm hsc h0
      rw [this]
      simp
    · rw [Int.ceil_le]
      exact_mod_cast hsc
  unfold SignalvG.atrPercent at h
  rw [if_neg he.ne'] at h
  simp only at h
  split_ifs at h htr with h0 hr
  · have hpct := Option.some.inj h
    have hq : ((⌊atr / entry * 100 * 1000⌋ : Int) : ℚ) ≤ 0 := by exact_mod_cast htr
    linarith
  · have hpct := Option.some.inj h
    have hq : ((⌈atr / entry * 100 * 1000⌉ : Int) : ℚ) ≤ 0 := by exact_mod_cast htr
    linarith

end Signalv

/-- C36 (ordered levels): for a positive last close, every report of the
decision step of `process_ticker` in `signalv_g.cpp` whose final signal is not
HOLD has `atr > 0` on the last bar, and its levels are ordered: a BUY has
`stopLoss < entry < takeProfit` and a SELL has `takeProfit < entry < stopLoss`,
where entry is the last close. -/
theorem C36_levels_ordered (ticker : String) (candles : List SignalvG.Candle)
    (p : SignalvG.StrategyParams) (log log' : List String) (r : SignalvG.Report)
    (last : SignalvG.Candle)
    (h : SignalvG.decisionStep ticker candles p log = some (r, log'))
    (hl : candles.getLast? = some last) (hc : 0 < last.close)
    (hne : r.outcome.final_signal ≠ "HOLD") :
    0 < last.atr ∧
    ((r.outcome.final_signal = "BUY" ∧ ∃ sl tp, r.outcome.levels = some (sl, tp) ∧
        sl < last.close ∧ last.close < tp) ∨
      (r.outcome.final_signal = "SELL" ∧ ∃ sl tp, r.outcome.levels = some (sl, tp) ∧
        tp < last.close ∧ last.close < sl)) := by
  obtain ⟨last', hl', _, hv, hcases⟩ := decisionStepG_levels _ _ _ _ _ _ h hne
  rw [hl] at hl'
  cases hl'
  obtain ⟨_, _, hp, hvd, _⟩ := decisionStepG_inv _ _ _ _ _ _ h
  have hgt : 1 / 10 < r.current_atr_percent := by
    rw [hvd, decide_eq_true_eq] at hv
    exact hv
  have hp' : SignalvG.atrPercent last.atr last.close = some r.current_atr_percent := by
    obtain ⟨l2, hl2, hp2, _⟩ := decisionStepG_inv _ _ _ _ _ _ h
    rw [hl] at hl2
    cases hl2
    exact hp2
  have hatr := atrPercent_pos _ _ _ hp' hc hgt
  refine ⟨hatr, ?_⟩
  rcases hcases with ⟨hb, hlv, _⟩ | ⟨hs, hlv, _⟩
  · left
    exact ⟨hb, _, _, hlv, by linarith, by linarith⟩
  · right
    exact ⟨hs, _, _, hlv, by linarith, by linarith⟩

/-- C36 on three bars with the closes 100, 98, 101 and the ATR 1 on the last
bar: the BUY at 101 has the stop 99.5 and the target 103. -/
theorem C36_levels_ordered_witness :
    (0 : ℚ) < 1 ∧
    ((("BUY" : String) = "BUY" ∧ ∃ sl tp, some ((199 : ℚ) / 2, (103 : ℚ)) = some (sl, tp) ∧
        sl < (101 : ℚ) ∧ (101 : ℚ) < tp) ∨
      (("BUY" : String) = "SELL" ∧ ∃ sl tp, some ((199 : ℚ) / 2, (103 : ℚ)) = some (sl, tp) ∧
        tp < (101 : ℚ) ∧ (101 : ℚ) < sl)) :=
  C36_levels_ordered "EURUSD"
    (([100, 98, 101] : List ℚ).map (fun c => ⟨"d", c, c, c, c, 0, 1⟩))
    { sma_short := 1, sma_long := 2, rsi_period := 2 } []
    (logTrade "d" "EURUSD" "BUY" 101 (199 / 2) 103 [])
    { optimal_params := { sma_short := 1, sma_long := 2, rsi_period := 2 },
      current_atr_percent := 99 / 100, is_volatile_enough := true,
      sma_short := 101, sma_long := 199 / 2, rsi := 60, use_volume := false,
      obv_direction := 0, signal := "BUY",
      outcome := { final_signal := "BUY", reason := "", levels := some (199 / 2, 103) },
      high_volatility := false, extreme_volatility := true }
    ⟨"d", 101, 101, 101, 101, 0, 1⟩
    (by
      rw [decisionStepG_three_bars 1 (99 / 100) [] atrPercent_examples.1,
        show decide ((99 : ℚ) / 100 > 1 / 10) = true by norm_num,
        settleG_trade _ _ _ _ _ _ (by decide)]
      norm_num)
    (by simp) (by norm_num) (by decide)

namespace Signalv

/-! ## Adding a constant to every close -/

end Signalv

namespace Signalv

/-! ## The first bar of the OBV window -/

/-- The first and the last value of the running series: the last exceeds the
first by the signed volumes of the last `p - 1` bars. -/
theorem obvSeries_ends (bars : List (ℚ × Int)) (p : Nat) (hp : 1 ≤ p) :
    (obvSeries bars p).head? = some (signedVolume bars (bars.length - p)) ∧
    (obvSeries bars p).getLast? =
      some (signedVolume bars (bars.length - p) + tailSignedVolume bars p) := by
  obtain ⟨q, rfl⟩ : ∃ q, p = q + 1 := ⟨p - 1, by omega⟩
  unfold obvSeries tailSignedVolume
  constructor
  · rw [List.range_succ_eq_map]
    simp [List.range']
  · rw [List.range_succ, List.map_append, List.map_singleton, List.getLast?_concat]
    simp [List.range'_succ]

/-- With a full window the direction is the sign of the sum of the signed
volumes of the last `p - 1` bars. -/
theorem obvDirectionSpec_eq_sign (bars : List (ℚ × Int)) (p : Nat) (hp : 1 ≤ p)
    (hlen : p + 1 ≤ bars.length) :
    obvDirectionSpec bars p = Int.sign (tailSignedVolume bars p) := by
  obtain ⟨hh, hl⟩ := obvSeries_ends bars p hp
  unfold obvDirectionSpec
  rw [if_neg (by omega), hh, hl]
  simp only []
  rcases lt_trichotomy (tailSignedVolume bars p) 0 with h | h | h
  · rw [if_neg (by omega), if_pos (by omega), Int.sign_eq_neg_one_of_neg h]
  · rw [if_neg (by omega), if_neg (by omega), h, Int.sign_zero]
  · rw [if_pos (by omega), Int.sign_eq_one_of_pos h]

/-- The signed volume of a bar depends on the bar and on the close of the bar
before it. -/
theorem signedVolume_congr (b1 b2 : List (ℚ × Int)) (k : Nat)
    (hfst : b1.map Prod.fst = b2.map Prod.fst) (hsame : ∀ i, i ≠ k → b1[i]? = b2[i]?)
    (i : Nat) (hi : i ≠ k) : signedVolume b1 i = signedVolume b2 i := by
  have hprev : (b1[i - 1]?).map Prod.fst = (b2[i - 1]?).map Prod.fst := by
    have := congrArg (fun l => l[i - 1]?) hfst
    simpa [List.getElem?_map] using this
  unfold signedVolume
  rw [hsame i hi]
  cases h2 : b2[i]? with
  | none => rfl
  | some cur =>
    cases hp1 : b1[i - 1]? with
    | none =>
      cases hp2 : b2[i - 1]? with
      | none => rfl
      | some prev2 => rw [hp1, hp2] at hprev; simp at hprev
    | some prev1 =>
      cases hp2 : b2[i - 1]? with
      | none => rw [hp1, hp2] at hprev; simp at hprev
      | some prev2 =>
        rw [hp1, hp2] at hprev
        simp only [Option.map_some', Option.some.injEq] at hprev
        simp only [hprev]

/-- Changing the volume of the bar `size - p` leaves the signed volumes of the
last `p - 1` bars, and so the direction, unchanged. -/
theorem obvDirectionSpec_congr (b1 b2 : List (ℚ × Int)) (p : Nat) (hp : 1 ≤ p)
    (hlen : p + 1 ≤ b2.length)
    (hfst : b1.map Prod.fst = b2.map Prod.fst)
    (hsame : ∀ i, i ≠ b2.length - p → b1[i]? = b2[i]?) :
    obvDirectionSpec b1 p = obvDirectionSpec b2 p := by
  have hl : b1.length = b2.length := by
    have := congrArg List.length hfst
    simpa using this
  rw [obvDirectionSpec_eq_sign b1 p hp (by omega), obvDirectionSpec_eq_sign b2 p hp hlen]
  congr 1
  unfold tailSignedVolume
  rw [hl]
  congr 1
  apply List.map_congr_left
  intro i hi
  rw [List.mem_range'_1] at hi
  exact signedVolume_congr b1 b2 (b2.length - p) hfst hsame i (by omega)

/-- A loop of `computeOBVDirection` of one iteration leaves one value in the
history, and the direction is 0. -/
theorem obv_period_one (n : Nat) (body : Nat → Int × List Int → Option (Int × List Int))
    (u : Int) (hbody : body (n - 1) (0, []) = some (u, [u])) :
    (match forLoop body (n - 1) 1 (0, []) with
      | none => none
      | some (_, history) =>
        match history.getLast?, history.head? with
        | some back, some front =>
          if back > front then some (1 : Int)
          else if back < front then some (-1)
          else some 0
        | _, _ => none) = some 0 := by
  simp [forLoop, hbody]

theorem computeOBVDirectionG_one (candles : List SignalvG.Candle)
    (hlen : candles.length < 2 ^ 64) : SignalvG.computeOBVDirection candles 1 = some 0 := by
  unfold SignalvG.computeOBVDirection
  by_cases hg : candles.length < 2
  · rw [if_pos (by unfold toSizeT wrapInt; omega)]
  · rw [if_neg (by unfold toSizeT wrapInt; omega)]
    have hs : toSizeT ((candles.length : Int) - 1) = candles.length - 1 := by
      unfold toSizeT
      omega
    have hc : candles.length - (candles.length - 1) = 1 := by omega
    simp only [hs, hc]
    exact obv_period_one candles.length (SignalvG.obvBody candles) _
      (obvBodyG_step candles (candles.length - 1) (0, []) (by omega) (by omega) hlen)

theorem computeOBVDirectionE_one (candles : List SignalvE.Candle)
    (hlen : candles.length < 2 ^ 64) : SignalvE.computeOBVDirection candles 1 = some 0 := by
  unfold SignalvE.computeOBVDirection
  by_cases hg : candles.length < 2
  · rw [if_pos (by unfold toSizeT wrapInt; omega)]
  · rw [if_neg (by unfold toSizeT wrapInt; omega)]
    have hs : toSizeT ((candles.length : Int) - 1) = candles.length - 1 := by
      unfold toSizeT
      omega
    have hc : candles.length - (candles.length - 1) = 1 := by omega
    simp only [hs, hc]
    exact obv_period_one candles.length (SignalvE.obvBody candles) _
      (obvBodyE_step candles (candles.length - 1) (0, []) (by omega) (by omega) hlen)

end Signalv

/-- C38, as stated, fails when the running total leaves `long long`: on three
bars with rising closes and the volumes `0, 2^63 - 1, 1`, period 2, the signed
volume of the last `period - 1 = 1` bar is `+1` (sign `+1`), yet
`computeOBVDirection` returns `-1`, and changing the volume of the bar
`size - period` from `2^63 - 1` to `0` changes the result to `+1`.  Both
variants. -/
theorem C38_obv_first_bar_overflow :
    (SignalvG.computeOBVDirection
        [⟨"a", 1, 1, 1, 1, 0, 0⟩, ⟨"b", 2, 2, 2, 2, 9223372036854775807, 0⟩,
          ⟨"c", 3, 3, 3, 3, 1, 0⟩] 2 = some (-1) ∧
      Int.sign (tailSignedVolume (([⟨"a", 1, 1, 1, 1, 0, 0⟩,
        ⟨"b", 2, 2, 2, 2, 9223372036854775807, 0⟩, ⟨"c", 3, 3, 3, 3, 1, 0⟩] :
          List SignalvG.Candle).map barG) 2) = 1 ∧
      SignalvG.computeOBVDirection
        [⟨"a", 1, 1, 1, 1, 0, 0⟩, ⟨"b", 2, 2, 2, 2, 0, 0⟩, ⟨"c", 3, 3, 3, 3, 1, 0⟩] 2
          = some 1) ∧
    (SignalvE.computeOBVDirection
        [⟨"a", 1, 1, 1, 1, 0⟩, ⟨"b", 2, 2, 2, 2, 9223372036854775807⟩,
          ⟨"c", 3, 3, 3, 3, 1⟩] 2 = some (-1) ∧
      Int.sign (tailSignedVolume (([⟨"a", 1, 1, 1, 1, 0⟩,
        ⟨"b", 2, 2, 2, 2, 9223372036854775807⟩, ⟨"c", 3, 3, 3, 3, 1⟩] :
          List SignalvE.Candle).map barE) 2) = 1 ∧
      SignalvE.computeOBVDirection
        [⟨"a", 1, 1, 1, 1, 0⟩, ⟨"b", 2, 2, 2, 2, 0⟩, ⟨"c", 3, 3, 3, 3, 1⟩] 2 = some 1) := by
  refine ⟨⟨?_, ?_, ?_⟩, ⟨?_, ?_, ?_⟩⟩ <;> decide

/-- C38, amended: for `period ≥ 1` (the period plus one an `int`) and
`candles.size() ≥ period + 1` (below `2^64`), provided every value of the
running series fits in a `long long`, `computeOBVDirection` returns the sign of
the sum of the signed volumes of the last `period - 1` bars only: the signed
volume of the first bar of the window is ignored.  So a history that differs
only in the volume of the bar `size - period` (its running series in range too)
gives the same result.  `computeOBVDirection(candles, 1)` is 0 on every
history, without any proviso.  Both variants. -/
theorem C38_obv_first_bar_amended (cg cg' : List SignalvG.Candle)
    (ce ce' : List SignalvE.Candle) (p : Nat)
    (hlg : cg.length < 2 ^ 64) (hle : ce.length < 2 ^ 64) (hpi : p + 1 < 2 ^ 31) (hp : 1 ≤ p)
    (hfg : p + 1 ≤ cg.length) (hfe : p + 1 ≤ ce.length)
    (hcg : cg'.map SignalvG.Candle.close = cg.map SignalvG.Candle.close)
    (hsg : ∀ i, i ≠ cg.length - p → cg'[i]? = cg[i]?)
    (hce : ce'.map SignalvE.Candle.close = ce.map SignalvE.Candle.close)
    (hse : ∀ i, i ≠ ce.length - p → ce'[i]? = ce[i]?)
    (hrg : ∀ x ∈ obvSeries (cg.map barG) p, -2 ^ 63 ≤ x ∧ x < 2 ^ 63)
    (hrg' : ∀ x ∈ obvSeries (cg'.map barG) p, -2 ^ 63 ≤ x ∧ x < 2 ^ 63)
    (hre : ∀ x ∈ obvSeries (ce.map barE) p, -2 ^ 63 ≤ x ∧ x < 2 ^ 63)
    (hre' : ∀ x ∈ obvSeries (ce'.map barE) p, -2 ^ 63 ≤ x ∧ x < 2 ^ 63) :
    (SignalvG.computeOBVDirection cg (p : Int)
        = some (Int.sign (tailSignedVolume (cg.map barG) p)) ∧
      SignalvG.computeOBVDirection cg' (p : Int) = SignalvG.computeOBVDirection cg (p : Int)) ∧
    (SignalvE.computeOBVDirection ce (p : Int)
        = some (Int.sign (tailSignedVolume (ce.map barE) p)) ∧
      SignalvE.computeOBVDirection ce' (p : Int) = SignalvE.computeOBVDirection ce (p : Int)) ∧
    (∀ c : List SignalvG.Candle, c.length < 2 ^ 64 →
      SignalvG.computeOBVDirection c 1 = some 0) ∧
    (∀ c : List SignalvE.Candle, c.length < 2 ^ 64 →
      SignalvE.computeOBVDirection c 1 = some 0) := by
  have hlg' : cg'.length = cg.length := by
    have := congrArg List.length hcg
    simpa using this
  have hle' : ce'.length = ce.length := by
    have := congrArg List.length hce
    simpa using this
  refine ⟨⟨?_, ?_⟩, ⟨?_, ?_⟩, fun c hc => computeOBVDirectionG_one c hc,
    fun c hc => computeOBVDirectionE_one c hc⟩
  · rw [computeOBVDirectionG_eq cg p hlg hpi hp hrg,
      obvDirectionSpec_eq_sign _ p hp (by rw [List.length_map]; exact hfg)]
  · rw [computeOBVDirectionG_eq cg p hlg hpi hp hrg,
      computeOBVDirectionG_eq cg' p (by omega) hpi hp hrg']
    congr 1
    apply obvDirectionSpec_congr _ _ p hp (by rw [List.length_map]; exact hfg)
    · rw [List.map_map, List.map_map]
      exact hcg
    · intro i hi
      rw [List.length_map] at hi
      rw [List.getElem?_map, List.getElem?_map, hsg i hi]
  · rw [computeOBVDirectionE_eq ce p hle hpi hp hre,
      obvDirectionSpec_eq_sign _ p hp (by rw [List.length_map]; exact hfe)]
  · rw [computeOBVDirectionE_eq ce p hle hpi hp hre,
      computeOBVDirectionE_eq ce' p (by omega) hpi hp hre']
    congr 1
    apply obvDirectionSpec_congr _ _ p hp (by rw [List.length_map]; exact hfe)
    · rw [List.map_map, List.map_map]
      exact hce
    · intro i hi
      rw [List.length_map] at hi
      rw [List.getElem?_map, List.getElem?_map, hse i hi]

/-- C38, amended, on four bars with the closes 1, 2, 3, 2 and the volumes
5, 5, 7, 20, period 3: the result is the sign of `7 - 20`, and it is the same
with the volume 9 on the bar `size - period = 1`. -/
theorem C38_obv_first_bar_amended_witness :
    SignalvG.computeOBVDirection
        [⟨"a", 1, 1, 1, 1, 5, 0⟩, ⟨"b", 2, 2, 2, 2, 5, 0⟩, ⟨"c", 3, 3, 3, 3, 7, 0⟩,
          ⟨"d", 2, 2, 2, 2, 20, 0⟩] ((3 : Nat) : Int)
        = some (Int.sign (tailSignedVolume (([⟨"a", 1, 1, 1, 1, 5, 0⟩, ⟨"b", 2, 2, 2, 2, 5, 0⟩,
          ⟨"c", 3, 3, 3, 3, 7, 0⟩, ⟨"d", 2, 2, 2, 2, 20, 0⟩] : List SignalvG.Candle).map barG)
            3)) ∧
      SignalvG.computeOBVDirection
        [⟨"a", 1, 1, 1, 1, 5, 0⟩, ⟨"b", 2, 2, 2, 2, 9, 0⟩, ⟨"c", 3, 3, 3, 3, 7, 0⟩,
          ⟨"d", 2, 2, 2, 2, 20, 0⟩] ((3 : Nat) : Int)
        = SignalvG.computeOBVDirection
          [⟨"a", 1, 1, 1, 1, 5, 0⟩, ⟨"b", 2, 2, 2, 2, 5, 0⟩, ⟨"c", 3, 3, 3, 3, 7, 0⟩,
            ⟨"d", 2, 2, 2, 2, 20, 0⟩] ((3 : Nat) : Int) :=
  (C38_obv_first_bar_amended
    [⟨"a", 1, 1, 1, 1, 5, 0⟩, ⟨"b", 2, 2, 2, 2, 5, 0⟩, ⟨"c", 3, 3, 3, 3, 7, 0⟩,
      ⟨"d", 2, 2, 2, 2, 20, 0⟩]
    [⟨"a", 1, 1, 1, 1, 5, 0⟩, ⟨"b", 2, 2, 2, 2, 9, 0⟩, ⟨"c", 3, 3, 3, 3, 7, 0⟩,
      ⟨"d", 2, 2, 2, 2, 20, 0⟩]
    [⟨"a", 1, 1, 1, 1, 5⟩, ⟨"b", 2, 2, 2, 2, 5⟩, ⟨"c", 3, 3, 3, 3, 7⟩, ⟨"d", 2, 2, 2, 2, 20⟩]
    [⟨"a", 1, 1, 1, 1, 5⟩, ⟨"b", 2, 2, 2, 2, 9⟩, ⟨"c", 3, 3, 3, 3, 7⟩, ⟨"d", 2, 2, 2, 2, 20⟩]
    3 (by simp) (by simp) (by decide) (by decide) (by simp) (by simp) (by simp)
    (fun i hi => match i, hi with
      | 0, _ => rfl
      | 1, h => absurd rfl h
      | 2, _ => rfl
      | 3, _ => rfl
      | _ + 4, _ => rfl)
    (by simp)
    (fun i hi => match i, hi with
      | 0, _ => rfl
      | 1, h => absurd rfl h
      | 2, _ => rfl
      | 3, _ => rfl
      | _ + 4, _ => rfl)
    (by decide) (by decide) (by decide) (by decide)).1

namespace Signalv

/-- The two volatility warnings of a report of the decision step of
`signalv_g.cpp`. -/
theorem decisionStepG_flags (ticker : String) (candles : List SignalvG.Candle)
    (p : SignalvG.StrategyParams) (log log' : List String) (r : SignalvG.Report)
    (h : SignalvG.decisionStep ticker candles p log = some (r, log')) :
    r.high_volatility = decide (r.current_atr_percent > 3 / 10 ∧ r.current_atr_percent < 1 / 2) ∧
    r.extreme_volatility = decide (r.current_atr_percent > 1 / 2) := by
  unfold SignalvG.decisionStep at h
  simp only [List.length_map] at h
  cases hl : candles.getLast? with
  | none => simp [hl] at h
  | some last =>
    simp only [hl] at h
    cases hp : SignalvG.atrPercent last.atr last.close with
    | none => simp [hp] at h
    | some pct =>
      simp only [hp] at h
      cases hs : SignalvG.computeSMA (candles.map SignalvG.Candle.close)
          (sizePred candles.length) p.sma_short with
      | none => simp [hs] at h
      | some s =>
        cases hlg : SignalvG.computeSMA (candles.map SignalvG.Candle.close)
            (sizePred candles.length) p.sma_long with
        | none => simp [hs, hlg] at h
        | some l =>
          cases hr : SignalvG.computeRSI (candles.map SignalvG.Candle.close)
              (sizePred candles.length) p.rsi_period with
          | none => simp [hs, hlg, hr] at h
          | some rsi =>
            simp only [hs, hlg, hr] at h
            cases ho : (if SignalvG.hasVolumeData candles then
                SignalvG.computeOBVDirection candles 14 else some 0) with
            | none => simp [ho] at h
            | some o =>
              simp only [ho, Option.some.injEq, Prod.mk.injEq] at h
              obtain ⟨h1, _⟩ := h
              subst h1
              exact ⟨rfl, rfl⟩

end Signalv

/-- C39 fails on `signalv_g.cpp` at a truncated atrPercent of exactly `0.50`:
on three bars with the closes 100, 98, 101 and the ATR 0.5051 on the last bar
the atrPercent is `0.500 > 0.30`, a BUY is traded, and neither the
high-volatility nor the extreme-volatility warning is produced.  For every
report of the decision step the two warnings never come together; an
atrPercent above `0.30` other than `0.50` gets exactly one of them, an
atrPercent of `0.50` gets none, and one of at most `0.30` gets none. -/
theorem C39_half_percent_unclassified :
    SignalvG.decisionStep "EURUSD"
        (([100, 98, 101] : List ℚ).map (fun c => ⟨"d", c, c, c, c, 0, 5051 / 10000⟩))
        { sma_short := 1, sma_long := 2, rsi_period := 2 } [] =
      some ({ optimal_params := { sma_short := 1, sma_long := 2, rsi_period := 2 },
              current_atr_percent := 1 / 2, is_volatile_enough := true,
              sma_short := 101, sma_long := 199 / 2, rsi := 60, use_volume := false,
              obv_direction := 0, signal := "BUY",
              outcome := { final_signal := "BUY", reason := "",
                           levels := some (2004847 / 20000, 510051 / 5000) },
              high_volatility := false, extreme_volatility := false },
        logTrade "d" "EURUSD" "BUY" 101 (2004847 / 20000) (510051 / 5000) []) ∧
    (3 : ℚ) / 10 < 1 / 2 ∧
    (∀ (ticker : String) (candles : List SignalvG.Candle) (p : SignalvG.StrategyParams)
      (log log' : List String) (r : SignalvG.Report),
      SignalvG.decisionStep ticker candles p log = some (r, log') →
      ¬ (r.high_volatility = true ∧ r.extreme_volatility = true) ∧
      (r.current_atr_percent > 3 / 10 → r.current_atr_percent ≠ 1 / 2 →
        (r.high_volatility = true ∨ r.extreme_volatility = true)) ∧
      (r.current_atr_percent = 1 / 2 →
        r.high_volatility = false ∧ r.extreme_volatility = false) ∧
      (r.current_atr_percent ≤ 3 / 10 →
        r.high_volatility = false ∧ r.extreme_volatility = false)) := by
  refine ⟨?_, by norm_num, ?_⟩
  · have hp : SignalvG.atrPercent (5051 / 10000) 101 = some (1 / 2) := by
      have e : ⌊(5051 : ℚ) / 10000 / 101 * 100 * 1000⌋ = 500 := by
        norm_num [Int.floor_eq_iff]
      rw [(atrPercent_eq (5051 / 10000) 101 (by norm_num) (by norm_num) (by norm_num)).2, e]
      norm_num
    rw [decisionStepG_three_bars (5051 / 10000) (1 / 2) [] hp,
      show decide ((1 : ℚ) / 2 > 1 / 10) = true by norm_num,
      settleG_trade _ _ _ _ _ _ (by decide)]
    norm_num
  · intro ticker candles p log log' r h
    obtain ⟨hh, he⟩ := decisionStepG_flags _ _ _ _ _ _ h
    rw [hh, he]
    simp only [decide_eq_true_eq, decide_eq_false_iff_not]
    refine ⟨?_, ?_, ?_, ?_⟩
    · rintro ⟨⟨_, a⟩, b⟩
      linarith
    · intro a b
      rcases lt_or_gt_of_ne b with c | c
      · exact Or.inl ⟨a, c⟩
      · exact Or.inr c
    · intro a
      rw [a]
      norm_num
    · intro a
      constructor
      · rintro ⟨b, _⟩
        linarith
      · intro b
        linarith

namespace Signalv

/-! ## `simulateBacktest` returns a value for all periods from 1 -/

theorem forLoop_total {σ : Type} (body : Nat → σ → Option σ) :
    ∀ (n i : Nat) (s : σ), (∀ k, i ≤ k → k < i + n → ∀ t, ∃ t', body k t = some t') →
      ∃ s', forLoop body i n s = some s' := by
  intro n
  induction n with
  | zero => intro i s _; exact ⟨s, rfl⟩
  | succ n ih =>
    intro i s h
    obtain ⟨t', ht⟩ := h i (le_refl _) (by omega) s
    obtain ⟨s', hs⟩ := ih (i + 1) t' (fun k hk1 hk2 t => h k (by omega) (by omega) t)
    exact ⟨s', by rw [forLoop, ht]; exact hs⟩

theorem simBodyG_total (closes : List ℚ) (params : SignalvG.StrategyParams) (ss sl rp : Nat)
    (hss : params.sma_short = (ss : Int)) (hsl : params.sma_long = (sl : Int))
    (hrp : params.rsi_period = (rp : Int))
    (hlen : closes.length < 2 ^ 64) (h1 : 1 ≤ ss) (hs31 : ss < 2 ^ 31) (h2 : 1 ≤ sl)
    (h3 : 1 ≤ rp) (hpi : rp + 1 < 2 ^ 31) (i : Nat) (hi : replayStart sl rp ≤ i)
    (hil : i < closes.length) (s : SignalvG.SimState) :
    ∃ s', SignalvG.simBody closes params i s = some s' := by
  have hsl_le : sl ≤ max sl rp := le_max_left _ _
  have hrp_le : rp ≤ max sl rp := le_max_right _ _
  unfold replayStart at hi
  have ha : ∃ x, SignalvG.computeSMA closes i (ss : Int) = some x := by
    by_cases hc : ss ≤ i + 1
    · exact ⟨_, computeSMAG_eq_mean closes i ss hlen hil h1 hc⟩
    · refine ⟨0, ?_⟩
      unfold SignalvG.computeSMA
      rw [if_pos (smaInsufficient_of_short i (ss : Int) (by exact_mod_cast hs31) (by omega))]
  obtain ⟨x, hx⟩ := ha
  have hb := computeSMAG_eq_mean closes i sl hlen hil h2 (by omega)
  have hc := (computeRSI_eq_rsiSpec closes i rp hlen hpi h3 (by omega) hil).2
  unfold SignalvG.simBody
  rw [hss, hsl, hrp, hx, hb, hc, List.getElem?_eq_getElem hil]
  simp only []
  split_ifs <;> exact ⟨_, rfl⟩

theorem simulateBacktestG_returns (candles : List SignalvG.Candle)
    (params : SignalvG.StrategyParams) (ss sl rp : Nat)
    (hss : params.sma_short = (ss : Int)) (hsl : params.sma_long = (sl : Int))
    (hrp : params.rsi_period = (rp : Int))
    (hlen : candles.length < 2 ^ 64) (h1 : 1 ≤ ss) (hs31 : ss < 2 ^ 31) (h2 : 1 ≤ sl)
    (h3 : 1 ≤ rp) (hpi : max sl rp + 1 < 2 ^ 31) :
    ∃ x, SignalvG.simulateBacktest candles params = some x := by
  have hsl_le : sl ≤ max sl rp := le_max_left _ _
  have hrp_le : rp ≤ max sl rp := le_max_right _ _
  by_cases hf : replayStart sl rp ≤ candles.length
  · have hstart := replay_start_eq sl rp hpi
    obtain ⟨s', hs'⟩ := forLoop_total
      (SignalvG.simBody (candles.map SignalvG.Candle.close) params)
      (candles.length - replayStart sl rp) (replayStart sl rp) ⟨0, false, 0⟩
      (fun k hk1 hk2 t => simBodyG_total _ params ss sl rp hss hsl hrp
        (by rw [List.length_map]; exact hlen) h1 hs31 h2 h3 (by omega) k hk1
        (by rw [List.length_map]; omega) t)
    refine ⟨s'.profit, ?_⟩
    unfold SignalvG.simulateBacktest SignalvG.simulateBacktestAt
    rw [hsl, hrp, hstart, if_neg (by omega), closes_copyG]
    simp only [hs']
  · refine ⟨-1000000000, ?_⟩
    apply simulateBacktestG_short
    · rw [hsl]; exact_mod_cast (by omega : sl < 2 ^ 31)
    · rw [hrp]; exact_mod_cast (by omega : rp < 2 ^ 31)
    · unfold replayStart at hf
      rw [hsl, hrp, ← Nat.cast_max]
      omega

end Signalv

/-- C40 (the two current variants simulate identically): for every bar history
(fewer than `2^64` bars) and every parameter set with `sma_short`, `sma_long`
and `rsi_period` at least 1 (each an `int`, as is the maximum of the last two
plus one), `simulateBacktest` of `signalv_e.cpp` and `simulateBacktest` of
`signalv_g.cpp` both return, and return the same value, on the same closes
(exact arithmetic). -/
theorem C40_variants_simulate_identically (ce : List SignalvE.Candle)
    (cg : List SignalvG.Candle) (pe : SignalvE.StrategyParams) (pg : SignalvG.StrategyParams)
    (ss sl rp : Nat)
    (hcl : ce.map SignalvE.Candle.close = cg.map SignalvG.Candle.close)
    (hsse : pe.sma_short = (ss : Int)) (hsle : pe.sma_long = (sl : Int))
    (hrpe : pe.rsi_period = (rp : Int))
    (hssg : pg.sma_short = (ss : Int)) (hslg : pg.sma_long = (sl : Int))
    (hrpg : pg.rsi_period = (rp : Int))
    (hlen : ce.length < 2 ^ 64) (h1 : 1 ≤ ss) (hs31 : ss < 2 ^ 31) (h2 : 1 ≤ sl) (h3 : 1 ≤ rp)
    (hpi : max sl rp + 1 < 2 ^ 31) :
    ∃ x, SignalvE.simulateBacktest ce pe = some x ∧ SignalvG.simulateBacktest cg pg = some x := by
  have hl : cg.length = ce.length := by
    have := congrArg List.length hcl
    simpa using this.symm
  obtain ⟨x, hx⟩ := simulateBacktestG_returns cg pg ss sl rp hssg hslg hrpg (by omega) h1 hs31
    h2 h3 hpi
  refine ⟨x, ?_, hx⟩
  rw [simulateBacktest_E_eq_G ce cg pe pg hcl (by rw [hsse, hssg]) (by rw [hsle, hslg])
    (by rw [hrpe, hrpg]) (by rw [hrpe]; exact_mod_cast (by omega : rp ≠ 0)) hlen, hx]

/-- C40 on six bars with the periods 3, 2, 2 (a short period above the long
one). -/
theorem C40_variants_simulate_identically_witness :
    ∃ x, SignalvE.simulateBacktest
        (([1, 3, 2, 5, 4, 6] : List ℚ).map (fun c => (⟨"", c, c, c, c, 0⟩ : SignalvE.Candle)))
        { sma_short := 3, sma_long := 2, rsi_period := 2 } = some x ∧
      SignalvG.simulateBacktest
        (([1, 3, 2, 5, 4, 6] : List ℚ).map
          (fun c => (⟨"", c, c, c, c, 7, 1⟩ : SignalvG.Candle)))
        { sma_short := 3, sma_long := 2, rsi_period := 2 } = some x :=
  C40_variants_simulate_identically
    (([1, 3, 2, 5, 4, 6] : List ℚ).map (fun c => ⟨"", c, c, c, c, 0⟩))
    (([1, 3, 2, 5, 4, 6] : List ℚ).map (fun c => ⟨"", c, c, c, c, 7, 1⟩))
    { sma_short := 3, sma_long := 2, rsi_period := 2 }
    { sma_short := 3, sma_long := 2, rsi_period := 2 } 3 2 2 (by simp) rfl rfl rfl rfl rfl rfl
    (by simp) (by decide) (by decide) (by decide) (by decide) (by decide)
